import Mathlib

/-!
# cryptocteon: session table, algorithm selection and request dispatch

A shallow embedding of `sys/mips/cavium/cryptocteon/cryptocteon.c`.

* The two globals `octo_sessions` / `octo_sesnum` become the record `State`.
  The pointer array is a list of slots; every slot owns its session, so the
  heap object is stored in the slot itself (`none` is the NULL pointer).
* A descriptor chain (`cri_next` / `crd_next` linked list) is a `List`;
  the NULL chain is `[]`.
* A function returns `Except Abort _`: `Abort.fault` stands for behaviour the
  C standard leaves undefined (access outside an object, NULL dereference,
  signed overflow), `Abort.panic` for a call of the kernel `panic`.
* `kmalloc` is an oracle: the caller of the model says whether it succeeds.
* `octo_calc_hash` and `crypto_copydata` live outside this file of the
  driver and are parameters of the model.
-/

namespace Cryptocteon

/-! ## Constants of headers that are not part of the sources -/

/-- Modelled from the spec: InvalidArgument; `sys/errno.h` is not among the
sources, the number is the one of the FreeBSD header. -/
def EINVAL : Int := 22

/-- Modelled from the spec: NotFound; `sys/errno.h` is not among the
sources, the number is the one of the FreeBSD header. -/
def ENOENT : Int := 2

/-- Modelled from the spec: ResourceExhausted; `sys/errno.h` is not among the
sources, the number is the one of the FreeBSD header. -/
def ENOBUFS : Int := 55

/-- Modelled from the spec: algorithm id DES-CBC of `opencrypto/cryptodev.h`
(not among the sources), with the number of the FreeBSD header. -/
def CRYPTO_DES_CBC : Int := 1

/-- Modelled from the spec: algorithm id 3DES-CBC of `opencrypto/cryptodev.h`
(not among the sources), with the number of the FreeBSD header. -/
def CRYPTO_3DES_CBC : Int := 2

/-- Modelled from the spec: algorithm id MD5-HMAC of `opencrypto/cryptodev.h`
(not among the sources), with the number of the FreeBSD header. -/
def CRYPTO_MD5_HMAC : Int := 6

/-- Modelled from the spec: algorithm id SHA1-HMAC of `opencrypto/cryptodev.h`
(not among the sources), with the number of the FreeBSD header. -/
def CRYPTO_SHA1_HMAC : Int := 7

/-- Modelled from the spec: algorithm id AES-CBC of `opencrypto/cryptodev.h`
(not among the sources), with the number of the FreeBSD header. -/
def CRYPTO_AES_CBC : Int := 11

/-- Modelled from the spec: algorithm id NULL-HMAC of `opencrypto/cryptodev.h`
(not among the sources), with the number of the FreeBSD header. -/
def CRYPTO_NULL_HMAC : Int := 15

/-- Modelled from the spec: algorithm id NULL-CBC of `opencrypto/cryptodev.h`
(not among the sources), with the number of the FreeBSD header. -/
def CRYPTO_NULL_CBC : Int := 16

/-- Modelled from the spec: the default capacity of the session table,
`CRYPTO_SW_SESSIONS` of `opencrypto/cryptodev.h` (not among the sources),
with the number of the FreeBSD header. -/
def CRYPTO_SW_SESSIONS : Nat := 32

/-- Modelled from the spec: descriptor flag "explicit IV" of
`opencrypto/cryptodev.h` (not among the sources). -/
def CRD_F_IV_EXPLICIT : Nat := 4

/-- Modelled from the spec: descriptor flag "explicit key" of
`opencrypto/cryptodev.h` (not among the sources). -/
def CRD_F_KEY_EXPLICIT : Nat := 16

/-- Modelled from the spec: the macro `CRYPTO_SESID2LID` of
`opencrypto/cryptodev.h` (not among the sources): the handle is the low 32
bits of the 64-bit session id. -/
def CRYPTO_SESID2LID (tid : Nat) : Nat := tid % 2 ^ 32

/-- The size of `octo_enckey` (line 49). -/
def MAX_CIPHER_KEYLEN : Nat := 64

/-- The size of `octo_mackey` (line 54). -/
def MAX_HASH_KEYLEN : Nat := 64

/-! ## Data model -/

/-- How a call can end without returning. -/
inductive Abort where
  | fault
  | panic (msg : String)
  deriving DecidableEq, Repr

/-- The primitives of `cavium_crypto.c` that `octo_newsession` binds, by name
(the targets of the function pointers `octo_encrypt` / `octo_decrypt`). -/
inductive Prim where
  | octo_des_cbc_md5_encrypt
  | octo_des_cbc_md5_decrypt
  | octo_des_cbc_sha1_encrypt
  | octo_des_cbc_encrypt
  | octo_des_cbc_decrypt
  | octo_aes_cbc_md5_encrypt
  | octo_aes_cbc_md5_decrypt
  | octo_aes_cbc_sha1_encrypt
  | octo_aes_cbc_sha1_decrypt
  | octo_aes_cbc_encrypt
  | octo_aes_cbc_decrypt
  | octo_null_md5_encrypt
  | octo_null_sha1_encrypt
  deriving DecidableEq, Repr

/-- The fields of `struct cryptoini` the driver reads; `cri_next` is the tail
of the list the descriptor sits in. `cri_key = none` is the NULL key. -/
structure cryptoini where
  cri_alg : Int
  cri_klen : Int
  cri_mlen : Int
  cri_key : Option (List Nat)
  deriving DecidableEq, Repr

/-- The record `struct octo_sess` (lines 47-75); a NULL function pointer is
`none`. -/
structure octo_sess where
  octo_encalg : Int
  octo_enckey : List Nat
  octo_encklen : Int
  octo_macalg : Int
  octo_mackey : List Nat
  octo_macklen : Int
  octo_mackey_set : Int
  octo_mlen : Int
  octo_ivsize : Int
  octo_encrypt : Option Prim
  octo_decrypt : Option Prim
  octo_hminner : List Nat
  octo_hmouter : List Nat
  deriving DecidableEq, Repr

/-- The globals `octo_sessions` (NULL is `none`) and `octo_sesnum`
(lines 83-84). -/
structure State where
  octo_sessions : Option (List (Option octo_sess))
  octo_sesnum : Nat
  deriving DecidableEq, Repr

/-- The fields of `struct cryptodesc` that `octo_process` reads. -/
structure cryptodesc where
  crd_alg : Int
  crd_skip : Int
  crd_len : Int
  crd_inject : Int
  crd_flags : Nat
  crd_iv : List Nat
  crd_key : Option (List Nat)
  crd_klen : Int
  deriving DecidableEq, Repr

/-- The fields of `struct cryptop` that `octo_process` reads or writes;
`crp_desc = []` is the NULL chain, `crp_buf = none` the NULL buffer. -/
structure cryptop where
  crp_sid : Nat
  crp_desc : List cryptodesc
  crp_buf : Option (List Nat)
  crp_flags : Nat
  crp_etype : Int
  deriving DecidableEq, Repr

/-- The value of the globals before the first call (lines 83-84). -/
def State.init : State := { octo_sessions := none, octo_sesnum := 0 }

/-- A session right after `memset(*ocd, 0, sizeof(struct octo_sess))`
(line 213). -/
def octo_sess.zero : octo_sess :=
  { octo_encalg := 0
    octo_enckey := List.replicate MAX_CIPHER_KEYLEN 0
    octo_encklen := 0
    octo_macalg := 0
    octo_mackey := List.replicate MAX_HASH_KEYLEN 0
    octo_macklen := 0
    octo_mackey_set := 0
    octo_mlen := 0
    octo_ivsize := 0
    octo_encrypt := none
    octo_decrypt := none
    octo_hminner := [0, 0, 0]
    octo_hmouter := [0, 0, 0] }

/-- The C call `memcpy(dst, src, n)` into a fixed buffer: `n` converts to
`size_t`, so a negative `n`, an `n` beyond the destination or beyond the
source object is an access outside an object. The model stops there
(`Abort.fault`) and says nothing about what follows. The code itself has no
such bound: a copy longer than a key buffer of `struct octo_sess` writes on
into the fields declared behind the buffer, and the function goes on. -/
def memcpy (dst src : List Nat) (n : Int) : Except Abort (List Nat) :=
  if 0 ≤ n ∧ n.toNat ≤ dst.length ∧ n.toNat ≤ src.length then
    .ok (src.take n.toNat ++ dst.drop n.toNat)
  else .error .fault

/-! ## octo_freesession (lines 317-337) -/

/-- The function `octo_freesession(dev, tid)`: the result code and the
globals after the call. Reading `octo_sessions[sid]` past the end of the
array is a fault. -/
def octo_freesession (st : State) (tid : Nat) : Except Abort (Int × State) :=
  let sid := CRYPTO_SESID2LID tid
  if sid > st.octo_sesnum then .ok (EINVAL, st)
  else
    match st.octo_sessions with
    | none => .ok (EINVAL, st)
    | some arr =>
      match arr[sid]? with
      | none => .error .fault
      | some none => .ok (EINVAL, st)
      | some (some _) =>
        if sid = 0 then .ok (0, st)
        else .ok (0, { st with octo_sessions := some (arr.set sid none) })

/-! ## octo_newsession (lines 113-312) -/

/-- The test of lines 133-135. -/
def is_mac_alg (a : Int) : Bool :=
  a == CRYPTO_MD5_HMAC || a == CRYPTO_SHA1_HMAC || a == CRYPTO_NULL_HMAC

/-- The test of lines 141-144. -/
def is_enc_alg (a : Int) : Bool :=
  a == CRYPTO_DES_CBC || a == CRYPTO_3DES_CBC || a == CRYPTO_AES_CBC ||
    a == CRYPTO_NULL_CBC

/-- The loop of lines 132-151. The first argument counts the iterations
left (`2 - i`); the result is `(c, encini, macini)` at loop exit. -/
def octo_classify : Nat → List cryptoini → Option cryptoini → Option cryptoini →
    List cryptoini × Option cryptoini × Option cryptoini
  | 0, c, encini, macini => (c, encini, macini)
  | _ + 1, [], encini, macini => ([], encini, macini)
  | n + 1, d :: rest, encini, macini =>
    if is_mac_alg d.cri_alg && macini.isSome then (d :: rest, encini, macini)
    else
      let macini1 := if is_mac_alg d.cri_alg then some d else macini
      if is_enc_alg d.cri_alg && encini.isSome then (d :: rest, encini, macini1)
      else
        let encini1 := if is_enc_alg d.cri_alg then some d else encini
        octo_classify n rest encini1 macini1

/-- The loop of lines 168-170 from index `i` on, with `sesnum - i` iterations
left as first argument: the index of the first empty slot, or `sesnum`.
`i` is an `int`: incrementing it past `2^31 - 1` is a fault. -/
def octo_scan_from (arr : List (Option octo_sess)) (sesnum : Nat) :
    Nat → Nat → Except Abort Nat
  | 0, i => .ok i
  | n + 1, i =>
    if i < sesnum then
      match arr[i]? with
      | none => .error .fault
      | some none => .ok i
      | some (some _) =>
        if i + 1 < 2 ^ 31 then octo_scan_from arr sesnum n (i + 1)
        else .error .fault
    else .ok i

/-- Lines 167-172: the slot index `i` after the scan. -/
def octo_scan (st : State) : Except Abort Nat :=
  match st.octo_sessions with
  | some arr => octo_scan_from arr st.octo_sesnum (st.octo_sesnum - 1) 1
  | none => .ok 1

/-- Lines 174-201: create or double the pointer array when there is none or
the scan found no empty slot. `kmalloc_ok` says whether the `kmalloc` of
line 181 succeeds. The result is whether the function goes on (`false` for
the early return of line 189), the globals, and `i`. -/
def octo_grow (st : State) (i : Nat) (kmalloc_ok : Bool) :
    Except Abort (Bool × State × Nat) :=
  if st.octo_sessions = none ∨ i = st.octo_sesnum then
    let i1 := if st.octo_sessions = none then 1 else i
    let n1 := if st.octo_sessions = none then CRYPTO_SW_SESSIONS
      else (st.octo_sesnum * 2) % 2 ^ 32
    if kmalloc_ok then
      let ocd := List.replicate n1 (none : Option octo_sess)
      match st.octo_sessions with
      | none => .ok (true, { octo_sessions := some ocd, octo_sesnum := n1 }, i1)
      | some old =>
        if n1 / 2 ≤ old.length then
          .ok (true,
            { octo_sessions := some (old.take (n1 / 2) ++ ocd.drop (n1 / 2)),
              octo_sesnum := n1 },
            i1)
        else .error .fault
    else
      let n2 := if n1 = CRYPTO_SW_SESSIONS then 0 else n1 / 2
      .ok (false, { st with octo_sesnum := n2 }, i1)
  else .ok (true, st, i)

/-- Lines 167-201: the scan followed by the creation or growth of the
array. -/
def octo_slot (st : State) (kmalloc_ok : Bool) : Except Abort (Bool × State × Nat) :=
  match octo_scan st with
  | .error a => .error a
  | .ok i => octo_grow st i kmalloc_ok

/-- The dereference `macini->cri_key` (lines 246, 252, 271, 277, 293, 299). -/
def macini_key (macini : Option cryptoini) : Except Abort (Option (List Nat)) :=
  match macini with
  | some m => .ok m.cri_key
  | none => .error .fault

/-- Lines 215-218: copy the cipher key. -/
def octo_copy_enckey (od : octo_sess) (encini : Option cryptoini) :
    Except Abort octo_sess :=
  match encini with
  | none => .ok od
  | some e =>
    match e.cri_key with
    | none => .ok od
    | some k =>
      match memcpy od.octo_enckey k ((e.cri_klen + 7).tdiv 8) with
      | .error a => .error a
      | .ok b => .ok { od with octo_encklen := (e.cri_klen + 7).tdiv 8, octo_enckey := b }

/-- Lines 220-223: copy the mac key. -/
def octo_copy_mackey (od : octo_sess) (macini : Option cryptoini) :
    Except Abort octo_sess :=
  match macini with
  | none => .ok od
  | some m =>
    match m.cri_key with
    | none => .ok od
    | some k =>
      match memcpy od.octo_mackey k ((m.cri_klen + 7).tdiv 8) with
      | .error a => .error a
      | .ok b => .ok { od with octo_macklen := (m.cri_klen + 7).tdiv 8, octo_mackey := b }

/-- Lines 228-231: the `else if (macini && macini->cri_mlen) ... else` part. -/
def octo_pick_mlen_mac (macini : Option cryptoini) : Int :=
  match macini with
  | some m => if m.cri_mlen ≠ 0 then m.cri_mlen else 12
  | none => 12

/-- Lines 225-231: the truncated digest length. -/
def octo_pick_mlen (encini macini : Option cryptoini) : Int :=
  match encini with
  | some e => if e.cri_mlen ≠ 0 then e.cri_mlen else octo_pick_mlen_mac macini
  | none => octo_pick_mlen_mac macini

/-- The expression `d ? d->cri_alg : -1` of lines 242, 267, 308 and 309. -/
def octo_alg_or_none (d : Option cryptoini) : Int :=
  match d with
  | some x => x.cri_alg
  | none => -1

/-- One cell with a mac of the switch of lines 238-306: bind the two
function pointers and call `octo_calc_hash(auth, macini->cri_key, ...)`. -/
def octo_bind_mac (octo_calc_hash : Nat → Option (List Nat) → List Nat × List Nat)
    (od : octo_sess) (macini : Option cryptoini) (enc dec : Prim) (auth : Nat) :
    Except Abort (octo_sess × Bool) :=
  match macini_key macini with
  | .error a => .error a
  | .ok key =>
    .ok ({ od with octo_encrypt := some enc, octo_decrypt := some dec,
                   octo_hminner := (octo_calc_hash auth key).1,
                   octo_hmouter := (octo_calc_hash auth key).2 }, true)

/-- The switch of lines 238-306 on `c->cri_alg`, with the inner switches on
`macini ? macini->cri_alg : -1`. The flag is `false` on the three `default`
branches (which free the session and return EINVAL). -/
def octo_bind (octo_calc_hash : Nat → Option (List Nat) → List Nat × List Nat)
    (od : octo_sess) (macini : Option cryptoini) (c : cryptoini) :
    Except Abort (octo_sess × Bool) :=
  let sel : Int := octo_alg_or_none macini
  if c.cri_alg = CRYPTO_DES_CBC ∨ c.cri_alg = CRYPTO_3DES_CBC then
    let od1 := { od with octo_ivsize := 8 }
    if sel = CRYPTO_MD5_HMAC then
      octo_bind_mac octo_calc_hash od1 macini
        .octo_des_cbc_md5_encrypt .octo_des_cbc_md5_decrypt 0
    else if sel = CRYPTO_SHA1_HMAC then
      octo_bind_mac octo_calc_hash od1 macini
        .octo_des_cbc_sha1_encrypt .octo_des_cbc_sha1_encrypt 1
    else if sel = -1 then
      .ok ({ od1 with octo_encrypt := some .octo_des_cbc_encrypt,
                      octo_decrypt := some .octo_des_cbc_decrypt }, true)
    else .ok (od1, false)
  else if c.cri_alg = CRYPTO_AES_CBC then
    let od1 := { od with octo_ivsize := 16 }
    if sel = CRYPTO_MD5_HMAC then
      octo_bind_mac octo_calc_hash od1 macini
        .octo_aes_cbc_md5_encrypt .octo_aes_cbc_md5_decrypt 0
    else if sel = CRYPTO_SHA1_HMAC then
      octo_bind_mac octo_calc_hash od1 macini
        .octo_aes_cbc_sha1_encrypt .octo_aes_cbc_sha1_decrypt 1
    else if sel = -1 then
      .ok ({ od1 with octo_encrypt := some .octo_aes_cbc_encrypt,
                      octo_decrypt := some .octo_aes_cbc_decrypt }, true)
    else .ok (od1, false)
  else if c.cri_alg = CRYPTO_MD5_HMAC then
    octo_bind_mac octo_calc_hash od macini
      .octo_null_md5_encrypt .octo_null_md5_encrypt 0
  else if c.cri_alg = CRYPTO_SHA1_HMAC then
    octo_bind_mac octo_calc_hash od macini
      .octo_null_sha1_encrypt .octo_null_sha1_encrypt 1
  else .ok (od, false)

/-- Lines 213-309 on the freshly allocated session: the session as it
stands when the function returns or calls `octo_freesession`, and whether
the switch bound a primitive. `c` is `encini ? encini : macini`. -/
def octo_fill (octo_calc_hash : Nat → Option (List Nat) → List Nat × List Nat)
    (encini macini : Option cryptoini) (c : cryptoini) :
    Except Abort (octo_sess × Bool) :=
  match octo_copy_enckey octo_sess.zero encini with
  | .error a => .error a
  | .ok od1 =>
    match octo_copy_mackey od1 macini with
    | .error a => .error a
    | .ok od2 =>
      let od3 := { od2 with octo_mlen := octo_pick_mlen encini macini }
      match octo_bind octo_calc_hash od3 macini c with
      | .error a => .error a
      | .ok (od4, false) => .ok (od4, false)
      | .ok (od4, true) =>
        .ok ({ od4 with octo_encalg := octo_alg_or_none encini,
                        octo_macalg := octo_alg_or_none macini }, true)

/-- Lines 225-309 on the session as the key copies of lines 215-223 left
it (`od2`): the digest length, the switch and, when a primitive was bound,
the two algorithm ids. The flag is the one of `octo_bind`. -/
def octo_finish (octo_calc_hash : Nat → Option (List Nat) → List Nat × List Nat)
    (od2 : octo_sess) (encini macini : Option cryptoini) (c : cryptoini) :
    Except Abort (octo_sess × Bool) :=
  let od3 := { od2 with octo_mlen := octo_pick_mlen encini macini }
  match octo_bind octo_calc_hash od3 macini c with
  | .error a => .error a
  | .ok (od4, false) => .ok (od4, false)
  | .ok (od4, true) =>
    .ok ({ od4 with octo_encalg := octo_alg_or_none encini,
                    octo_macalg := octo_alg_or_none macini }, true)

/-- Lines 203-311: store into slot `i`, allocate and fill the session.
`kmalloc_ok` says whether the `kmalloc` of line 207 succeeds. The third
component of the result is the cell `*sid`. -/
def octo_install (octo_calc_hash : Nat → Option (List Nat) → List Nat × List Nat)
    (st : State) (i : Nat) (encini macini : Option cryptoini) (c : cryptoini)
    (kmalloc_ok : Bool) : Except Abort (Int × State × Option Nat) :=
  match st.octo_sessions with
  | none => .error .fault
  | some arr =>
    if i < arr.length then
      if kmalloc_ok then
        match octo_fill octo_calc_hash encini macini c with
        | .error a => .error a
        | .ok (od, true) =>
          .ok (0, { st with octo_sessions := some (arr.set i (some od)) }, some i)
        | .ok (od, false) =>
          match octo_freesession
              { st with octo_sessions := some (arr.set i (some od)) } i with
          | .error a => .error a
          | .ok (_, st1) => .ok (EINVAL, st1, some i)
      else
        match octo_freesession { st with octo_sessions := some (arr.set i none) } i with
        | .error a => .error a
        | .ok (_, st1) => .ok (ENOBUFS, st1, some i)
    else .error .fault

/-- Line 236: `c = encini ? encini : macini` (`none` is NULL). -/
def octo_pick_c (encini macini : Option cryptoini) : Option cryptoini :=
  match encini with
  | some e => some e
  | none => macini

/-- The function `octo_newsession(dev, sid, cri)`. `sid` is the cell the
pointer `sid` points to (`none` for the NULL pointer), `cri` the chain,
`kmalloc_tab` / `kmalloc_sess` the outcome of the allocations of lines 181
and 207. The result is the code, the globals and the cell `*sid`. -/
def octo_newsession (octo_calc_hash : Nat → Option (List Nat) → List Nat × List Nat)
    (st : State) (sid : Option Nat) (cri : List cryptoini)
    (kmalloc_tab kmalloc_sess : Bool) : Except Abort (Int × State × Option Nat) :=
  if sid = none ∨ cri = [] then .ok (EINVAL, st, sid)
  else
    match octo_classify 2 cri none none with
    | (_, none, none) => .ok (EINVAL, st, sid)
    | (_ :: _, _, _) => .ok (EINVAL, st, sid)
    | ([], encini, macini) =>
      match octo_pick_c encini macini with
      | none => .ok (EINVAL, st, sid)
      | some c =>
        match octo_slot st kmalloc_tab with
        | .error a => .error a
        | .ok (true, st1, i1) =>
          octo_install octo_calc_hash st1 i1 encini macini c kmalloc_sess
        | .ok (false, st1, _) => .ok (ENOBUFS, st1, sid)

/-! ## octo_process (lines 342-527) -/

/-- The test of lines 371-372 and the read of line 377: the session of
handle `lid`, `none` when the request is answered ENOENT. The operands of
`||` are evaluated left to right, so the slot is read only for
`0 < lid < octo_sesnum` and a non-NULL array. -/
def octo_lookup (st : State) (lid : Nat) : Except Abort (Option octo_sess) :=
  if lid ≥ st.octo_sesnum ∨ lid = 0 then .ok none
  else
    match st.octo_sessions with
    | none => .ok none
    | some arr =>
      match arr[lid]? with
      | none => .error .fault
      | some s => .ok s

/-- Lines 403-411: point `enccrd` and `maccrd` at the first two descriptors;
the result is `(enccrd, maccrd, crd)` at line 412. -/
def octo_match (od : octo_sess) (desc : List cryptodesc) :
    Except Abort (Option cryptodesc × Option cryptodesc × List cryptodesc) :=
  match desc with
  | [] => .error .fault
  | d1 :: rest1 =>
    let enccrd1 := if d1.crd_alg = od.octo_encalg then some d1 else none
    let maccrd1 := if d1.crd_alg = od.octo_macalg then some d1 else none
    match rest1 with
    | [] => .ok (enccrd1, maccrd1, [])
    | d2 :: rest2 =>
      .ok (if d2.crd_alg = od.octo_encalg then some d2 else enccrd1,
           if d2.crd_alg = od.octo_macalg then some d2 else maccrd1,
           rest2)

/-- The locals `ivp`, `auth_off`, `auth_len`, `crypt_off`, `crypt_len`,
`icv_off` of `octo_process`. -/
structure octo_regions where
  ivp : Option (List Nat)
  auth_off : Int
  auth_len : Int
  crypt_off : Int
  crypt_len : Int
  icv_off : Int
  deriving DecidableEq, Repr

/-- Lines 419-440: the IV and the regions; with neither descriptor the
`else` branch dereferences the NULL `maccrd`. -/
def octo_offsets (crypto_copydata : Nat → List Nat → Int → Int → List Nat)
    (od : octo_sess) (crp_flags : Nat) (buf : List Nat)
    (enccrd maccrd : Option cryptodesc) : Except Abort octo_regions :=
  match enccrd with
  | some e =>
    let ivp := if e.crd_flags &&& CRD_F_IV_EXPLICIT ≠ 0 then e.crd_iv
      else crypto_copydata crp_flags buf e.crd_inject od.octo_ivsize
    match maccrd with
    | some m =>
      .ok { ivp := some ivp, auth_off := m.crd_skip, auth_len := m.crd_len,
            crypt_off := e.crd_skip, crypt_len := e.crd_len, icv_off := m.crd_inject }
    | none =>
      .ok { ivp := some ivp, auth_off := 0, auth_len := 0,
            crypt_off := e.crd_skip, crypt_len := e.crd_len, icv_off := 0 }
  | none =>
    match maccrd with
    | some m =>
      .ok { ivp := none, auth_off := m.crd_skip, auth_len := m.crd_len,
            crypt_off := 0, crypt_len := 0, icv_off := m.crd_inject }
    | none => .error .fault

/-- Lines 494-499: a new explicit cipher key. -/
def octo_rekey_enc (od : octo_sess) (enccrd : Option cryptodesc) :
    Except Abort octo_sess :=
  match enccrd with
  | none => .ok od
  | some e =>
    if e.crd_flags &&& CRD_F_KEY_EXPLICIT ≠ 0 then
      match e.crd_key with
      | none => .error .fault
      | some k =>
        match memcpy od.octo_enckey k ((e.crd_klen + 7).tdiv 8) with
        | .error a => .error a
        | .ok b =>
          .ok { od with octo_encklen := (e.crd_klen + 7).tdiv 8, octo_enckey := b }
    else .ok od

/-- Lines 506-510: recompute the digest state when it is not valid. -/
def octo_rehash (octo_calc_hash : Nat → Option (List Nat) → List Nat × List Nat)
    (od : octo_sess) (m : cryptodesc) : octo_sess :=
  if od.octo_mackey_set = 0 then
    { od with
        octo_hminner :=
          (octo_calc_hash (if m.crd_alg = CRYPTO_MD5_HMAC then 0 else 1) m.crd_key).1,
        octo_hmouter :=
          (octo_calc_hash (if m.crd_alg = CRYPTO_MD5_HMAC then 0 else 1) m.crd_key).2,
        octo_mackey_set := 1 }
  else od

/-- Lines 500-511: a new explicit mac key and the digest state. -/
def octo_rekey_mac (octo_calc_hash : Nat → Option (List Nat) → List Nat × List Nat)
    (od : octo_sess) (maccrd : Option cryptodesc) : Except Abort octo_sess :=
  match maccrd with
  | none => .ok od
  | some m =>
    if m.crd_flags &&& CRD_F_KEY_EXPLICIT ≠ 0 then
      match m.crd_key with
      | none => .error .fault
      | some k =>
        match memcpy od.octo_mackey k ((m.crd_klen + 7).tdiv 8) with
        | .error a => .error a
        | .ok b =>
          .ok (octo_rehash octo_calc_hash
            { od with octo_macklen := (m.crd_klen + 7).tdiv 8, octo_mackey := b,
                      octo_mackey_set := 0 } m)
    else .ok (octo_rehash octo_calc_hash od m)

/-- The call `panic(...)` (lines 400, 488, 522): it does not return. -/
def kernel_panic (msg : String) : Except Abort Unit := .error (.panic msg)

/-- The label `done` (lines 524-526): one `crypto_done(crp)`, return 0. The
last component counts the calls of `crypto_done`. -/
def octo_done (st : State) (crp : cryptop) :
    Except Abort (Int × State × Option cryptop × Nat) :=
  .ok (0, st, some crp, 1)

/-- Lines 402-526, the code behind the first `panic`: match the
descriptors, resolve the regions, take over explicit keys, complete. -/
def octo_process_tail (octo_calc_hash : Nat → Option (List Nat) → List Nat × List Nat)
    (crypto_copydata : Nat → List Nat → Int → Int → List Nat)
    (st : State) (crp : cryptop) (buf : List Nat) (lid : Nat) (od : octo_sess) :
    Except Abort (Int × State × Option cryptop × Nat) :=
  match octo_match od crp.crp_desc with
  | .error a => .error a
  | .ok (_, _, _ :: _) => octo_done st { crp with crp_etype := EINVAL }
  | .ok (enccrd, maccrd, []) =>
    match octo_offsets crypto_copydata od crp.crp_flags buf enccrd maccrd with
    | .error a => .error a
    | .ok _ =>
      match kernel_panic "octo_process: set up I/O vectors." with
      | .error a => .error a
      | .ok _ =>
        match octo_rekey_enc od enccrd with
        | .error a => .error a
        | .ok od1 =>
          match octo_rekey_mac octo_calc_hash od1 maccrd with
          | .error a => .error a
          | .ok od2 =>
            match kernel_panic
                "octo_process: pass I/O vectors to encrypt/decrypt functions." with
            | .error a => .error a
            | .ok _ =>
              octo_done
                { st with octo_sessions :=
                    st.octo_sessions.map fun arr => arr.set lid (some od2) } crp

/-- The function `octo_process(dev, crp, hint)`; `crp = none` is the NULL
request. The result is the return value, the globals, the request and the
number of `crypto_done` calls. -/
def octo_process (octo_calc_hash : Nat → Option (List Nat) → List Nat × List Nat)
    (crypto_copydata : Nat → List Nat → Int → Int → List Nat)
    (st : State) (crp : Option cryptop) :
    Except Abort (Int × State × Option cryptop × Nat) :=
  match crp with
  | none => .ok (EINVAL, st, none, 0)
  | some crp0 =>
    match crp0.crp_desc, crp0.crp_buf with
    | [], _ => octo_done st { crp0 with crp_etype := EINVAL }
    | _ :: _, none => octo_done st { crp0 with crp_etype := EINVAL }
    | _ :: _, some buf =>
      match octo_lookup st (crp0.crp_sid % 2 ^ 32) with
      | .error a => .error a
      | .ok none => octo_done st { crp0 with crp_etype := ENOENT }
      | .ok (some od) =>
        match kernel_panic "octo_process: check cryptop type." with
        | .error a => .error a
        | .ok _ =>
          octo_process_tail octo_calc_hash crypto_copydata st
            { crp0 with crp_etype := 0 } buf (crp0.crp_sid % 2 ^ 32) od

/-! ## Well-formed inputs and the words of the specification -/

/-- The shape of the globals in every state the driver can be in (see
`reachable_TableInv`): no array and capacity 0, or an array of exactly
`octo_sesnum` slots, at least the default capacity, whose slot 0 is empty. -/
def TableInv (st : State) : Prop :=
  match st.octo_sessions with
  | none => st.octo_sesnum = 0
  | some arr =>
    arr.length = st.octo_sesnum ∧ CRYPTO_SW_SESSIONS ≤ st.octo_sesnum ∧
      arr[0]? = some none

/-- The key of a descriptor can be copied by lines 215-223 without leaving
the 64-byte buffer or the key object: the condition under which the two
`memcpy` calls are defined. -/
def key_fits (d : cryptoini) : Prop :=
  match d.cri_key with
  | none => True
  | some k =>
    0 ≤ (d.cri_klen + 7).tdiv 8 ∧ ((d.cri_klen + 7).tdiv 8).toNat ≤ 64 ∧
      ((d.cri_klen + 7).tdiv 8).toNat ≤ k.length

instance TableInv.decidable (st : State) : Decidable (TableInv st) :=
  match h : st.octo_sessions with
  | none => decidable_of_iff (st.octo_sesnum = 0) (by simp [TableInv, h])
  | some arr =>
    decidable_of_iff
      (arr.length = st.octo_sesnum ∧ CRYPTO_SW_SESSIONS ≤ st.octo_sesnum ∧
        arr[0]? = some none)
      (by simp [TableInv, h])

instance key_fits.decidable (d : cryptoini) : Decidable (key_fits d) :=
  match h : d.cri_key with
  | none => isTrue (by simp [key_fits, h])
  | some k =>
    decidable_of_iff
      (0 ≤ (d.cri_klen + 7).tdiv 8 ∧ ((d.cri_klen + 7).tdiv 8).toNat ≤ 64 ∧
        ((d.cri_klen + 7).tdiv 8).toNat ≤ k.length)
      (by simp [key_fits, h])

/-- The states the driver reaches from the initial globals by calls of its
three entry points that return in the model. A call that leaves an object (a
key longer than its buffer, a handle equal to the capacity) is a fault of the
model and is not followed. -/
inductive Reachable (octo_calc_hash : Nat → Option (List Nat) → List Nat × List Nat)
    (crypto_copydata : Nat → List Nat → Int → Int → List Nat) : State → Prop where
  | init : Reachable octo_calc_hash crypto_copydata State.init
  | newsession (st st1 : State) (sid sid1 : Option Nat) (cri : List cryptoini)
      (a b : Bool) (r : Int) :
      Reachable octo_calc_hash crypto_copydata st →
      octo_newsession octo_calc_hash st sid cri a b = .ok (r, st1, sid1) →
      Reachable octo_calc_hash crypto_copydata st1
  | freesession (st st1 : State) (tid : Nat) (r : Int) :
      Reachable octo_calc_hash crypto_copydata st →
      octo_freesession st tid = .ok (r, st1) →
      Reachable octo_calc_hash crypto_copydata st1
  | process (st st1 : State) (crp crp1 : Option cryptop) (r : Int) (n : Nat) :
      Reachable octo_calc_hash crypto_copydata st →
      octo_process octo_calc_hash crypto_copydata st crp = .ok (r, st1, crp1, n) →
      Reachable octo_calc_hash crypto_copydata st1

/-- The cipher algorithm a chain names, in the words of the specification:
the id of its first descriptor that is a cipher. -/
def chain_cipher (cri : List cryptoini) : Option Int :=
  (cri.find? fun d => is_enc_alg d.cri_alg).map fun d => d.cri_alg

/-- The mac algorithm a chain names, in the words of the specification: the
id of its first descriptor that is a mac. -/
def chain_mac (cri : List cryptoini) : Option Int :=
  (cri.find? fun d => is_mac_alg d.cri_alg).map fun d => d.cri_alg

/-- The compatibility matrix of the specification (section 4.2), by cell:
the encrypt primitive of a (cipher, mac) pair, `none` for a pair that is not
a cell. DES and 3DES share the DES family. -/
def matrix_encrypt (cipher mac : Option Int) : Option Prim :=
  if cipher = some CRYPTO_DES_CBC ∨ cipher = some CRYPTO_3DES_CBC then
    if mac = none then some .octo_des_cbc_encrypt
    else if mac = some CRYPTO_MD5_HMAC then some .octo_des_cbc_md5_encrypt
    else if mac = some CRYPTO_SHA1_HMAC then some .octo_des_cbc_sha1_encrypt
    else none
  else if cipher = some CRYPTO_AES_CBC then
    if mac = none then some .octo_aes_cbc_encrypt
    else if mac = some CRYPTO_MD5_HMAC then some .octo_aes_cbc_md5_encrypt
    else if mac = some CRYPTO_SHA1_HMAC then some .octo_aes_cbc_sha1_encrypt
    else none
  else if cipher = none then
    if mac = some CRYPTO_MD5_HMAC then some .octo_null_md5_encrypt
    else if mac = some CRYPTO_SHA1_HMAC then some .octo_null_sha1_encrypt
    else none
  else none

/-- The ways `octo_newsession` returns `(r, st2, sid2)` from `st`: an early
EINVAL or the ENOBUFS of line 189, both with the globals and `*sid`
untouched; or, after lines 167-201 produced the state `st1` and the index
`i` (stored in `*sid`), the ENOBUFS of line 211 or the EINVAL of a `default`
branch, both leaving `st1`, or success with the filled session in slot `i`. -/
def NewsessionOutcome (octo_calc_hash : Nat → Option (List Nat) → List Nat × List Nat)
    (st : State) (sid : Option Nat) (cri : List cryptoini) (a b : Bool)
    (r : Int) (st2 : State) (sid2 : Option Nat) : Prop :=
  (r = EINVAL ∧ st2 = st ∧ sid2 = sid) ∨
  (r = ENOBUFS ∧ st2 = st ∧ sid2 = sid ∧ a = false) ∨
  ∃ st1 i encini macini c,
    octo_classify 2 cri none none = ([], encini, macini) ∧
    octo_pick_c encini macini = some c ∧
    octo_slot st a = .ok (true, st1, i) ∧ sid2 = some i ∧
    ((r = ENOBUFS ∧ b = false ∧ st2 = st1) ∨
     (∃ od, r = EINVAL ∧ b = true ∧
        octo_fill octo_calc_hash encini macini c = .ok (od, false) ∧ st2 = st1) ∨
     (∃ od arr, r = 0 ∧ b = true ∧
        octo_fill octo_calc_hash encini macini c = .ok (od, true) ∧
        st1.octo_sessions = some arr ∧
        st2 = { st1 with octo_sessions := some (arr.set i (some od)) }))

/-! ## Concrete inputs -/

/-- A stand-in for `octo_calc_hash` on concrete inputs. -/
def sample_calc_hash : Nat → Option (List Nat) → List Nat × List Nat :=
  fun auth key => ([auth + 1, 0, 0], (key.getD []).take 3)

/-- A stand-in for `crypto_copydata` on concrete inputs. -/
def sample_copydata : Nat → List Nat → Int → Int → List Nat :=
  fun _ buf off len => (buf.drop off.toNat).take len.toNat

/-- DES-CBC with an 8-byte key. -/
def sample_des : cryptoini :=
  { cri_alg := CRYPTO_DES_CBC, cri_klen := 64, cri_mlen := 0,
    cri_key := some [1, 2, 3, 4, 5, 6, 7, 8] }

/-- MD5-HMAC with a 16-byte key. -/
def sample_md5 : cryptoini :=
  { cri_alg := CRYPTO_MD5_HMAC, cri_klen := 128, cri_mlen := 0,
    cri_key := some (List.replicate 16 7) }

/-- SHA1-HMAC with a 20-byte key. -/
def sample_sha1 : cryptoini :=
  { cri_alg := CRYPTO_SHA1_HMAC, cri_klen := 160, cri_mlen := 0,
    cri_key := some (List.replicate 20 9) }

/-- NULL-CBC without a key. -/
def sample_null_cbc : cryptoini :=
  { cri_alg := CRYPTO_NULL_CBC, cri_klen := 0, cri_mlen := 0, cri_key := none }

/-- The session `octo_newsession` builds for `[sample_des, sample_md5]`. -/
def sample_sess : octo_sess :=
  { octo_encalg := CRYPTO_DES_CBC
    octo_enckey := [1, 2, 3, 4, 5, 6, 7, 8] ++ List.replicate 56 0
    octo_encklen := 8
    octo_macalg := CRYPTO_MD5_HMAC
    octo_mackey := List.replicate 16 7 ++ List.replicate 48 0
    octo_macklen := 16
    octo_mackey_set := 0
    octo_mlen := 12
    octo_ivsize := 8
    octo_encrypt := some .octo_des_cbc_md5_encrypt
    octo_decrypt := some .octo_des_cbc_md5_decrypt
    octo_hminner := [1, 0, 0]
    octo_hmouter := [7, 7, 7] }

/-- The globals after one successful `octo_newsession` on the initial
state: the default capacity, `sample_sess` in slot 1. -/
def sample_state : State :=
  { octo_sessions := some ((List.replicate CRYPTO_SW_SESSIONS none).set 1 (some sample_sess))
    octo_sesnum := CRYPTO_SW_SESSIONS }

/-- The globals after `sample_sess` was freed again: the default capacity,
every slot empty. -/
def sample_empty : State :=
  { octo_sessions := some (List.replicate CRYPTO_SW_SESSIONS none)
    octo_sesnum := CRYPTO_SW_SESSIONS }

/-- A cipher descriptor of a request, matching `sample_sess`. -/
def sample_enccrd : cryptodesc :=
  { crd_alg := CRYPTO_DES_CBC, crd_skip := 8, crd_len := 16, crd_inject := 0,
    crd_flags := 1, crd_iv := [], crd_key := none, crd_klen := 0 }

/-- A mac descriptor of a request, matching `sample_sess`. -/
def sample_maccrd : cryptodesc :=
  { crd_alg := CRYPTO_MD5_HMAC, crd_skip := 0, crd_len := 24, crd_inject := 24,
    crd_flags := 0, crd_iv := [], crd_key := none, crd_klen := 0 }

/-- A request on handle `sid` with the chain `desc` and a 36-byte buffer. -/
def sample_crp (sid : Nat) (desc : List cryptodesc) : cryptop :=
  { crp_sid := sid, crp_desc := desc, crp_buf := some (List.replicate 36 0),
    crp_flags := 0, crp_etype := 0 }

/-! ## Sequences of calls, invariants of sessions -/

/-- Successive calls `octo_newsession(dev, &sid, cri)`, one for each chain of
the list, every allocation succeeding and no other call in between: the
globals and the handle after each call, `none` as soon as a call does not
return 0. -/
def octo_create_all (octo_calc_hash : Nat → Option (List Nat) → List Nat × List Nat) :
    State → List (List cryptoini) → Option (List (State × Nat))
  | _, [] => some []
  | st, cri :: rest =>
    match octo_newsession octo_calc_hash st (some 0) cri true true with
    | .ok (r, st1, some h) =>
      if r = 0 then (octo_create_all octo_calc_hash st1 rest).map fun l => (st1, h) :: l
      else none
    | _ => none

/-- The cipher descriptor of a chain, in the words of the specification: its
first descriptor that is a cipher. -/
def chain_cipher_desc (cri : List cryptoini) : Option cryptoini :=
  cri.find? fun d => is_enc_alg d.cri_alg

/-- The mac descriptor of a chain, in the words of the specification: its
first descriptor that is a mac. -/
def chain_mac_desc (cri : List cryptoini) : Option cryptoini :=
  cri.find? fun d => is_mac_alg d.cri_alg

/-- A well-formed session, in the words of the specification: a cipher that
is none (-1), DES-CBC, 3DES-CBC or AES-CBC, cipher and mac not both unset, and
the IV size of the cipher (8, 8, 16, or 0 without cipher). -/
def SessInv (od : octo_sess) : Prop :=
  ¬ (od.octo_encalg = -1 ∧ od.octo_macalg = -1) ∧
    (od.octo_encalg = -1 ∨ od.octo_encalg = CRYPTO_DES_CBC ∨
      od.octo_encalg = CRYPTO_3DES_CBC ∨ od.octo_encalg = CRYPTO_AES_CBC) ∧
    (od.octo_encalg = CRYPTO_DES_CBC ∨ od.octo_encalg = CRYPTO_3DES_CBC →
      od.octo_ivsize = 8) ∧
    (od.octo_encalg = CRYPTO_AES_CBC → od.octo_ivsize = 16) ∧
    (od.octo_encalg = -1 → od.octo_ivsize = 0)

/-- Every session stored in the array is well formed. -/
def SessionsInv (st : State) : Prop :=
  ∀ arr, st.octo_sessions = some arr → ∀ od, some od ∈ arr → SessInv od

/-- A descriptor with an algorithm id outside the closed set (SHA2-256-HMAC
in the FreeBSD header). -/
def sample_other : cryptoini :=
  { cri_alg := 18, cri_klen := 256, cri_mlen := 0, cri_key := some (List.replicate 32 5) }

/-- A mac descriptor of a request with an explicit 16-byte key. -/
def sample_maccrd_key : cryptodesc :=
  { crd_alg := CRYPTO_MD5_HMAC, crd_skip := 0, crd_len := 24, crd_inject := 24,
    crd_flags := CRD_F_KEY_EXPLICIT, crd_iv := [], crd_key := some (List.replicate 16 3),
    crd_klen := 128 }

/-- A table of the default capacity with every slot from 1 on occupied. -/
def sample_full : State :=
  { octo_sessions := some (none :: List.replicate 31 (some sample_sess))
    octo_sesnum := CRYPTO_SW_SESSIONS }

/-- The globals after `k` successful creations from the never-initialised
table without a free, for `k` up to twice the default capacity: the capacity
is 0, the default or twice the default, the slots 1 to `k` are occupied and
the slots behind them are empty. -/
def FilledTo (k : Nat) (st : State) : Prop :=
  TableInv st ∧
    st.octo_sesnum =
      (if k = 0 then 0 else if k < CRYPTO_SW_SESSIONS then CRYPTO_SW_SESSIONS
        else 2 * CRYPTO_SW_SESSIONS) ∧
    ∀ arr, st.octo_sessions = some arr →
      (∀ j, 1 ≤ j → j ≤ k → ∃ od, arr[j]? = some (some od)) ∧
        (∀ j, k < j → j < st.octo_sesnum → arr[j]? = some none)

/-- The chains of 33 creations of an MD5-HMAC session. -/
def sample_chains : List (List cryptoini) :=
  List.replicate (CRYPTO_SW_SESSIONS + 1) [sample_md5]

/-- The globals and handles after each of the 33 creations of
`sample_chains` on the never-initialised table. -/
def sample_trace : List (State × Nat) :=
  (octo_create_all sample_calc_hash State.init sample_chains).getD []

/-- A chain that creates a session when the allocations succeed, in the words
of the specification: one or two descriptors of the closed set, at most one
cipher and at most one mac, keys that fit the key buffers, and a (cipher,
mac) pair that is a cell of the compatibility matrix. -/
def GoodChain (cri : List cryptoini) : Prop :=
  (cri.length = 1 ∨ cri.length = 2) ∧
    (∀ d ∈ cri, is_enc_alg d.cri_alg = true ∨ is_mac_alg d.cri_alg = true) ∧
    (cri.filter fun d => is_enc_alg d.cri_alg).length ≤ 1 ∧
    (cri.filter fun d => is_mac_alg d.cri_alg).length ≤ 1 ∧
    (∀ d ∈ cri, key_fits d) ∧
    (matrix_encrypt (chain_cipher cri) (chain_mac cri)).isSome = true

/-! ## Lemmas on the session table -/

theorem sample_newsession :
    octo_newsession sample_calc_hash State.init (some 0) [sample_des, sample_md5]
      true true = .ok (0, sample_state, some 1) := by
  rfl

theorem TableInv_init : TableInv State.init := by
  simp [TableInv, State.init]

theorem TableInv_sample : TableInv sample_state := by
  decide

/-- Freeing a handle whose low 32 bits are 0 is answered EINVAL in every
well-formed state: the test of line 323 sees the empty slot 0 before line 330
is reached. -/
theorem octo_freesession_sid_zero (st : State) (tid : Nat) (hinv : TableInv st)
    (h0 : CRYPTO_SESID2LID tid = 0) : octo_freesession st tid = .ok (EINVAL, st) := by
  unfold octo_freesession
  simp only [h0]
  unfold TableInv at hinv
  cases hs : st.octo_sessions with
  | none => simp
  | some arr =>
    rw [hs] at hinv
    simp [hinv.2.2]

/-- Freeing an empty slot inside the array is answered EINVAL and changes
nothing. -/
theorem octo_freesession_empty (st : State) (arr : List (Option octo_sess)) (i : Nat)
    (hs : st.octo_sessions = some arr) (hi : i < 2 ^ 32)
    (hslot : arr[i]? = some none) : octo_freesession st i = .ok (EINVAL, st) := by
  unfold octo_freesession CRYPTO_SESID2LID
  rw [Nat.mod_eq_of_lt hi]
  by_cases hgt : i > st.octo_sesnum
  · simp [hgt]
  · simp [hgt, hs, hslot]

/-- Freeing a live handle clears its slot and nothing else. -/
theorem octo_freesession_live (st : State) (arr : List (Option octo_sess)) (i : Nat)
    (od : octo_sess) (hs : st.octo_sessions = some arr) (hi : i < 2 ^ 32) (h0 : i ≠ 0)
    (hle : i ≤ st.octo_sesnum) (hslot : arr[i]? = some (some od)) :
    octo_freesession st i =
      .ok (0, { st with octo_sessions := some (arr.set i none) }) := by
  unfold octo_freesession CRYPTO_SESID2LID
  rw [Nat.mod_eq_of_lt hi]
  have hgt : ¬ i > st.octo_sesnum := by omega
  simp [hgt, hs, hslot, h0]

/-- What the scan loop returns: an index from `i` up to the capacity, below
`2^31` once it moved, whose slot is empty unless it is the capacity, with
every slot before it occupied. -/
theorem octo_scan_from_spec (arr : List (Option octo_sess)) (sesnum : Nat) :
    ∀ (n i j : Nat), octo_scan_from arr sesnum n i = .ok j → n = sesnum - i →
      i ≤ j ∧ (i ≤ sesnum → j ≤ sesnum) ∧ (j < sesnum → arr[j]? = some none) ∧
        (i < j → j < 2 ^ 31) ∧ (∀ k, i ≤ k → k < j → ∃ od, arr[k]? = some (some od)) := by
  intro n
  induction n with
  | zero =>
    intro i j h hn
    simp only [octo_scan_from, Except.ok.injEq] at h
    subst h
    refine ⟨le_refl _, fun h => h, fun h => by omega, fun h => by omega, fun k h1 h2 => by omega⟩
  | succ n ih =>
    intro i j h hn
    unfold octo_scan_from at h
    have hlt : i < sesnum := by omega
    simp only [hlt, if_true] at h
    cases hg : arr[i]? with
    | none => simp [hg] at h
    | some slot =>
      cases slot with
      | none =>
        simp only [hg, Except.ok.injEq] at h
        subst h
        exact ⟨le_refl _, fun h => h, fun _ => hg, fun h => by omega, fun k h1 h2 => by omega⟩
      | some od =>
        simp only [hg] at h
        by_cases hov : i + 1 < 2 ^ 31
        · simp only [hov, if_true] at h
          obtain ⟨h1, h2, h3, h4, h5⟩ := ih (i + 1) j h (by omega)
          refine ⟨by omega, fun _ => h2 (by omega), h3, fun _ => ?_, fun k hk1 hk2 => ?_⟩
          · rcases Nat.lt_or_ge (i + 1) j with hlt2 | hge2
            · exact h4 hlt2
            · have : j = i + 1 := by omega
              omega
          · rcases Nat.lt_or_ge i k with hlt2 | hge2
            · exact h5 k (by omega) hk2
            · have : k = i := by omega
              subst this
              exact ⟨od, hg⟩
        · rw [if_neg (by omega)] at h
          cases h

/-- The scan loop returns when the array has `sesnum` slots and the
capacity is below `2^31`. -/
theorem octo_scan_from_returns (arr : List (Option octo_sess)) (sesnum : Nat)
    (hlen : arr.length = sesnum) (hcap : sesnum < 2 ^ 31) :
    ∀ (n i : Nat), ∃ j, octo_scan_from arr sesnum n i = .ok j := by
  intro n
  induction n with
  | zero => intro i; exact ⟨i, rfl⟩
  | succ n ih =>
    intro i
    unfold octo_scan_from
    by_cases hlt : i < sesnum
    · simp only [hlt, if_true]
      have hi : i < arr.length := by omega
      rw [List.getElem?_eq_getElem hi]
      cases arr[i] with
      | none => exact ⟨i, rfl⟩
      | some od =>
        have hov : i + 1 < 2 ^ 31 := by omega
        simp only [hov, if_true]
        exact ih (i + 1)
    · simp only [hlt, if_false]
      exact ⟨i, rfl⟩

/-- Looking up in the doubled array gives what the old array gave. -/
theorem octo_lookup_grown (old : List (Option octo_sess)) (h : Nat) :
    octo_lookup
        { octo_sessions := some (old.take old.length ++
            (List.replicate (old.length * 2) none).drop old.length),
          octo_sesnum := old.length * 2 } h =
      octo_lookup { octo_sessions := some old, octo_sesnum := old.length } h := by
  unfold octo_lookup
  simp only [List.take_length, List.drop_replicate]
  by_cases h0 : h = 0
  · simp [h0]
  · by_cases h1 : h < old.length
    · have h2 : ¬ (h ≥ old.length * 2 ∨ h = 0) := by omega
      have h3 : ¬ (h ≥ old.length ∨ h = 0) := by omega
      simp only [h2, h3, if_false]
      rw [List.getElem?_append_left h1]
    · have h3 : (h ≥ old.length ∨ h = 0) := by omega
      simp only [h3, if_true]
      by_cases h2 : h < old.length * 2
      · have h4 : ¬ (h ≥ old.length * 2 ∨ h = 0) := by omega
        simp only [h4, if_false]
        rw [List.getElem?_append_right (by omega)]
        rw [List.getElem?_replicate]
        have : h - old.length < old.length * 2 - old.length := by omega
        simp [this]
      · have h4 : (h ≥ old.length * 2 ∨ h = 0) := by omega
        simp only [h4, if_true]

/-- What lines 167-201 do in a well-formed state: an early return (only
when `kmalloc` fails) leaves the globals as they were; otherwise the globals
are well formed again, every handle looks up what it did, and the chosen
index is a positive `int` that names an empty slot of the array. -/
theorem octo_slot_spec (st : State) (k : Bool) (hinv : TableInv st) (b : Bool)
    (st1 : State) (i : Nat) (h : octo_slot st k = .ok (b, st1, i)) :
    (b = false → st1 = st ∧ k = false) ∧
      (b = true → TableInv st1 ∧ 1 ≤ i ∧ i < 2 ^ 31 ∧
        (∀ x, octo_lookup st1 x = octo_lookup st x) ∧
        ∃ arr1, st1.octo_sessions = some arr1 ∧ i < arr1.length ∧ arr1[i]? = some none) := by
  obtain ⟨sessions, sesnum⟩ := st
  cases sessions with
  | none =>
    simp only [TableInv] at hinv
    subst hinv
    cases k with
    | true =>
      simp only [octo_slot, octo_scan, octo_grow, true_or, if_true,
        Except.ok.injEq, Prod.mk.injEq] at h
      obtain ⟨hb, hst, hi⟩ := h
      subst hb hst hi
      refine ⟨fun hf => (by cases hf), fun _ => ⟨?_, le_refl _, by norm_num, ?_, ?_⟩⟩
      · simp only [TableInv]
        exact ⟨by simp, le_refl _, by simp [CRYPTO_SW_SESSIONS]⟩
      · intro x
        unfold octo_lookup
        by_cases hx : x ≥ CRYPTO_SW_SESSIONS ∨ x = 0
        · simp [hx]
        · have hx2 : x < CRYPTO_SW_SESSIONS := by omega
          simp [hx, List.getElem?_replicate, hx2]
      · exact ⟨_, rfl, by simp [CRYPTO_SW_SESSIONS], by simp [CRYPTO_SW_SESSIONS]⟩
    | false =>
      simp only [octo_slot, octo_scan, octo_grow, true_or, if_true, Bool.false_eq_true,
        if_false, Except.ok.injEq, Prod.mk.injEq] at h
      obtain ⟨hb, hst, _⟩ := h
      subst hb hst
      exact ⟨fun _ => ⟨rfl, rfl⟩, fun hf => (by cases hf)⟩
  | some arr =>
    simp only [TableInv] at hinv
    obtain ⟨hlen, hcap, hz⟩ := hinv
    simp only [CRYPTO_SW_SESSIONS] at hcap
    simp only [octo_slot, octo_scan] at h
    cases hsc : octo_scan_from arr sesnum (sesnum - 1) 1 with
    | error a => simp [hsc] at h
    | ok j =>
      simp only [hsc] at h
      obtain ⟨hj1, hj2, hj3, hj4, _⟩ := octo_scan_from_spec arr sesnum _ _ _ hsc rfl
      have hjle : j ≤ sesnum := hj2 (by omega)
      by_cases hfull : j = sesnum
      · have hlt31 : sesnum < 2 ^ 31 := by
          have := hj4 (by omega)
          omega
        have hmod : sesnum * 2 % 2 ^ 32 = sesnum * 2 := Nat.mod_eq_of_lt (by omega)
        have hhalf : sesnum * 2 / 2 = sesnum := by omega
        have hne : ¬ sesnum * 2 = 32 := by omega
        subst hfull
        cases k with
        | true =>
          simp only [octo_grow, CRYPTO_SW_SESSIONS, or_true, if_true, hmod, hhalf,
            reduceCtorEq, if_false, hlen, le_refl, Except.ok.injEq, Prod.mk.injEq] at h
          obtain ⟨hb, hst, hi⟩ := h
          subst hb hst hi
          refine ⟨fun hf => (by cases hf), fun _ => ⟨?_, by omega, hlt31, ?_, ?_⟩⟩
          · refine ⟨by simp [hlen]; omega, by simp [CRYPTO_SW_SESSIONS]; omega, ?_⟩
            rw [List.getElem?_append_left (by simp [hlen]; omega)]
            rw [List.getElem?_take_of_lt (by omega)]
            exact hz
          · intro x
            have := octo_lookup_grown arr x
            rw [hlen] at this
            exact this
          · refine ⟨_, rfl, by simp [hlen]; omega, ?_⟩
            rw [List.getElem?_append_right (by simp [hlen])]
            simp [hlen, List.getElem?_replicate]
            omega
        | false =>
          simp only [octo_grow, CRYPTO_SW_SESSIONS, or_true, if_true, hmod, hhalf,
            reduceCtorEq, if_false, hne, Except.ok.injEq, Prod.mk.injEq,
            Bool.false_eq_true] at h
          obtain ⟨hb, hst, _⟩ := h
          subst hb hst
          exact ⟨fun _ => ⟨rfl, rfl⟩, fun hf => by cases hf⟩
      · have hjlt : j < sesnum := by omega
        simp only [octo_grow, reduceCtorEq, hfull, or_self, if_false, Except.ok.injEq,
          Prod.mk.injEq] at h
        obtain ⟨hb, hst, hi⟩ := h
        subst hb hst hi
        refine ⟨fun hf => (by cases hf), fun _ => ⟨?_, hj1, ?_, fun x => rfl, ?_⟩⟩
        · exact ⟨hlen, hcap, hz⟩
        · rcases Nat.lt_or_ge 1 j with h1 | h1
          · exact hj4 h1
          · have : j = 1 := by omega
            subst this
            norm_num
        · exact ⟨arr, rfl, by omega, hj3 hjlt⟩

/-- Lines 167-201 return, with an index, when `kmalloc` succeeds and the
capacity is below `2^31`. -/
theorem octo_slot_returns (st : State) (hinv : TableInv st)
    (hcap : st.octo_sesnum < 2 ^ 31) :
    ∃ st1 i, octo_slot st true = .ok (true, st1, i) := by
  obtain ⟨sessions, sesnum⟩ := st
  cases sessions with
  | none =>
    exact ⟨_, _, rfl⟩
  | some arr =>
    simp only [TableInv] at hinv
    obtain ⟨hlen, hc, hz⟩ := hinv
    simp only [CRYPTO_SW_SESSIONS] at hc
    simp only at hcap
    obtain ⟨j, hj⟩ := octo_scan_from_returns arr sesnum hlen hcap (sesnum - 1) 1
    simp only [octo_slot, octo_scan, hj, octo_grow]
    by_cases hfull : j = sesnum
    · have hmod : sesnum * 2 % 2 ^ 32 = sesnum * 2 := Nat.mod_eq_of_lt (by omega)
      have hhalf : sesnum * 2 / 2 = sesnum := by omega
      subst hfull
      rw [if_pos (Or.inr rfl)]
      simp only [reduceCtorEq, if_false, if_true, hmod, hhalf, hlen, le_refl]
      exact ⟨_, _, rfl⟩
    · rw [if_neg (by simp [hfull])]
      exact ⟨_, _, rfl⟩

/-- Writing NULL into an empty slot changes nothing. -/
theorem set_none_of_empty (arr : List (Option octo_sess)) (i : Nat)
    (hslot : arr[i]? = some none) : arr.set i none = arr := by
  apply List.ext_getElem?
  intro j
  rw [List.getElem?_set]
  by_cases hij : i = j
  · subst hij
    have hi : i < arr.length := by
      by_contra hcon
      rw [List.getElem?_eq_none (by omega)] at hslot
      cases hslot
    simp [hi, hslot]
  · simp [hij]

/-- What lines 203-311 do on an empty slot `i` of a well-formed array: the
three error exits leave the globals as they were (the session they built is
freed again), success stores the filled session in slot `i`. -/
theorem octo_install_eq (octo_calc_hash : Nat → Option (List Nat) → List Nat × List Nat)
    (st1 : State) (arr : List (Option octo_sess)) (i : Nat)
    (encini macini : Option cryptoini) (c : cryptoini) (k : Bool)
    (hs : st1.octo_sessions = some arr) (hlen : arr.length = st1.octo_sesnum)
    (hi : i < arr.length) (h1 : 1 ≤ i) (h31 : i < 2 ^ 31) (hslot : arr[i]? = some none) :
    octo_install octo_calc_hash st1 i encini macini c k =
      if k then
        match octo_fill octo_calc_hash encini macini c with
        | .error a => .error a
        | .ok (od, true) =>
          .ok (0, { st1 with octo_sessions := some (arr.set i (some od)) }, some i)
        | .ok (_, false) => .ok (EINVAL, st1, some i)
      else .ok (ENOBUFS, st1, some i) := by
  obtain ⟨sessions, sesnum⟩ := st1
  simp only at hs hlen
  subst hs
  have h32 : i < 2 ^ 32 := by omega
  unfold octo_install
  simp only [hi, if_true]
  cases k with
  | false =>
    simp only [Bool.false_eq_true, if_false, set_none_of_empty arr i hslot]
    rw [octo_freesession_empty _ arr i rfl h32 hslot]
  | true =>
    simp only [if_true]
    cases hf : octo_fill octo_calc_hash encini macini c with
    | error a => rfl
    | ok p =>
      obtain ⟨od, b⟩ := p
      cases b with
      | true => rfl
      | false =>
        simp only
        rw [octo_freesession_live _ (arr.set i (some od)) i od rfl h32 (by omega)
          (by simp only; omega) (by simp [List.getElem?_set, hi])]
        simp only [List.set_set, set_none_of_empty arr i hslot]

/-- The part of `octo_newsession` behind the classification (lines 167-311)
returns in one of the ways of `NewsessionOutcome`. -/
theorem octo_newsession_late
    (octo_calc_hash : Nat → Option (List Nat) → List Nat × List Nat)
    (st : State) (sid : Option Nat) (cri : List cryptoini) (a b : Bool)
    (hinv : TableInv st) (r : Int) (st2 : State) (sid2 : Option Nat)
    (encini macini : Option cryptoini) (c : cryptoini)
    (hcl : octo_classify 2 cri none none = ([], encini, macini))
    (hc : octo_pick_c encini macini = some c)
    (hrun : (match octo_slot st a with
          | .error e => Except.error e
          | .ok (true, st1, i1) => octo_install octo_calc_hash st1 i1 encini macini c b
          | .ok (false, st1, _) =>
            (.ok (ENOBUFS, st1, sid) : Except Abort (Int × State × Option Nat))) =
        .ok (r, st2, sid2)) :
    NewsessionOutcome octo_calc_hash st sid cri a b r st2 sid2 := by
  unfold NewsessionOutcome
  right
  cases hsl : octo_slot st a with
  | error e => simp [hsl] at hrun
  | ok p =>
    obtain ⟨bb, st1, i⟩ := p
    obtain ⟨hF, hT⟩ := octo_slot_spec st a hinv bb st1 i hsl
    cases bb with
    | false =>
      simp only [hsl, Except.ok.injEq, Prod.mk.injEq] at hrun
      obtain ⟨e1, e2⟩ := hF rfl
      exact Or.inl ⟨hrun.1.symm, by rw [← hrun.2.1]; exact e1, hrun.2.2.symm, e2⟩
    | true =>
      right
      obtain ⟨hinv1, h1, h31, _, arr1, hs1, hi1, hslot1⟩ := hT rfl
      have hlen1 : arr1.length = st1.octo_sesnum := by
        unfold TableInv at hinv1
        rw [hs1] at hinv1
        exact hinv1.1
      simp only [hsl] at hrun
      rw [octo_install_eq octo_calc_hash st1 arr1 i encini macini c b hs1 hlen1 hi1 h1
        h31 hslot1] at hrun
      refine ⟨st1, i, encini, macini, c, hcl, hc, rfl, ?_⟩
      cases b with
      | false =>
        simp only [Bool.false_eq_true, if_false, Except.ok.injEq, Prod.mk.injEq] at hrun
        exact ⟨hrun.2.2.symm, Or.inl ⟨hrun.1.symm, rfl, hrun.2.1.symm⟩⟩
      | true =>
        simp only [if_true] at hrun
        cases hf : octo_fill octo_calc_hash encini macini c with
        | error e => simp [hf] at hrun
        | ok q =>
          obtain ⟨od, ok⟩ := q
          cases ok with
          | false =>
            simp only [hf, Except.ok.injEq, Prod.mk.injEq] at hrun
            exact ⟨hrun.2.2.symm,
              Or.inr (Or.inl ⟨od, hrun.1.symm, rfl, rfl, hrun.2.1.symm⟩)⟩
          | true =>
            simp only [hf, Except.ok.injEq, Prod.mk.injEq] at hrun
            exact ⟨hrun.2.2.symm,
              Or.inr (Or.inr ⟨od, arr1, hrun.1.symm, rfl, rfl, hs1, hrun.2.1.symm⟩)⟩

/-- Every return of `octo_newsession` in a well-formed state is one of the
ways of `NewsessionOutcome`. -/
theorem octo_newsession_cases
    (octo_calc_hash : Nat → Option (List Nat) → List Nat × List Nat)
    (st : State) (sid : Option Nat) (cri : List cryptoini) (a b : Bool)
    (hinv : TableInv st) (r : Int) (st2 : State) (sid2 : Option Nat)
    (h : octo_newsession octo_calc_hash st sid cri a b = .ok (r, st2, sid2)) :
    NewsessionOutcome octo_calc_hash st sid cri a b r st2 sid2 := by
  unfold octo_newsession at h
  by_cases hnull : sid = none ∨ cri = []
  · simp only [hnull, if_true, Except.ok.injEq, Prod.mk.injEq] at h
    exact Or.inl ⟨h.1.symm, h.2.1.symm, h.2.2.symm⟩
  · simp only [hnull, if_false] at h
    have early : (Except.ok (EINVAL, st, sid) : Except Abort (Int × State × Option Nat)) =
        .ok (r, st2, sid2) → (r = EINVAL ∧ st2 = st ∧ sid2 = sid) := by
      intro he
      simp only [Except.ok.injEq, Prod.mk.injEq] at he
      exact ⟨he.1.symm, he.2.1.symm, he.2.2.symm⟩
    rcases hc : octo_classify 2 cri none none with ⟨rest, encini, macini⟩
    rw [hc] at h
    cases rest with
    | cons d tl =>
      cases encini <;> cases macini <;> exact Or.inl (early h)
    | nil =>
      cases encini with
      | none =>
        cases macini with
        | none => exact Or.inl (early h)
        | some m =>
          exact octo_newsession_late octo_calc_hash st sid cri a b hinv r st2 sid2
            none (some m) m hc rfl h
      | some e =>
        exact octo_newsession_late octo_calc_hash st sid cri a b hinv r st2 sid2
          (some e) macini e hc rfl h

/-- A return of `octo_freesession` keeps the globals well formed. -/
theorem octo_freesession_TableInv (st st1 : State) (tid : Nat) (r : Int)
    (hinv : TableInv st) (h : octo_freesession st tid = .ok (r, st1)) : TableInv st1 := by
  obtain ⟨sessions, sesnum⟩ := st
  unfold octo_freesession at h
  simp only at h
  split at h
  · simp only [Except.ok.injEq, Prod.mk.injEq] at h
    rw [← h.2]
    exact hinv
  · cases sessions with
    | none =>
      simp only [Except.ok.injEq, Prod.mk.injEq] at h
      rw [← h.2]
      exact hinv
    | some arr =>
      simp only at h
      split at h
      · cases h
      · simp only [Except.ok.injEq, Prod.mk.injEq] at h
        rw [← h.2]
        exact hinv
      · split at h
        · simp only [Except.ok.injEq, Prod.mk.injEq] at h
          rw [← h.2]
          exact hinv
        · simp only [Except.ok.injEq, Prod.mk.injEq] at h
          rw [← h.2]
          simp only [TableInv] at hinv ⊢
          refine ⟨by simp [hinv.1], hinv.2.1, ?_⟩
          rename_i hne
          rw [List.getElem?_set]
          simp only [hne, if_false]
          exact hinv.2.2

/-- A return of `octo_process` leaves the globals as they were: it only
returns through the EINVAL and ENOENT exits in front of the first `panic`. -/
theorem octo_process_state
    (octo_calc_hash : Nat → Option (List Nat) → List Nat × List Nat)
    (crypto_copydata : Nat → List Nat → Int → Int → List Nat)
    (st st1 : State) (crp crp1 : Option cryptop) (r : Int) (n : Nat)
    (h : octo_process octo_calc_hash crypto_copydata st crp = .ok (r, st1, crp1, n)) :
    st1 = st := by
  unfold octo_process at h
  cases crp with
  | none =>
    simp only [Except.ok.injEq, Prod.mk.injEq] at h
    exact h.2.1.symm
  | some crp0 =>
    simp only at h
    split at h
    · simp only [octo_done, Except.ok.injEq, Prod.mk.injEq] at h
      exact h.2.1.symm
    · simp only [octo_done, Except.ok.injEq, Prod.mk.injEq] at h
      exact h.2.1.symm
    · split at h
      · cases h
      · simp only [octo_done, Except.ok.injEq, Prod.mk.injEq] at h
        exact h.2.1.symm
      · simp [kernel_panic] at h

/-- A return of `octo_newsession` keeps the globals well formed. -/
theorem octo_newsession_TableInv
    (octo_calc_hash : Nat → Option (List Nat) → List Nat × List Nat)
    (st : State) (sid : Option Nat) (cri : List cryptoini) (a b : Bool)
    (hinv : TableInv st) (r : Int) (st2 : State) (sid2 : Option Nat)
    (h : octo_newsession octo_calc_hash st sid cri a b = .ok (r, st2, sid2)) :
    TableInv st2 := by
  rcases octo_newsession_cases octo_calc_hash st sid cri a b hinv r st2 sid2 h with
    ⟨_, h2, _⟩ | ⟨_, h2, _⟩ | ⟨st1, i, encini, macini, c, _, _, hsl, _, hcase⟩
  · rw [h2]; exact hinv
  · rw [h2]; exact hinv
  · obtain ⟨hinv1, h1, _, _, arr1, hs1, hi1, _⟩ :=
      (octo_slot_spec st a hinv true st1 i hsl).2 rfl
    rcases hcase with ⟨_, _, h2⟩ | ⟨_, _, _, _, h2⟩ | ⟨od, arr, _, _, _, hs, h2⟩
    · rw [h2]; exact hinv1
    · rw [h2]; exact hinv1
    · rw [h2]
      unfold TableInv at hinv1 ⊢
      rw [hs] at hinv1
      simp only
      refine ⟨by simp [hinv1.1], hinv1.2.1, ?_⟩
      rw [List.getElem?_set]
      have : ¬ i = 0 := by omega
      simp only [this, if_false]
      exact hinv1.2.2

/-- Every state the driver reaches is well formed. -/
theorem reachable_TableInv
    (octo_calc_hash : Nat → Option (List Nat) → List Nat × List Nat)
    (crypto_copydata : Nat → List Nat → Int → Int → List Nat) (st : State)
    (h : Reachable octo_calc_hash crypto_copydata st) : TableInv st := by
  induction h with
  | init => exact TableInv_init
  | newsession st st1 sid sid1 cri a b r _ hrun ih =>
    exact octo_newsession_TableInv octo_calc_hash st sid cri a b ih r st1 sid1 hrun
  | freesession st st1 tid r _ hrun ih =>
    exact octo_freesession_TableInv st st1 tid r ih hrun
  | process st st1 crp crp1 r n _ hrun ih =>
    rw [octo_process_state octo_calc_hash crypto_copydata st st1 crp crp1 r n hrun]
    exact ih

/-! ## Lemmas on the construction of a session -/

/-- The ids the cipher test of lines 141-144 accepts. -/
theorem is_enc_alg_iff (a : Int) :
    is_enc_alg a = true ↔
      a = CRYPTO_DES_CBC ∨ a = CRYPTO_3DES_CBC ∨ a = CRYPTO_AES_CBC ∨ a = CRYPTO_NULL_CBC := by
  simp [is_enc_alg, or_assoc]

/-- The ids the mac test of lines 133-135 accepts. -/
theorem is_mac_alg_iff (a : Int) :
    is_mac_alg a = true ↔
      a = CRYPTO_MD5_HMAC ∨ a = CRYPTO_SHA1_HMAC ∨ a = CRYPTO_NULL_HMAC := by
  simp [is_mac_alg, or_assoc]

/-- The switch of lines 238-306 implements the compatibility matrix: on a
cipher `encini` and a mac `macini` it returns, it binds a primitive exactly
for the cells of the matrix, and then the encrypt primitive of the cell. -/
theorem octo_bind_spec (octo_calc_hash : Nat → Option (List Nat) → List Nat × List Nat)
    (od : octo_sess) (encini macini : Option cryptoini) (c : cryptoini)
    (hc : octo_pick_c encini macini = some c)
    (he : ∀ e, encini = some e → is_enc_alg e.cri_alg = true)
    (hm : ∀ m, macini = some m → is_mac_alg m.cri_alg = true) :
    ∃ od1 flag, octo_bind octo_calc_hash od macini c = .ok (od1, flag) ∧
      (flag = true ↔
        (matrix_encrypt (encini.map fun d => d.cri_alg)
          (macini.map fun d => d.cri_alg)).isSome = true) ∧
      (flag = true →
        od1.octo_encrypt = matrix_encrypt (encini.map fun d => d.cri_alg)
          (macini.map fun d => d.cri_alg)) := by
  cases encini with
  | none =>
    cases macini with
    | none => simp [octo_pick_c] at hc
    | some m =>
      simp only [octo_pick_c, Option.some.injEq] at hc
      subst hc
      have hmv := (is_mac_alg_iff _).1 (hm m rfl)
      rcases hmv with hv | hv | hv <;>
        simp [octo_bind, octo_alg_or_none, octo_bind_mac, macini_key, matrix_encrypt, hv, CRYPTO_DES_CBC,
          CRYPTO_3DES_CBC, CRYPTO_AES_CBC, CRYPTO_NULL_CBC, CRYPTO_MD5_HMAC,
          CRYPTO_SHA1_HMAC, CRYPTO_NULL_HMAC]
  | some e =>
    simp only [octo_pick_c, Option.some.injEq] at hc
    subst hc
    have hev := (is_enc_alg_iff _).1 (he e rfl)
    cases macini with
    | none =>
      rcases hev with hv | hv | hv | hv <;>
        simp [octo_bind, octo_alg_or_none, octo_bind_mac, macini_key, matrix_encrypt, hv, CRYPTO_DES_CBC,
          CRYPTO_3DES_CBC, CRYPTO_AES_CBC, CRYPTO_NULL_CBC, CRYPTO_MD5_HMAC,
          CRYPTO_SHA1_HMAC, CRYPTO_NULL_HMAC]
    | some m =>
      have hmv := (is_mac_alg_iff _).1 (hm m rfl)
      rcases hev with hv | hv | hv | hv <;> rcases hmv with hw | hw | hw <;>
        simp [octo_bind, octo_alg_or_none, octo_bind_mac, macini_key, matrix_encrypt, hv, hw, CRYPTO_DES_CBC,
          CRYPTO_3DES_CBC, CRYPTO_AES_CBC, CRYPTO_NULL_CBC, CRYPTO_MD5_HMAC,
          CRYPTO_SHA1_HMAC, CRYPTO_NULL_HMAC]

/-- Lines 215-218 touch the cipher key and its length only. -/
theorem octo_copy_enckey_frame (od od1 : octo_sess) (encini : Option cryptoini)
    (h : octo_copy_enckey od encini = .ok od1) :
    od1 = { od with octo_enckey := od1.octo_enckey, octo_encklen := od1.octo_encklen } := by
  unfold octo_copy_enckey at h
  split at h
  · cases h; rfl
  · split at h
    · cases h; rfl
    · split at h
      · cases h
      · cases h; rfl

/-- Lines 220-223 touch the mac key and its length only. -/
theorem octo_copy_mackey_frame (od od1 : octo_sess) (macini : Option cryptoini)
    (h : octo_copy_mackey od macini = .ok od1) :
    od1 = { od with octo_mackey := od1.octo_mackey, octo_macklen := od1.octo_macklen } := by
  unfold octo_copy_mackey at h
  split at h
  · cases h; rfl
  · split at h
    · cases h; rfl
    · split at h
      · cases h
      · cases h; rfl

/-- One mac cell of the switch touches the two function pointers and the
digest state only. -/
theorem octo_bind_mac_frame (octo_calc_hash : Nat → Option (List Nat) → List Nat × List Nat)
    (od od1 : octo_sess) (macini : Option cryptoini) (enc dec : Prim) (auth : Nat)
    (flag : Bool) (h : octo_bind_mac octo_calc_hash od macini enc dec auth = .ok (od1, flag)) :
    od1 = { od with octo_encrypt := od1.octo_encrypt, octo_decrypt := od1.octo_decrypt,
                    octo_hminner := od1.octo_hminner, octo_hmouter := od1.octo_hmouter } := by
  unfold octo_bind_mac at h
  split at h
  · cases h
  · cases h; rfl

/-- The switch of lines 238-306 touches the IV size, the two function
pointers and the digest state only. -/
theorem octo_bind_frame (octo_calc_hash : Nat → Option (List Nat) → List Nat × List Nat)
    (od od1 : octo_sess) (macini : Option cryptoini) (c : cryptoini) (flag : Bool)
    (h : octo_bind octo_calc_hash od macini c = .ok (od1, flag)) :
    od1 = { od with octo_ivsize := od1.octo_ivsize, octo_encrypt := od1.octo_encrypt,
                    octo_decrypt := od1.octo_decrypt, octo_hminner := od1.octo_hminner,
                    octo_hmouter := od1.octo_hmouter } := by
  unfold octo_bind at h
  simp only at h
  split_ifs at h
  all_goals first
    | (cases h; rfl)
    | (have hf := octo_bind_mac_frame octo_calc_hash _ od1 macini _ _ _ flag h
       rw [hf])

/-- A session that lines 213-309 filled successfully has `octo_mackey_set`
0: no line of `octo_newsession` writes the field after the `memset`. -/
theorem octo_fill_mackey_set (octo_calc_hash : Nat → Option (List Nat) → List Nat × List Nat)
    (encini macini : Option cryptoini) (c : cryptoini) (od : octo_sess) (flag : Bool)
    (h : octo_fill octo_calc_hash encini macini c = .ok (od, flag)) :
    od.octo_mackey_set = 0 := by
  unfold octo_fill at h
  cases h1 : octo_copy_enckey octo_sess.zero encini with
  | error a => simp [h1] at h
  | ok od1 =>
    cases h2 : octo_copy_mackey od1 macini with
    | error a => simp [h1, h2] at h
    | ok od2 =>
      simp only [h1, h2] at h
      have f1 := congrArg octo_sess.octo_mackey_set (octo_copy_enckey_frame _ _ _ h1)
      have f2 := congrArg octo_sess.octo_mackey_set (octo_copy_mackey_frame _ _ _ h2)
      simp only at f1 f2
      cases h3 : octo_bind octo_calc_hash
          { od2 with octo_mlen := octo_pick_mlen encini macini } macini c with
      | error a => simp [h3] at h
      | ok p =>
        obtain ⟨od4, fl⟩ := p
        have f3 := congrArg octo_sess.octo_mackey_set (octo_bind_frame _ _ _ _ _ _ h3)
        simp only at f3
        cases fl with
        | false =>
          simp only [h3, Except.ok.injEq, Prod.mk.injEq] at h
          rw [← h.1, f3, f2, f1]
          rfl
        | true =>
          simp only [h3, Except.ok.injEq, Prod.mk.injEq] at h
          rw [← h.1]
          simp only
          rw [f3, f2, f1]
          rfl

/-- The copy of a key that fits returns. -/
theorem memcpy_returns (dst k : List Nat) (n : Int) (hdst : dst.length = 64)
    (h0 : 0 ≤ n) (h64 : n.toNat ≤ 64) (hk : n.toNat ≤ k.length) :
    memcpy dst k n = .ok (k.take n.toNat ++ dst.drop n.toNat) := by
  unfold memcpy
  rw [if_pos ⟨h0, by omega, hk⟩]

/-- Lines 215-218 return when the cipher key fits. -/
theorem octo_copy_enckey_returns (od : octo_sess) (encini : Option cryptoini)
    (hdst : od.octo_enckey.length = 64) (hfit : ∀ e, encini = some e → key_fits e) :
    ∃ od1, octo_copy_enckey od encini = .ok od1 := by
  unfold octo_copy_enckey
  cases encini with
  | none => exact ⟨od, rfl⟩
  | some e =>
    have hf := hfit e rfl
    unfold key_fits at hf
    cases hk : e.cri_key with
    | none =>
      simp only [hk]
      exact ⟨_, rfl⟩
    | some k =>
      rw [hk] at hf
      simp only at hf
      simp only [hk, memcpy_returns _ k _ hdst hf.1 hf.2.1 hf.2.2]
      exact ⟨_, rfl⟩

/-- Lines 220-223 return when the mac key fits. -/
theorem octo_copy_mackey_returns (od : octo_sess) (macini : Option cryptoini)
    (hdst : od.octo_mackey.length = 64) (hfit : ∀ m, macini = some m → key_fits m) :
    ∃ od1, octo_copy_mackey od macini = .ok od1 := by
  unfold octo_copy_mackey
  cases macini with
  | none => exact ⟨od, rfl⟩
  | some m =>
    have hf := hfit m rfl
    unfold key_fits at hf
    cases hk : m.cri_key with
    | none =>
      simp only [hk]
      exact ⟨_, rfl⟩
    | some k =>
      rw [hk] at hf
      simp only at hf
      simp only [hk, memcpy_returns _ k _ hdst hf.1 hf.2.1 hf.2.2]
      exact ⟨_, rfl⟩

/-- Lines 213-309 on a cipher `encini` and a mac `macini` whose keys fit:
they return, they bind a primitive exactly for the cells of the
compatibility matrix, and then the encrypt primitive of the cell. -/
theorem octo_fill_spec (octo_calc_hash : Nat → Option (List Nat) → List Nat × List Nat)
    (encini macini : Option cryptoini) (c : cryptoini)
    (hc : octo_pick_c encini macini = some c)
    (he : ∀ e, encini = some e → is_enc_alg e.cri_alg = true ∧ key_fits e)
    (hm : ∀ m, macini = some m → is_mac_alg m.cri_alg = true ∧ key_fits m) :
    ∃ od flag, octo_fill octo_calc_hash encini macini c = .ok (od, flag) ∧
      (flag = true ↔
        (matrix_encrypt (encini.map fun d => d.cri_alg)
          (macini.map fun d => d.cri_alg)).isSome = true) ∧
      (flag = true →
        od.octo_encrypt = matrix_encrypt (encini.map fun d => d.cri_alg)
          (macini.map fun d => d.cri_alg)) := by
  obtain ⟨od1, h1⟩ := octo_copy_enckey_returns octo_sess.zero encini
    (by simp [octo_sess.zero, MAX_CIPHER_KEYLEN]) (fun e h => (he e h).2)
  have hlen1 : od1.octo_mackey.length = 64 := by
    have := congrArg octo_sess.octo_mackey (octo_copy_enckey_frame _ _ _ h1)
    simp only at this
    rw [this]
    simp [octo_sess.zero, MAX_HASH_KEYLEN]
  obtain ⟨od2, h2⟩ := octo_copy_mackey_returns od1 macini hlen1 (fun m h => (hm m h).2)
  obtain ⟨od4, flag, h3, hiff, henc⟩ := octo_bind_spec octo_calc_hash
    { od2 with octo_mlen := octo_pick_mlen encini macini } encini macini c hc
    (fun e h => (he e h).1) (fun m h => (hm m h).1)
  unfold octo_fill
  simp only [h1, h2, h3]
  cases flag with
  | false => exact ⟨_, false, rfl, hiff, fun hf => (by cases hf)⟩
  | true => exact ⟨_, true, rfl, hiff, fun _ => henc rfl⟩

/-- With both allocations succeeding, a capacity below `2^31` and a chain
that classifies to `(encini, macini)`, `octo_newsession` picks an empty slot
`i >= 1` of a well-formed table `st1` that binds every handle as before, and
its result is decided by lines 213-309. -/
theorem octo_newsession_run (octo_calc_hash : Nat → Option (List Nat) → List Nat × List Nat)
    (st : State) (sid0 : Nat) (cri : List cryptoini)
    (encini macini : Option cryptoini) (c : cryptoini)
    (hinv : TableInv st) (hcap : st.octo_sesnum < 2 ^ 31) (hcri : cri ≠ [])
    (hcl : octo_classify 2 cri none none = ([], encini, macini))
    (hc : octo_pick_c encini macini = some c) :
    ∃ st1 i arr1, TableInv st1 ∧ st1.octo_sessions = some arr1 ∧ 1 ≤ i ∧ i < arr1.length ∧
      i < 2 ^ 31 ∧ arr1[i]? = some none ∧ (∀ x, octo_lookup st1 x = octo_lookup st x) ∧
      octo_newsession octo_calc_hash st (some sid0) cri true true =
        match octo_fill octo_calc_hash encini macini c with
        | .error a => .error a
        | .ok (od, true) =>
          .ok (0, { st1 with octo_sessions := some (arr1.set i (some od)) }, some i)
        | .ok (_, false) => .ok (EINVAL, st1, some i) := by
  obtain ⟨st1, i, hsl⟩ := octo_slot_returns st hinv hcap
  obtain ⟨hinv1, h1, h31, hlk, arr1, hs1, hi1, hslot1⟩ :=
    (octo_slot_spec st true hinv true st1 i hsl).2 rfl
  have hlen1 : arr1.length = st1.octo_sesnum := by
    unfold TableInv at hinv1
    rw [hs1] at hinv1
    exact hinv1.1
  refine ⟨st1, i, arr1, hinv1, hs1, h1, hi1, h31, hslot1, hlk, ?_⟩
  have hinst := octo_install_eq octo_calc_hash st1 arr1 i encini macini c true hs1 hlen1
    hi1 h1 h31 hslot1
  simp only [if_true] at hinst
  rw [← hinst]
  unfold octo_newsession
  have hnn : ¬ ((some sid0 : Option Nat) = none ∨ cri = []) := by simp [hcri]
  rw [if_neg hnn, hcl]
  cases encini with
  | none =>
    cases macini with
    | none => simp [octo_pick_c] at hc
    | some m => simp only [hc, hsl]
  | some e => simp only [hc, hsl]

/-- The session stored in slot `i` is what handle `i` looks up. -/
theorem octo_lookup_installed (st1 : State) (arr1 : List (Option octo_sess)) (i : Nat)
    (od : octo_sess) (hinv : TableInv st1) (hs : st1.octo_sessions = some arr1)
    (h1 : 1 ≤ i) (hi : i < arr1.length) :
    octo_lookup { st1 with octo_sessions := some (arr1.set i (some od)) } i =
      .ok (some od) := by
  unfold TableInv at hinv
  rw [hs] at hinv
  unfold octo_lookup
  have hc : ¬ (i ≥ st1.octo_sesnum ∨ i = 0) := by omega
  simp only [hc, if_false, List.getElem?_set, hi, if_true]

/-- Clearing or filling slot `h` does not change what another handle looks
up. -/
theorem octo_lookup_set_ne (arr : List (Option octo_sess)) (n h j : Nat)
    (v : Option octo_sess) (hne : j ≠ h) :
    octo_lookup { octo_sessions := some (arr.set h v), octo_sesnum := n } j =
      octo_lookup { octo_sessions := some arr, octo_sesnum := n } j := by
  unfold octo_lookup
  simp only [List.getElem?_set, Ne.symm hne, if_false]

/-- A handle whose slot is cleared looks up nothing. -/
theorem octo_lookup_cleared (arr : List (Option octo_sess)) (n h : Nat)
    (hlen : h < arr.length) :
    octo_lookup { octo_sessions := some (arr.set h none), octo_sesnum := n } h =
      .ok none := by
  unfold octo_lookup
  split
  · rfl
  · simp only [List.getElem?_set, hlen, if_true]

/-- On a chain of one or two descriptors with at most one cipher and at
most one mac, the loop of lines 132-151 runs to the end of the chain and
leaves in `encini` / `macini` the cipher / the mac descriptor of the chain. -/
theorem octo_classify_chain (cri : List cryptoini)
    (hlen : cri.length = 1 ∨ cri.length = 2)
    (hc1 : (cri.filter fun d => is_enc_alg d.cri_alg).length ≤ 1)
    (hm1 : (cri.filter fun d => is_mac_alg d.cri_alg).length ≤ 1) :
    octo_classify 2 cri none none =
      ([], cri.find? (fun d => is_enc_alg d.cri_alg),
        cri.find? (fun d => is_mac_alg d.cri_alg)) := by
  rcases cri with _ | ⟨d1, _ | ⟨d2, _ | ⟨d3, rest⟩⟩⟩
  · simp at hlen
  · cases h1 : is_mac_alg d1.cri_alg <;> cases h2 : is_enc_alg d1.cri_alg <;>
      simp [octo_classify, h1, h2]
  · cases h1 : is_mac_alg d1.cri_alg <;> cases h2 : is_enc_alg d1.cri_alg <;>
      cases h3 : is_mac_alg d2.cri_alg <;> cases h4 : is_enc_alg d2.cri_alg <;>
      simp [octo_classify, List.filter, h1, h2, h3, h4] at hc1 hm1 ⊢
  · simp at hlen

/-- The cells of the compatibility matrix, spelled out. -/
theorem matrix_encrypt_isSome_iff (x y : Option Int) :
    (matrix_encrypt x y).isSome = true ↔
      (((x = some CRYPTO_DES_CBC ∨ x = some CRYPTO_3DES_CBC ∨ x = some CRYPTO_AES_CBC) ∧
          (y = none ∨ y = some CRYPTO_MD5_HMAC ∨ y = some CRYPTO_SHA1_HMAC)) ∨
        (x = none ∧ (y = some CRYPTO_MD5_HMAC ∨ y = some CRYPTO_SHA1_HMAC))) := by
  unfold matrix_encrypt
  split_ifs with h1 h2 h3 h4 h5 h6 h7 h8 h9 h10 h11
  all_goals simp only [Option.isSome_some, Option.isSome_none, true_iff, Bool.false_eq_true,
    false_iff]
  all_goals first
    | (rcases h1 with h1 | h1 <;> subst_vars <;>
        simp [CRYPTO_DES_CBC, CRYPTO_3DES_CBC, CRYPTO_AES_CBC, CRYPTO_MD5_HMAC,
          CRYPTO_SHA1_HMAC] <;> tauto)
    | (subst_vars
       simp_all [CRYPTO_DES_CBC, CRYPTO_3DES_CBC, CRYPTO_AES_CBC, CRYPTO_MD5_HMAC,
          CRYPTO_SHA1_HMAC])

/-- What the loop of lines 132-151 leaves in `encini` / `macini` is a cipher
/ a mac descriptor of the chain. -/
theorem octo_classify_kinds (cri rest : List cryptoini) (encini macini : Option cryptoini)
    (h : octo_classify 2 cri none none = (rest, encini, macini)) :
    (∀ e, encini = some e → is_enc_alg e.cri_alg = true ∧ e ∈ cri) ∧
      (∀ m, macini = some m → is_mac_alg m.cri_alg = true ∧ m ∈ cri) := by
  rcases cri with _ | ⟨d1, _ | ⟨d2, tl⟩⟩
  · simp only [octo_classify, Prod.mk.injEq] at h
    obtain ⟨_, h2, h3⟩ := h
    subst h2 h3
    simp
  · cases h1 : is_mac_alg d1.cri_alg <;> cases h2 : is_enc_alg d1.cri_alg <;>
      simp only [octo_classify, h1, h2, Option.isSome_none, Option.isSome_some, Bool.and_false,
        Bool.and_true, Bool.false_eq_true, if_false, if_true, Bool.and_self,
        Prod.mk.injEq] at h <;>
      obtain ⟨_, h3, h4⟩ := h <;> subst h3 h4 <;> simp [h1, h2]
  · cases h1 : is_mac_alg d1.cri_alg <;> cases h2 : is_enc_alg d1.cri_alg <;>
      cases h3 : is_mac_alg d2.cri_alg <;> cases h4 : is_enc_alg d2.cri_alg <;>
      simp only [octo_classify, h1, h2, h3, h4, Option.isSome_none, Option.isSome_some,
        Bool.and_false, Bool.and_true, Bool.false_eq_true, if_false, if_true, Bool.and_self,
        Prod.mk.injEq] at h <;>
      obtain ⟨_, h5, h6⟩ := h <;> subst h5 h6 <;> simp [h1, h2, h3, h4]

/-- The switch of lines 238-306 on DES-CBC or 3DES-CBC with SHA1-HMAC: both
function pointers are set to `octo_des_cbc_sha1_encrypt` (lines 250-251). -/
theorem octo_bind_des_sha1 (octo_calc_hash : Nat → Option (List Nat) → List Nat × List Nat)
    (od : octo_sess) (e m : cryptoini)
    (he : e.cri_alg = CRYPTO_DES_CBC ∨ e.cri_alg = CRYPTO_3DES_CBC)
    (hm : m.cri_alg = CRYPTO_SHA1_HMAC) :
    octo_bind octo_calc_hash od (some m) e =
      .ok ({ od with octo_ivsize := 8,
                     octo_encrypt := some .octo_des_cbc_sha1_encrypt,
                     octo_decrypt := some .octo_des_cbc_sha1_encrypt,
                     octo_hminner := (octo_calc_hash 1 m.cri_key).1,
                     octo_hmouter := (octo_calc_hash 1 m.cri_key).2 }, true) := by
  unfold octo_bind
  simp only [he, if_true, hm, octo_alg_or_none]
  simp [CRYPTO_SHA1_HMAC, CRYPTO_MD5_HMAC, octo_bind_mac, macini_key]

/-- The digest state of a session that lines 213-309 filled successfully
for a mac descriptor with MD5-HMAC or SHA1-HMAC is the one `octo_calc_hash`
computes for that algorithm (0 for MD5, 1 for SHA1) from the descriptor's
key. -/
theorem octo_bind_digest (octo_calc_hash : Nat → Option (List Nat) → List Nat × List Nat)
    (od od1 : octo_sess) (encini : Option cryptoini) (m c : cryptoini)
    (hc : octo_pick_c encini (some m) = some c)
    (he : ∀ e, encini = some e → is_enc_alg e.cri_alg = true)
    (hm : m.cri_alg = CRYPTO_MD5_HMAC ∨ m.cri_alg = CRYPTO_SHA1_HMAC)
    (h : octo_bind octo_calc_hash od (some m) c = .ok (od1, true)) :
    od1.octo_hminner =
        (octo_calc_hash (if m.cri_alg = CRYPTO_MD5_HMAC then 0 else 1) m.cri_key).1 ∧
      od1.octo_hmouter =
        (octo_calc_hash (if m.cri_alg = CRYPTO_MD5_HMAC then 0 else 1) m.cri_key).2 := by
  cases encini with
  | none =>
    simp only [octo_pick_c, Option.some.injEq] at hc
    subst hc
    rcases hm with hv | hv <;>
      simp [octo_bind, octo_alg_or_none, octo_bind_mac, macini_key, hv, CRYPTO_DES_CBC, CRYPTO_3DES_CBC,
        CRYPTO_AES_CBC, CRYPTO_NULL_CBC, CRYPTO_MD5_HMAC, CRYPTO_SHA1_HMAC,
        CRYPTO_NULL_HMAC] at h ⊢ <;>
      rw [← h] <;> simp
  | some e =>
    simp only [octo_pick_c, Option.some.injEq] at hc
    subst hc
    have hev := (is_enc_alg_iff _).1 (he e rfl)
    rcases hev with hw | hw | hw | hw <;> rcases hm with hv | hv <;>
      simp [octo_bind, octo_alg_or_none, octo_bind_mac, macini_key, hv, hw, CRYPTO_DES_CBC, CRYPTO_3DES_CBC,
        CRYPTO_AES_CBC, CRYPTO_NULL_CBC, CRYPTO_MD5_HMAC, CRYPTO_SHA1_HMAC,
        CRYPTO_NULL_HMAC] at h ⊢ <;>
      rw [← h] <;> simp

/-- A return of lines 213-309, step by step: the two key copies, the
switch, and on success the two algorithm ids of lines 308-309. -/
theorem octo_fill_steps (octo_calc_hash : Nat → Option (List Nat) → List Nat × List Nat)
    (encini macini : Option cryptoini) (c : cryptoini) (od : octo_sess) (flag : Bool)
    (h : octo_fill octo_calc_hash encini macini c = .ok (od, flag)) :
    ∃ od1 od2 od4,
      octo_copy_enckey octo_sess.zero encini = .ok od1 ∧
      octo_copy_mackey od1 macini = .ok od2 ∧
      octo_bind octo_calc_hash { od2 with octo_mlen := octo_pick_mlen encini macini }
        macini c = .ok (od4, flag) ∧
      od = (if flag = true then
          { od4 with octo_encalg := octo_alg_or_none encini,
                     octo_macalg := octo_alg_or_none macini }
        else od4) := by
  unfold octo_fill at h
  cases h1 : octo_copy_enckey octo_sess.zero encini with
  | error a => simp [h1] at h
  | ok od1 =>
    cases h2 : octo_copy_mackey od1 macini with
    | error a => simp [h1, h2] at h
    | ok od2 =>
      simp only [h1, h2] at h
      cases h3 : octo_bind octo_calc_hash
          { od2 with octo_mlen := octo_pick_mlen encini macini } macini c with
      | error a => simp [h3] at h
      | ok p =>
        obtain ⟨od4, fl⟩ := p
        cases fl with
        | false =>
          simp only [h3, Except.ok.injEq, Prod.mk.injEq] at h
          obtain ⟨e1, e2⟩ := h
          subst e1 e2
          exact ⟨od1, od2, od4, rfl, h2, h3, by simp⟩
        | true =>
          simp only [h3, Except.ok.injEq, Prod.mk.injEq] at h
          obtain ⟨e1, e2⟩ := h
          subst e1 e2
          exact ⟨od1, od2, od4, rfl, h2, h3, by simp⟩

/-- A session filled for DES-CBC or 3DES-CBC with SHA1-HMAC has
`octo_des_cbc_sha1_encrypt` bound as encrypt and as decrypt primitive. -/
theorem octo_fill_des_sha1 (octo_calc_hash : Nat → Option (List Nat) → List Nat × List Nat)
    (e m : cryptoini) (od : octo_sess) (flag : Bool)
    (he : e.cri_alg = CRYPTO_DES_CBC ∨ e.cri_alg = CRYPTO_3DES_CBC)
    (hm : m.cri_alg = CRYPTO_SHA1_HMAC)
    (h : octo_fill octo_calc_hash (some e) (some m) e = .ok (od, flag)) :
    flag = true ∧ od.octo_encrypt = some .octo_des_cbc_sha1_encrypt ∧
      od.octo_decrypt = some .octo_des_cbc_sha1_encrypt := by
  obtain ⟨od1, od2, od4, _, _, h3, h4⟩ := octo_fill_steps octo_calc_hash _ _ _ _ _ h
  rw [octo_bind_des_sha1 octo_calc_hash _ e m he hm] at h3
  simp only [Except.ok.injEq, Prod.mk.injEq] at h3
  obtain ⟨e1, e2⟩ := h3
  subst e1 e2
  simp only [if_true] at h4
  subst h4
  exact ⟨rfl, rfl, rfl⟩

/-- The mac id and the digest state of a successfully filled session with a
mac descriptor of MD5-HMAC or SHA1-HMAC. -/
theorem octo_fill_digest (octo_calc_hash : Nat → Option (List Nat) → List Nat × List Nat)
    (encini : Option cryptoini) (m c : cryptoini) (od : octo_sess)
    (hc : octo_pick_c encini (some m) = some c)
    (he : ∀ e, encini = some e → is_enc_alg e.cri_alg = true)
    (hm : m.cri_alg = CRYPTO_MD5_HMAC ∨ m.cri_alg = CRYPTO_SHA1_HMAC)
    (h : octo_fill octo_calc_hash encini (some m) c = .ok (od, true)) :
    od.octo_macalg = m.cri_alg ∧
      od.octo_hminner =
        (octo_calc_hash (if m.cri_alg = CRYPTO_MD5_HMAC then 0 else 1) m.cri_key).1 ∧
      od.octo_hmouter =
        (octo_calc_hash (if m.cri_alg = CRYPTO_MD5_HMAC then 0 else 1) m.cri_key).2 := by
  obtain ⟨od1, od2, od4, _, _, h3, h4⟩ := octo_fill_steps octo_calc_hash _ _ _ _ _ h
  obtain ⟨d1, d2⟩ := octo_bind_digest octo_calc_hash _ od4 encini m c hc he hm h3
  simp only [if_true] at h4
  subst h4
  exact ⟨rfl, d1, d2⟩

/-- The algorithm ids lines 308-309 store in a successfully filled session. -/
theorem octo_fill_algs (octo_calc_hash : Nat → Option (List Nat) → List Nat × List Nat)
    (encini macini : Option cryptoini) (c : cryptoini) (od : octo_sess)
    (h : octo_fill octo_calc_hash encini macini c = .ok (od, true)) :
    od.octo_encalg = octo_alg_or_none encini ∧
      od.octo_macalg = octo_alg_or_none macini := by
  obtain ⟨od1, od2, od4, _, _, _, h4⟩ := octo_fill_steps octo_calc_hash _ _ _ _ _ h
  simp only [if_true] at h4
  subst h4
  exact ⟨rfl, rfl⟩

/-! ## Lemmas on octo_process -/

/-- In a well-formed state the lookup of lines 371-377 reads inside the
array. -/
theorem octo_lookup_returns (st : State) (hinv : TableInv st) (x : Nat) :
    ∃ o, octo_lookup st x = .ok o := by
  unfold octo_lookup
  split
  · exact ⟨none, rfl⟩
  · rename_i hx
    unfold TableInv at hinv
    cases hs : st.octo_sessions with
    | none => exact ⟨none, rfl⟩
    | some arr =>
      rw [hs] at hinv
      have hlt : x < arr.length := by omega
      simp only [List.getElem?_eq_getElem hlt]
      exact ⟨_, rfl⟩

/-- The handles the test of lines 371-372 answers with ENOENT. -/
theorem octo_lookup_none (st : State) (lid : Nat)
    (h : lid = 0 ∨ lid ≥ st.octo_sesnum ∨ st.octo_sessions = none ∨
      ∃ arr, st.octo_sessions = some arr ∧ arr[lid]? = some none) :
    octo_lookup st lid = .ok none := by
  unfold octo_lookup
  split
  · rfl
  · rcases h with h | h | h | ⟨arr, hs, hslot⟩
    · omega
    · omega
    · simp only [h]
    · simp only [hs, hslot]

/-- On a request with chain and buffer, `octo_process` is decided by the
lookup: ENOENT and one completion for a handle without session, the `panic`
of line 400 for a live session. -/
theorem octo_process_eq (octo_calc_hash : Nat → Option (List Nat) → List Nat × List Nat)
    (crypto_copydata : Nat → List Nat → Int → Int → List Nat)
    (st : State) (crp : cryptop) (d : cryptodesc) (ds : List cryptodesc) (buf : List Nat)
    (hdesc : crp.crp_desc = d :: ds) (hbuf : crp.crp_buf = some buf) :
    octo_process octo_calc_hash crypto_copydata st (some crp) =
      match octo_lookup st (crp.crp_sid % 2 ^ 32) with
      | .error a => .error a
      | .ok none => .ok (0, st, some { crp with crp_etype := ENOENT }, 1)
      | .ok (some _) => .error (.panic "octo_process: check cryptop type.") := by
  unfold octo_process
  simp only [hdesc, hbuf]
  cases octo_lookup st (crp.crp_sid % 2 ^ 32) with
  | error a => rfl
  | ok o =>
    cases o with
    | none => rfl
    | some od => rfl

/-- The code behind the first `panic` (lines 402-526) completes a request
only through the EINVAL exit of lines 412-417, which needs a chain of more
than two descriptors. -/
theorem octo_process_tail_returns
    (octo_calc_hash : Nat → Option (List Nat) → List Nat × List Nat)
    (crypto_copydata : Nat → List Nat → Int → Int → List Nat)
    (st : State) (crp : cryptop) (buf : List Nat) (lid : Nat) (od : octo_sess)
    (res : Int × State × Option cryptop × Nat)
    (h : octo_process_tail octo_calc_hash crypto_copydata st crp buf lid od = .ok res) :
    3 ≤ crp.crp_desc.length ∧ res = (0, st, some { crp with crp_etype := EINVAL }, 1) := by
  unfold octo_process_tail at h
  rcases hd : crp.crp_desc with _ | ⟨d1, _ | ⟨d2, _ | ⟨d3, rest⟩⟩⟩
  · simp [hd, octo_match] at h
  · simp only [hd, octo_match] at h
    split at h
    · cases h
    · cases h
  · simp only [hd, octo_match] at h
    split at h
    · cases h
    · cases h
  · simp only [hd, octo_match, octo_done, Except.ok.injEq] at h
    exact ⟨by simp, h.symm⟩

/-! ## The claims -/

/-- C1 (defect of the code): in every well-formed state of the session table,
the never-initialised one included, `octo_freesession` called with handle 0
leaves the table unchanged but returns EINVAL, not success: the test of
line 323 rejects the always-empty slot 0 before the `sid == 0` exit of lines
329-331 ("Silently accept and return") can be reached. -/
theorem C1_free_handle_zero_rejected (st : State) (hinv : TableInv st) :
    octo_freesession st 0 = .ok (EINVAL, st) ∧ EINVAL ≠ 0 :=
  ⟨octo_freesession_sid_zero st 0 hinv rfl, by decide⟩

theorem C1_free_handle_zero_rejected_witness :
    TableInv State.init ∧ octo_freesession State.init 0 = .ok (EINVAL, State.init) ∧
      EINVAL ≠ 0 :=
  ⟨TableInv_init, C1_free_handle_zero_rejected State.init TableInv_init⟩

/-- C2 (the claim as stated fails): after creating a session from
`[DES-CBC(8-byte key), MD5-HMAC(key)]` on the initial table and freeing it
once, the second `octo_freesession` does not answer ENOENT (NotFound). -/
theorem C2_second_free_not_ENOENT :
    ¬ ∃ h st1 st2,
      octo_newsession sample_calc_hash State.init (some 0) [sample_des, sample_md5]
        true true = .ok (0, st1, some h) ∧
      0 < h ∧ octo_freesession st1 h = .ok (0, st2) ∧
      octo_freesession st2 h = .ok (ENOENT, st2) := by
  rintro ⟨h, st1, st2, hnew, _, hfree1, hfree2⟩
  rw [sample_newsession] at hnew
  simp only [Except.ok.injEq, Prod.mk.injEq, Option.some.injEq, true_and] at hnew
  obtain ⟨hst, hh⟩ := hnew
  subst hst hh
  have e1 : octo_freesession sample_state 1 = .ok (0, sample_empty) := by rfl
  rw [e1] at hfree1
  simp only [Except.ok.injEq, Prod.mk.injEq, true_and] at hfree1
  subst hfree1
  have e2 : octo_freesession sample_empty 1 = .ok (EINVAL, sample_empty) := by rfl
  rw [e2] at hfree2
  simp only [Except.ok.injEq, Prod.mk.injEq, and_true] at hfree2
  exact absurd hfree2 (by decide)

/-- C2 (amended): in every well-formed table state with capacity below
`2^31`, when both allocations succeed, `octo_newsession` on the chain
`[DES-CBC with an 8-byte key, MD5-HMAC with a key that fits]` returns 0 with
a handle `h > 0`; `octo_freesession(h)` then returns 0, empties slot `h` and
leaves what every other handle looks up unchanged; a second
`octo_freesession(h)` fails with EINVAL (InvalidArgument, not NotFound) and
changes nothing. -/
theorem C2_create_free_free
    (octo_calc_hash : Nat → Option (List Nat) → List Nat × List Nat)
    (st : State) (sid0 : Nat) (e m : cryptoini) (k : List Nat)
    (hinv : TableInv st) (hcap : st.octo_sesnum < 2 ^ 31)
    (he : e.cri_alg = CRYPTO_DES_CBC) (hek : e.cri_key = some k) (hk8 : k.length = 8)
    (heklen : e.cri_klen = 64)
    (hm : m.cri_alg = CRYPTO_MD5_HMAC) (hmfit : key_fits m) :
    ∃ h st1 arr1,
      octo_newsession octo_calc_hash st (some sid0) [e, m] true true =
        .ok (0, st1, some h) ∧
      0 < h ∧ st1.octo_sessions = some arr1 ∧ (∃ od, octo_lookup st1 h = .ok (some od)) ∧
      octo_freesession st1 h =
        .ok (0, { st1 with octo_sessions := some (arr1.set h none) }) ∧
      octo_lookup { st1 with octo_sessions := some (arr1.set h none) } h = .ok none ∧
      (∀ j, j ≠ h →
        octo_lookup { st1 with octo_sessions := some (arr1.set h none) } j =
          octo_lookup st1 j) ∧
      octo_freesession { st1 with octo_sessions := some (arr1.set h none) } h =
        .ok (EINVAL, { st1 with octo_sessions := some (arr1.set h none) }) := by
  have hcl : octo_classify 2 [e, m] none none = ([], some e, some m) := by
    simp [octo_classify, is_mac_alg, is_enc_alg, he, hm, CRYPTO_DES_CBC, CRYPTO_3DES_CBC,
      CRYPTO_AES_CBC, CRYPTO_NULL_CBC, CRYPTO_MD5_HMAC, CRYPTO_SHA1_HMAC, CRYPTO_NULL_HMAC]
  obtain ⟨st1, i, arr1, hinv1, hs1, h1, hi1, h31, hslot1, _, hrun⟩ :=
    octo_newsession_run octo_calc_hash st sid0 [e, m] (some e) (some m) e hinv hcap
      (by simp) hcl rfl
  have hefit : key_fits e := by
    unfold key_fits
    rw [hek, heklen]
    simp only
    refine ⟨by decide, by decide, ?_⟩
    rw [hk8]
    decide
  obtain ⟨od, flag, hfill, hiff, _⟩ := octo_fill_spec octo_calc_hash (some e) (some m) e rfl
    (fun x hx => by
      cases hx
      exact ⟨by simp [is_enc_alg, he], hefit⟩)
    (fun x hx => by
      cases hx
      exact ⟨by simp [is_mac_alg, hm], hmfit⟩)
  have hflag : flag = true := by
    rw [hiff]
    simp [matrix_encrypt, he, hm, CRYPTO_DES_CBC, CRYPTO_MD5_HMAC]
  subst hflag
  rw [hfill] at hrun
  simp only at hrun
  obtain ⟨sessions1, sesnum1⟩ := st1
  simp only at hs1
  subst hs1
  have hlen1 : arr1.length = sesnum1 := by
    simp only [TableInv] at hinv1
    exact hinv1.1
  have h32 : i < 2 ^ 32 := by omega
  refine ⟨i, _, arr1.set i (some od), hrun, h1, rfl, ⟨od, ?_⟩, ?_, ?_, ?_, ?_⟩
  · exact octo_lookup_installed _ arr1 i od hinv1 rfl h1 hi1
  · exact octo_freesession_live _ (arr1.set i (some od)) i od rfl h32 (by omega)
      (by simp only; omega) (by simp [List.getElem?_set, hi1])
  · exact octo_lookup_cleared _ _ i (by simp [hi1])
  · intro j hj
    exact octo_lookup_set_ne _ _ i j none hj
  · exact octo_freesession_empty _ ((arr1.set i (some od)).set i none) i rfl h32
      (by simp [List.getElem?_set, hi1])

theorem C2_create_free_free_witness :
    ∃ h st1 arr1,
      octo_newsession sample_calc_hash State.init (some 0) [sample_des, sample_md5]
        true true = .ok (0, st1, some h) ∧
      0 < h ∧ st1.octo_sessions = some arr1 ∧ (∃ od, octo_lookup st1 h = .ok (some od)) ∧
      octo_freesession st1 h =
        .ok (0, { st1 with octo_sessions := some (arr1.set h none) }) ∧
      octo_lookup { st1 with octo_sessions := some (arr1.set h none) } h = .ok none ∧
      (∀ j, j ≠ h →
        octo_lookup { st1 with octo_sessions := some (arr1.set h none) } j =
          octo_lookup st1 j) ∧
      octo_freesession { st1 with octo_sessions := some (arr1.set h none) } h =
        .ok (EINVAL, { st1 with octo_sessions := some (arr1.set h none) }) :=
  C2_create_free_free sample_calc_hash State.init 0 sample_des sample_md5
    [1, 2, 3, 4, 5, 6, 7, 8] TableInv_init (by decide) rfl rfl rfl rfl rfl
    (by decide)

/-- C3: for every chain of one or two descriptors whose algorithm ids are all
in the closed set, with at most one cipher and at most one mac, whose keys
fit the key buffers, in every well-formed table state with capacity below
`2^31` and with both allocations succeeding, `octo_newsession` returns, with
a handle stored in `*sid`; it returns 0 exactly when the (cipher, mac) pair of
the chain is a cell of the compatibility matrix (a cipher among DES-CBC,
3DES-CBC, AES-CBC with no mac, MD5-HMAC or SHA1-HMAC, or no cipher with
MD5-HMAC or SHA1-HMAC), it returns EINVAL for every other pair, and on
success the session of the returned handle has the encrypt primitive of the
cell bound. -/
theorem C3_compatibility_matrix
    (octo_calc_hash : Nat → Option (List Nat) → List Nat × List Nat)
    (st : State) (sid0 : Nat) (cri : List cryptoini)
    (hinv : TableInv st) (hcap : st.octo_sesnum < 2 ^ 31)
    (hlen : cri.length = 1 ∨ cri.length = 2)
    (hclosed : ∀ d ∈ cri, is_enc_alg d.cri_alg = true ∨ is_mac_alg d.cri_alg = true)
    (hc1 : (cri.filter fun d => is_enc_alg d.cri_alg).length ≤ 1)
    (hm1 : (cri.filter fun d => is_mac_alg d.cri_alg).length ≤ 1)
    (hkeys : ∀ d ∈ cri, key_fits d) :
    ∃ r st2 i,
      octo_newsession octo_calc_hash st (some sid0) cri true true = .ok (r, st2, some i) ∧
      (r = 0 ↔
        ((chain_cipher cri = some CRYPTO_DES_CBC ∨ chain_cipher cri = some CRYPTO_3DES_CBC ∨
            chain_cipher cri = some CRYPTO_AES_CBC) ∧
          (chain_mac cri = none ∨ chain_mac cri = some CRYPTO_MD5_HMAC ∨
            chain_mac cri = some CRYPTO_SHA1_HMAC)) ∨
        (chain_cipher cri = none ∧
          (chain_mac cri = some CRYPTO_MD5_HMAC ∨ chain_mac cri = some CRYPTO_SHA1_HMAC))) ∧
      (r ≠ 0 → r = EINVAL) ∧
      (r = 0 → ∃ od, octo_lookup st2 i = .ok (some od) ∧
        od.octo_encrypt = matrix_encrypt (chain_cipher cri) (chain_mac cri) ∧
        od.octo_encrypt ≠ none) := by
  have hcl := octo_classify_chain cri hlen hc1 hm1
  have hne : cri ≠ [] := by
    intro h0
    rw [h0] at hlen
    simp at hlen
  have hwf_e : ∀ e, cri.find? (fun d => is_enc_alg d.cri_alg) = some e →
      is_enc_alg e.cri_alg = true ∧ key_fits e := by
    intro e h
    have h2 := List.find?_some h
    exact ⟨h2, hkeys e (List.mem_of_find?_eq_some h)⟩
  have hwf_m : ∀ m, cri.find? (fun d => is_mac_alg d.cri_alg) = some m →
      is_mac_alg m.cri_alg = true ∧ key_fits m := by
    intro m h
    have h2 := List.find?_some h
    exact ⟨h2, hkeys m (List.mem_of_find?_eq_some h)⟩
  have hcex : ∃ c, octo_pick_c (cri.find? fun d => is_enc_alg d.cri_alg)
      (cri.find? fun d => is_mac_alg d.cri_alg) = some c := by
    cases he : cri.find? (fun d => is_enc_alg d.cri_alg) with
    | some e => exact ⟨e, rfl⟩
    | none =>
      cases hm : cri.find? (fun d => is_mac_alg d.cri_alg) with
      | some m => exact ⟨m, rfl⟩
      | none =>
        exfalso
        obtain ⟨d, rest, hd⟩ := List.exists_cons_of_ne_nil hne
        have hmem : d ∈ cri := by rw [hd]; exact List.mem_cons_self _ _
        rcases hclosed d hmem with h | h
        · exact (List.find?_eq_none.1 he) d hmem h
        · exact (List.find?_eq_none.1 hm) d hmem h
  obtain ⟨c, hc⟩ := hcex
  obtain ⟨st1, i, arr1, hinv1, hs1, h1, hi1, _, _, _, hrun⟩ :=
    octo_newsession_run octo_calc_hash st sid0 cri _ _ c hinv hcap hne hcl hc
  obtain ⟨od, flag, hfill, hiff, henc⟩ := octo_fill_spec octo_calc_hash _ _ c hc hwf_e hwf_m
  have hcell := matrix_encrypt_isSome_iff (chain_cipher cri) (chain_mac cri)
  rw [hfill] at hrun
  cases flag with
  | false =>
    simp only at hrun
    refine ⟨EINVAL, st1, i, hrun, ?_, fun _ => rfl, fun h => absurd h (by decide)⟩
    constructor
    · intro h
      exact absurd h (by decide)
    · intro h
      have := hiff.2 (hcell.2 h)
      cases this
  | true =>
    simp only at hrun
    refine ⟨0, _, i, hrun, ?_, fun h => absurd rfl h, fun _ => ⟨od, ?_, henc rfl, ?_⟩⟩
    · exact ⟨fun _ => hcell.1 (hiff.1 rfl), fun _ => rfl⟩
    · exact octo_lookup_installed st1 arr1 i od hinv1 hs1 h1 hi1
    · rw [henc rfl]
      intro hnone
      have := hiff.1 rfl
      rw [hnone] at this
      cases this

theorem C3_compatibility_matrix_witness :
    ∃ r st2 i,
      octo_newsession sample_calc_hash State.init (some 0) [sample_des, sample_md5]
        true true = .ok (r, st2, some i) ∧
      (r = 0 ↔
        ((chain_cipher [sample_des, sample_md5] = some CRYPTO_DES_CBC ∨
            chain_cipher [sample_des, sample_md5] = some CRYPTO_3DES_CBC ∨
            chain_cipher [sample_des, sample_md5] = some CRYPTO_AES_CBC) ∧
          (chain_mac [sample_des, sample_md5] = none ∨
            chain_mac [sample_des, sample_md5] = some CRYPTO_MD5_HMAC ∨
            chain_mac [sample_des, sample_md5] = some CRYPTO_SHA1_HMAC)) ∨
        (chain_cipher [sample_des, sample_md5] = none ∧
          (chain_mac [sample_des, sample_md5] = some CRYPTO_MD5_HMAC ∨
            chain_mac [sample_des, sample_md5] = some CRYPTO_SHA1_HMAC))) ∧
      (r ≠ 0 → r = EINVAL) ∧
      (r = 0 → ∃ od, octo_lookup st2 i = .ok (some od) ∧
        od.octo_encrypt =
          matrix_encrypt (chain_cipher [sample_des, sample_md5])
            (chain_mac [sample_des, sample_md5]) ∧
        od.octo_encrypt ≠ none) :=
  C3_compatibility_matrix sample_calc_hash State.init 0 [sample_des, sample_md5]
    TableInv_init (by decide) (by decide) (by decide) (by decide) (by decide)
    (by decide)

/-- C4 (defect of the code): in every well-formed table state, with both
allocations succeeding and keys that fit, `octo_newsession` on DES-CBC or
3DES-CBC combined with SHA1-HMAC succeeds and binds as decrypt primitive the
encrypt primitive `octo_des_cbc_sha1_encrypt` itself (line 251): the decrypt
primitive is not different from the encrypt primitive. -/
theorem C4_des_sha1_decrypt_aliases_encrypt
    (octo_calc_hash : Nat → Option (List Nat) → List Nat × List Nat)
    (st : State) (sid0 : Nat) (e m : cryptoini)
    (hinv : TableInv st) (hcap : st.octo_sesnum < 2 ^ 31)
    (he : e.cri_alg = CRYPTO_DES_CBC ∨ e.cri_alg = CRYPTO_3DES_CBC)
    (hm : m.cri_alg = CRYPTO_SHA1_HMAC) (hke : key_fits e) (hkm : key_fits m) :
    ∃ st2 i od,
      octo_newsession octo_calc_hash st (some sid0) [e, m] true true =
        .ok (0, st2, some i) ∧
      octo_lookup st2 i = .ok (some od) ∧
      od.octo_encrypt = some .octo_des_cbc_sha1_encrypt ∧
      od.octo_decrypt = od.octo_encrypt := by
  have hcl : octo_classify 2 [e, m] none none = ([], some e, some m) := by
    rcases he with he | he <;>
    simp [octo_classify, is_mac_alg, is_enc_alg, he, hm, CRYPTO_DES_CBC, CRYPTO_3DES_CBC,
      CRYPTO_AES_CBC, CRYPTO_NULL_CBC, CRYPTO_MD5_HMAC, CRYPTO_SHA1_HMAC, CRYPTO_NULL_HMAC]
  obtain ⟨st1, i, arr1, hinv1, hs1, h1, hi1, _, _, _, hrun⟩ :=
    octo_newsession_run octo_calc_hash st sid0 [e, m] (some e) (some m) e hinv hcap
      (by simp) hcl rfl
  obtain ⟨od, flag, hfill, _, _⟩ := octo_fill_spec octo_calc_hash (some e) (some m) e rfl
    (fun x hx => by
      cases hx
      exact ⟨(is_enc_alg_iff _).2 (by tauto), hke⟩)
    (fun x hx => by
      cases hx
      exact ⟨(is_mac_alg_iff _).2 (by tauto), hkm⟩)
  obtain ⟨hflag, henc, hdec⟩ := octo_fill_des_sha1 octo_calc_hash e m od flag he hm hfill
  subst hflag
  rw [hfill] at hrun
  simp only at hrun
  exact ⟨_, i, od, hrun, octo_lookup_installed st1 arr1 i od hinv1 hs1 h1 hi1, henc,
    by rw [henc, hdec]⟩

theorem C4_des_sha1_decrypt_aliases_encrypt_witness :
    ∃ st2 i od,
      octo_newsession sample_calc_hash State.init (some 0) [sample_des, sample_sha1]
        true true = .ok (0, st2, some i) ∧
      octo_lookup st2 i = .ok (some od) ∧
      od.octo_encrypt = some .octo_des_cbc_sha1_encrypt ∧
      od.octo_decrypt = od.octo_encrypt :=
  C4_des_sha1_decrypt_aliases_encrypt sample_calc_hash State.init 0 sample_des sample_sha1
    TableInv_init (by decide) (Or.inl rfl) rfl
    (by decide) (by decide)

/-- C5 (defect of the code): every session that `octo_newsession` creates in
a well-formed table state has `octo_mackey_set` equal to 0 on return, also
when a mac is bound: no line of the function sets the flag after the
`memset`. The other half of the claim holds: when the session's mac is
MD5-HMAC or SHA1-HMAC, its inner/outer digest state is the one
`octo_calc_hash` computes for that algorithm from the key of the chain's mac
descriptor. -/
theorem C5_mackey_set_left_zero
    (octo_calc_hash : Nat → Option (List Nat) → List Nat × List Nat)
    (st : State) (sid : Option Nat) (cri : List cryptoini) (a b : Bool)
    (hinv : TableInv st) (st2 : State) (sid2 : Option Nat)
    (h : octo_newsession octo_calc_hash st sid cri a b = .ok (0, st2, sid2)) :
    ∃ i od, sid2 = some i ∧ octo_lookup st2 i = .ok (some od) ∧
      od.octo_mackey_set = 0 ∧
      (od.octo_macalg = CRYPTO_MD5_HMAC ∨ od.octo_macalg = CRYPTO_SHA1_HMAC →
        ∃ m ∈ cri, m.cri_alg = od.octo_macalg ∧
          od.octo_hminner =
            (octo_calc_hash (if m.cri_alg = CRYPTO_MD5_HMAC then 0 else 1) m.cri_key).1 ∧
          od.octo_hmouter =
            (octo_calc_hash (if m.cri_alg = CRYPTO_MD5_HMAC then 0 else 1) m.cri_key).2) := by
  rcases octo_newsession_cases octo_calc_hash st sid cri a b hinv 0 st2 sid2 h with
    ⟨h0, _⟩ | ⟨h0, _⟩ | ⟨st1, i, encini, macini, c, hcl, hc, hsl, hsid, hcase⟩
  · exact absurd h0 (by decide)
  · exact absurd h0 (by decide)
  · obtain ⟨hinv1, h1, _, _, arr1, hs1, hi1, _⟩ :=
      (octo_slot_spec st a hinv true st1 i hsl).2 rfl
    obtain ⟨hke, hkm⟩ := octo_classify_kinds cri [] encini macini hcl
    rcases hcase with ⟨h0, _⟩ | ⟨_, h0, _⟩ | ⟨od, arr, _, _, hfill, hs, hst2⟩
    · exact absurd h0 (by decide)
    · exact absurd h0 (by decide)
    · rw [hs1] at hs
      cases hs
      refine ⟨i, od, hsid, ?_, octo_fill_mackey_set octo_calc_hash _ _ _ _ _ hfill, ?_⟩
      · rw [hst2]
        exact octo_lookup_installed st1 arr1 i od hinv1 hs1 h1 hi1
      · intro hmac
        obtain ⟨_, hmacalg⟩ := octo_fill_algs octo_calc_hash _ _ _ _ hfill
        cases macini with
        | none =>
          rw [hmacalg] at hmac
          simp [octo_alg_or_none, CRYPTO_MD5_HMAC, CRYPTO_SHA1_HMAC] at hmac
        | some m =>
          have hm : m.cri_alg = CRYPTO_MD5_HMAC ∨ m.cri_alg = CRYPTO_SHA1_HMAC := by
            rw [hmacalg] at hmac
            exact hmac
          obtain ⟨d0, d1, d2⟩ := octo_fill_digest octo_calc_hash encini m c od hc
            (fun e he => (hke e he).1) hm hfill
          exact ⟨m, (hkm m rfl).2, d0.symm, d1, d2⟩

theorem C5_mackey_set_left_zero_witness :
    ∃ i od, some 1 = some i ∧ octo_lookup sample_state i = .ok (some od) ∧
      od.octo_mackey_set = 0 ∧
      (od.octo_macalg = CRYPTO_MD5_HMAC ∨ od.octo_macalg = CRYPTO_SHA1_HMAC →
        ∃ m ∈ [sample_des, sample_md5], m.cri_alg = od.octo_macalg ∧
          od.octo_hminner =
            (sample_calc_hash (if m.cri_alg = CRYPTO_MD5_HMAC then 0 else 1) m.cri_key).1 ∧
          od.octo_hmouter =
            (sample_calc_hash (if m.cri_alg = CRYPTO_MD5_HMAC then 0 else 1) m.cri_key).2) :=
  C5_mackey_set_left_zero sample_calc_hash State.init (some 0) [sample_des, sample_md5]
    true true TableInv_init sample_state (some 1) sample_newsession

/-- C6: in every well-formed table state, whenever `octo_newsession` returns
an error, the error is EINVAL or ENOBUFS and every handle looks up after the
call exactly what it looked up before it (a live handle its session, every
other handle nothing): no slot is left occupied by the failed call, also
when the failure comes after a slot was picked or the table grew. -/
theorem C6_error_leaves_bindings
    (octo_calc_hash : Nat → Option (List Nat) → List Nat × List Nat)
    (st : State) (sid : Option Nat) (cri : List cryptoini) (a b : Bool)
    (hinv : TableInv st) (r : Int) (st2 : State) (sid2 : Option Nat)
    (h : octo_newsession octo_calc_hash st sid cri a b = .ok (r, st2, sid2))
    (hr : r ≠ 0) :
    (r = EINVAL ∨ r = ENOBUFS) ∧ TableInv st2 ∧
      ∀ x, octo_lookup st2 x = octo_lookup st x := by
  have hinv2 := octo_newsession_TableInv octo_calc_hash st sid cri a b hinv r st2 sid2 h
  rcases octo_newsession_cases octo_calc_hash st sid cri a b hinv r st2 sid2 h with
    ⟨h0, h2, _⟩ | ⟨h0, h2, _⟩ | ⟨st1, i, encini, macini, c, _, _, hsl, _, hcase⟩
  · exact ⟨Or.inl h0, hinv2, fun x => by rw [h2]⟩
  · exact ⟨Or.inr h0, hinv2, fun x => by rw [h2]⟩
  · obtain ⟨_, _, _, hlk, _⟩ := (octo_slot_spec st a hinv true st1 i hsl).2 rfl
    rcases hcase with ⟨h0, _, h2⟩ | ⟨_, h0, _, _, h2⟩ | ⟨_, _, h0, _⟩
    · exact ⟨Or.inr h0, hinv2, fun x => by rw [h2]; exact hlk x⟩
    · exact ⟨Or.inl h0, hinv2, fun x => by rw [h2]; exact hlk x⟩
    · exact absurd h0 hr

theorem C6_error_leaves_bindings_witness :
    (EINVAL = EINVAL ∨ EINVAL = ENOBUFS) ∧ TableInv sample_empty ∧
      ∀ x, octo_lookup sample_empty x = octo_lookup State.init x :=
  C6_error_leaves_bindings sample_calc_hash State.init (some 0) [sample_null_cbc]
    true true TableInv_init EINVAL sample_empty (some 1) (by rfl) (by decide)

/-- C7: `octo_newsession` returns EINVAL and leaves the globals (array,
capacity) and `*sid` exactly as they were, whatever the allocations would
do, for every chain that (a) has two mac descriptors or two cipher
descriptors as its first two entries, or (b) has three or more descriptors,
or (c) has neither a cipher nor a mac descriptor among its first two
entries. -/
theorem C7_unhandled_chain_rejected
    (octo_calc_hash : Nat → Option (List Nat) → List Nat × List Nat)
    (st : State) (sid : Option Nat) (cri : List cryptoini) (a b : Bool)
    (h : (∃ d1 d2 rest, cri = d1 :: d2 :: rest ∧
            ((is_mac_alg d1.cri_alg = true ∧ is_mac_alg d2.cri_alg = true) ∨
              (is_enc_alg d1.cri_alg = true ∧ is_enc_alg d2.cri_alg = true))) ∨
         3 ≤ cri.length ∨
         (∀ d ∈ cri.take 2, is_mac_alg d.cri_alg = false ∧ is_enc_alg d.cri_alg = false)) :
    octo_newsession octo_calc_hash st sid cri a b = .ok (EINVAL, st, sid) := by
  unfold octo_newsession
  by_cases hnull : sid = none ∨ cri = []
  · rw [if_pos hnull]
  · rw [if_neg hnull]
    rcases cri with _ | ⟨d1, _ | ⟨d2, _ | ⟨d3, rest⟩⟩⟩
    · simp at hnull
    · have hc : is_mac_alg d1.cri_alg = false ∧ is_enc_alg d1.cri_alg = false := by
        rcases h with ⟨_, _, _, h, _⟩ | h | h
        · simp at h
        · simp at h
        · exact h d1 (by simp)
      simp [octo_classify, hc.1, hc.2]
    · have hh : (is_mac_alg d1.cri_alg = true ∧ is_mac_alg d2.cri_alg = true) ∨
          (is_enc_alg d1.cri_alg = true ∧ is_enc_alg d2.cri_alg = true) ∨
          ((is_mac_alg d1.cri_alg = false ∧ is_enc_alg d1.cri_alg = false) ∧
            (is_mac_alg d2.cri_alg = false ∧ is_enc_alg d2.cri_alg = false)) := by
        rcases h with ⟨x1, x2, tl, heq, hk⟩ | h | h
        · simp only [List.cons.injEq] at heq
          obtain ⟨e1, e2, _⟩ := heq
          subst e1 e2
          rcases hk with hk | hk
          · exact Or.inl hk
          · exact Or.inr (Or.inl hk)
        · simp at h
        · exact Or.inr (Or.inr ⟨h d1 (by simp), h d2 (by simp)⟩)
      cases h1 : is_mac_alg d1.cri_alg <;> cases h2 : is_enc_alg d1.cri_alg <;>
        cases h3 : is_mac_alg d2.cri_alg <;> cases h4 : is_enc_alg d2.cri_alg <;>
        simp [octo_classify, h1, h2, h3, h4] at hh ⊢
    · cases h1 : is_mac_alg d1.cri_alg <;> cases h2 : is_enc_alg d1.cri_alg <;>
        cases h3 : is_mac_alg d2.cri_alg <;> cases h4 : is_enc_alg d2.cri_alg <;>
        simp [octo_classify, h1, h2, h3, h4]

theorem C7_unhandled_chain_rejected_witness :
    octo_newsession sample_calc_hash sample_state (some 0)
        [sample_des, sample_md5, sample_sha1] true true =
      .ok (EINVAL, sample_state, some 0) :=
  C7_unhandled_chain_rejected sample_calc_hash sample_state (some 0)
    [sample_des, sample_md5, sample_sha1] true true (Or.inr (Or.inl (by decide)))

/-- C8: in every table state, for every request with a non-null descriptor
chain and buffer whose handle (low 32 bits of `crp_sid`) is 0, is greater
than or equal to the capacity, or names an empty slot (or there is no array
at all), `octo_process` sets `crp_etype` to ENOENT, signals completion once,
returns 0 and leaves the globals, and so every session, as they were. -/
theorem C8_process_unknown_handle
    (octo_calc_hash : Nat → Option (List Nat) → List Nat × List Nat)
    (crypto_copydata : Nat → List Nat → Int → Int → List Nat)
    (st : State) (crp : cryptop)
    (hdesc : crp.crp_desc ≠ []) (hbuf : crp.crp_buf ≠ none)
    (h : crp.crp_sid % 2 ^ 32 = 0 ∨ crp.crp_sid % 2 ^ 32 ≥ st.octo_sesnum ∨
      st.octo_sessions = none ∨
      ∃ arr, st.octo_sessions = some arr ∧ arr[crp.crp_sid % 2 ^ 32]? = some none) :
    octo_process octo_calc_hash crypto_copydata st (some crp) =
      .ok (0, st, some { crp with crp_etype := ENOENT }, 1) := by
  obtain ⟨d, ds, hd⟩ := List.exists_cons_of_ne_nil hdesc
  obtain ⟨buf, hb⟩ := Option.ne_none_iff_exists'.1 hbuf
  rw [octo_process_eq octo_calc_hash crypto_copydata st crp d ds buf hd hb,
    octo_lookup_none st _ h]

theorem C8_process_unknown_handle_witness :
    octo_process sample_calc_hash sample_copydata sample_state
        (some (sample_crp 2 [sample_enccrd, sample_maccrd])) =
      .ok (0, sample_state,
        some { sample_crp 2 [sample_enccrd, sample_maccrd] with crp_etype := ENOENT }, 1) :=
  C8_process_unknown_handle sample_calc_hash sample_copydata sample_state
    (sample_crp 2 [sample_enccrd, sample_maccrd]) (by decide) (by decide)
    (Or.inr (Or.inr (Or.inr ⟨_, rfl, by decide⟩)))

/-- C9 (the claim as stated fails): a well-formed request (cipher and mac
descriptor, buffer) on the live session of handle 1 does not run to
completion: `octo_process` reaches the `panic` of line 400. -/
theorem C9_live_request_panics :
    octo_newsession sample_calc_hash State.init (some 0) [sample_des, sample_md5]
        true true = .ok (0, sample_state, some 1) ∧
      octo_process sample_calc_hash sample_copydata sample_state
        (some (sample_crp 1 [sample_enccrd, sample_maccrd])) =
      .error (.panic "octo_process: check cryptop type.") :=
  ⟨by rfl, by rfl⟩

/-- C9 (amended): in every well-formed table state and for every non-null
request, `octo_process` either completes, returning 0 after exactly one
`crypto_done` call with the outcome in `crp_etype` and the globals
untouched, namely EINVAL when the chain or the buffer is null and ENOENT when
the handle names no live session; or, exactly when chain and buffer are
present and the handle names a live session, it stops at the `panic` of
line 400 without signalling completion. -/
theorem C9_completes_or_panics
    (octo_calc_hash : Nat → Option (List Nat) → List Nat × List Nat)
    (crypto_copydata : Nat → List Nat → Int → Int → List Nat)
    (st : State) (crp : cryptop) (hinv : TableInv st) :
    ((crp.crp_desc = [] ∨ crp.crp_buf = none) ∧
        octo_process octo_calc_hash crypto_copydata st (some crp) =
          .ok (0, st, some { crp with crp_etype := EINVAL }, 1)) ∨
      (crp.crp_desc ≠ [] ∧ crp.crp_buf ≠ none ∧
        octo_lookup st (crp.crp_sid % 2 ^ 32) = .ok none ∧
        octo_process octo_calc_hash crypto_copydata st (some crp) =
          .ok (0, st, some { crp with crp_etype := ENOENT }, 1)) ∨
      (crp.crp_desc ≠ [] ∧ crp.crp_buf ≠ none ∧
        (∃ od, octo_lookup st (crp.crp_sid % 2 ^ 32) = .ok (some od)) ∧
        octo_process octo_calc_hash crypto_copydata st (some crp) =
          .error (.panic "octo_process: check cryptop type.")) := by
  by_cases hdn : crp.crp_desc = []
  · left
    refine ⟨Or.inl hdn, ?_⟩
    unfold octo_process
    simp only [hdn, octo_done]
  · by_cases hbn : crp.crp_buf = none
    · left
      refine ⟨Or.inr hbn, ?_⟩
      obtain ⟨d, ds, hd⟩ := List.exists_cons_of_ne_nil hdn
      unfold octo_process
      simp only [hd, hbn, octo_done]
    · right
      obtain ⟨d, ds, hd⟩ := List.exists_cons_of_ne_nil hdn
      obtain ⟨buf, hb⟩ := Option.ne_none_iff_exists'.1 hbn
      have heq := octo_process_eq octo_calc_hash crypto_copydata st crp d ds buf hd hb
      obtain ⟨o, ho⟩ := octo_lookup_returns st hinv (crp.crp_sid % 2 ^ 32)
      rw [ho] at heq
      cases o with
      | none => exact Or.inl ⟨hdn, hbn, ho, heq⟩
      | some od => exact Or.inr ⟨hdn, hbn, ⟨od, ho⟩, heq⟩

theorem C9_completes_or_panics_witness :
    (((sample_crp 2 [sample_enccrd]).crp_desc = [] ∨
          (sample_crp 2 [sample_enccrd]).crp_buf = none) ∧
        octo_process sample_calc_hash sample_copydata sample_state
            (some (sample_crp 2 [sample_enccrd])) =
          .ok (0, sample_state,
            some { sample_crp 2 [sample_enccrd] with crp_etype := EINVAL }, 1)) ∨
      ((sample_crp 2 [sample_enccrd]).crp_desc ≠ [] ∧
        (sample_crp 2 [sample_enccrd]).crp_buf ≠ none ∧
        octo_lookup sample_state ((sample_crp 2 [sample_enccrd]).crp_sid % 2 ^ 32) =
          .ok none ∧
        octo_process sample_calc_hash sample_copydata sample_state
            (some (sample_crp 2 [sample_enccrd])) =
          .ok (0, sample_state,
            some { sample_crp 2 [sample_enccrd] with crp_etype := ENOENT }, 1)) ∨
      ((sample_crp 2 [sample_enccrd]).crp_desc ≠ [] ∧
        (sample_crp 2 [sample_enccrd]).crp_buf ≠ none ∧
        (∃ od, octo_lookup sample_state
            ((sample_crp 2 [sample_enccrd]).crp_sid % 2 ^ 32) = .ok (some od)) ∧
        octo_process sample_calc_hash sample_copydata sample_state
            (some (sample_crp 2 [sample_enccrd])) =
          .error (.panic "octo_process: check cryptop type.")) :=
  C9_completes_or_panics sample_calc_hash sample_copydata sample_state
    (sample_crp 2 [sample_enccrd]) TableInv_sample

/-- C10 (the claim as stated fails): on the live session of handle 1, created
with DES-CBC and MD5-HMAC, a request whose chain holds only the cipher
descriptor, and one whose chain holds only the mac descriptor, do not
complete with EINVAL: `octo_process` reaches the `panic` of line 400. -/
theorem C10_missing_descriptor_panics :
    octo_newsession sample_calc_hash State.init (some 0) [sample_des, sample_md5]
        true true = .ok (0, sample_state, some 1) ∧
      octo_process sample_calc_hash sample_copydata sample_state
        (some (sample_crp 1 [sample_enccrd])) =
      .error (.panic "octo_process: check cryptop type.") ∧
      octo_process sample_calc_hash sample_copydata sample_state
        (some (sample_crp 1 [sample_maccrd])) =
      .error (.panic "octo_process: check cryptop type.") :=
  ⟨by rfl, by rfl, by rfl⟩

/-- C10 (amended): for every live session (one created with both a cipher and
a mac included) and every request with a buffer and a chain of a single
descriptor, `octo_process` does not complete with EINVAL: it stops at the
`panic` of line 400, before the descriptors are matched and without
signalling completion. The matching code behind that `panic` would not
reject the chain either: lines 403-411 leave no descriptor over, so the
EINVAL exit of lines 412-417 is not taken, and lines 402-526 end in a fault
or the next `panic`. -/
theorem C10_single_descriptor_on_live_session
    (octo_calc_hash : Nat → Option (List Nat) → List Nat × List Nat)
    (crypto_copydata : Nat → List Nat → Int → Int → List Nat)
    (st : State) (crp : cryptop) (d : cryptodesc) (buf : List Nat) (od : octo_sess)
    (hdesc : crp.crp_desc = [d]) (hbuf : crp.crp_buf = some buf)
    (hlive : octo_lookup st (crp.crp_sid % 2 ^ 32) = .ok (some od)) :
    octo_process octo_calc_hash crypto_copydata st (some crp) =
        .error (.panic "octo_process: check cryptop type.") ∧
      (∃ enccrd maccrd, octo_match od crp.crp_desc = .ok (enccrd, maccrd, [])) ∧
      ∃ a, octo_process_tail octo_calc_hash crypto_copydata st crp buf
        (crp.crp_sid % 2 ^ 32) od = .error a := by
  refine ⟨?_, ?_, ?_⟩
  · rw [octo_process_eq octo_calc_hash crypto_copydata st crp d [] buf hdesc hbuf, hlive]
  · rw [hdesc]
    exact ⟨_, _, rfl⟩
  · cases ht : octo_process_tail octo_calc_hash crypto_copydata st crp buf
        (crp.crp_sid % 2 ^ 32) od with
    | error a => exact ⟨a, rfl⟩
    | ok res =>
      have := (octo_process_tail_returns octo_calc_hash crypto_copydata st crp buf _ od
        res ht).1
      rw [hdesc] at this
      simp at this

theorem C10_single_descriptor_on_live_session_witness :
    octo_process sample_calc_hash sample_copydata sample_state
          (some (sample_crp 1 [sample_enccrd])) =
        .error (.panic "octo_process: check cryptop type.") ∧
      (∃ enccrd maccrd,
        octo_match sample_sess (sample_crp 1 [sample_enccrd]).crp_desc =
          .ok (enccrd, maccrd, [])) ∧
      ∃ a, octo_process_tail sample_calc_hash sample_copydata sample_state
        (sample_crp 1 [sample_enccrd]) (List.replicate 36 0)
        ((sample_crp 1 [sample_enccrd]).crp_sid % 2 ^ 32) sample_sess = .error a :=
  C10_single_descriptor_on_live_session sample_calc_hash sample_copydata sample_state
    (sample_crp 1 [sample_enccrd]) sample_enccrd (List.replicate 36 0) sample_sess
    rfl rfl (by rfl)

/-! ## Lemmas for the order and the content of a chain -/

/-- No algorithm id passes both the mac test and the cipher test. -/
theorem not_enc_and_mac (a : Int) (he : is_enc_alg a = true) : is_mac_alg a = false := by
  rcases (is_enc_alg_iff a).1 he with h | h | h | h <;>
    simp [h, is_mac_alg, CRYPTO_DES_CBC, CRYPTO_3DES_CBC, CRYPTO_AES_CBC, CRYPTO_NULL_CBC,
      CRYPTO_MD5_HMAC, CRYPTO_SHA1_HMAC, CRYPTO_NULL_HMAC]

/-- The loop of lines 132-151 on a cipher descriptor followed by a mac
descriptor. -/
theorem octo_classify_enc_mac (e m : cryptoini) (he : is_enc_alg e.cri_alg = true)
    (hm : is_mac_alg m.cri_alg = true) :
    octo_classify 2 [e, m] none none = ([], some e, some m) := by
  have h1 := not_enc_and_mac e.cri_alg he
  have h2 : is_enc_alg m.cri_alg = false := by
    cases h : is_enc_alg m.cri_alg with
    | false => rfl
    | true =>
      rw [not_enc_and_mac m.cri_alg h] at hm
      cases hm
  simp [octo_classify, he, hm, h1, h2]

/-- The loop of lines 132-151 on a mac descriptor followed by a cipher
descriptor. -/
theorem octo_classify_mac_enc (e m : cryptoini) (he : is_enc_alg e.cri_alg = true)
    (hm : is_mac_alg m.cri_alg = true) :
    octo_classify 2 [m, e] none none = ([], some e, some m) := by
  have h1 := not_enc_and_mac e.cri_alg he
  have h2 : is_enc_alg m.cri_alg = false := by
    cases h : is_enc_alg m.cri_alg with
    | false => rfl
    | true =>
      rw [not_enc_and_mac m.cri_alg h] at hm
      cases hm
  simp [octo_classify, he, hm, h1, h2]

/-- The result of `octo_newsession` depends on the chain only through the
result of the loop of lines 132-151 (and on whether the chain is NULL). -/
theorem octo_newsession_congr
    (octo_calc_hash : Nat → Option (List Nat) → List Nat × List Nat)
    (st : State) (sid : Option Nat) (cri1 cri2 : List cryptoini) (a b : Bool)
    (h1 : cri1 ≠ []) (h2 : cri2 ≠ [])
    (hcl : octo_classify 2 cri1 none none = octo_classify 2 cri2 none none) :
    octo_newsession octo_calc_hash st sid cri1 a b =
      octo_newsession octo_calc_hash st sid cri2 a b := by
  unfold octo_newsession
  simp only [h1, h2, or_false, hcl]

/-- C19: `octo_newsession` does not depend on the order of a two-descriptor
chain: for every table state, every `sid` pointer, every outcome of the
allocations, every cipher descriptor `e` and every mac descriptor `m`, the
call on `[e, m]` and the call on `[m, e]` have the same outcome: the same
result code, the same handle in `*sid` and the same globals, so the same
session contents. -/
theorem C19_chain_order_irrelevant
    (octo_calc_hash : Nat → Option (List Nat) → List Nat × List Nat)
    (st : State) (sid : Option Nat) (e m : cryptoini) (a b : Bool)
    (he : is_enc_alg e.cri_alg = true) (hm : is_mac_alg m.cri_alg = true) :
    octo_newsession octo_calc_hash st sid [e, m] a b =
      octo_newsession octo_calc_hash st sid [m, e] a b := by
  apply octo_newsession_congr octo_calc_hash st sid [e, m] [m, e] a b (by simp) (by simp)
  rw [octo_classify_enc_mac e m he hm, octo_classify_mac_enc e m he hm]

theorem C19_chain_order_irrelevant_witness :
    octo_newsession sample_calc_hash State.init (some 0) [sample_des, sample_md5] true true =
        octo_newsession sample_calc_hash State.init (some 0) [sample_md5, sample_des]
          true true ∧
      octo_newsession sample_calc_hash State.init (some 0) [sample_md5, sample_des]
          true true = .ok (0, sample_state, some 1) :=
  ⟨C19_chain_order_irrelevant sample_calc_hash State.init (some 0) sample_des sample_md5
    true true (by decide) (by decide), by rfl⟩

/-- C20: a descriptor whose algorithm id is neither a recognised cipher nor a
recognised mac is skipped by the loop of lines 132-151: for every table
state, every descriptor `d` and every unrecognised descriptor `x`, the calls
of `octo_newsession` on `[x, d]` and on `[d, x]` have the same outcome as
the call on `[d]` (result code, handle, globals); so such a two-descriptor
chain creates a session whenever `[d]` does. -/
theorem C20_unrecognised_descriptor_skipped
    (octo_calc_hash : Nat → Option (List Nat) → List Nat × List Nat)
    (st : State) (sid : Option Nat) (d x : cryptoini) (a b : Bool)
    (hx1 : is_enc_alg x.cri_alg = false) (hx2 : is_mac_alg x.cri_alg = false) :
    octo_newsession octo_calc_hash st sid [x, d] a b =
        octo_newsession octo_calc_hash st sid [d] a b ∧
      octo_newsession octo_calc_hash st sid [d, x] a b =
        octo_newsession octo_calc_hash st sid [d] a b := by
  constructor
  · apply octo_newsession_congr octo_calc_hash st sid [x, d] [d] a b (by simp) (by simp)
    cases h1 : is_mac_alg d.cri_alg <;> cases h2 : is_enc_alg d.cri_alg <;>
      simp [octo_classify, hx1, hx2, h1, h2]
  · apply octo_newsession_congr octo_calc_hash st sid [d, x] [d] a b (by simp) (by simp)
    cases h1 : is_mac_alg d.cri_alg <;> cases h2 : is_enc_alg d.cri_alg <;>
      simp [octo_classify, hx1, hx2, h1, h2]

theorem C20_unrecognised_descriptor_skipped_witness :
    (octo_newsession sample_calc_hash State.init (some 0) [sample_other, sample_md5]
          true true =
        octo_newsession sample_calc_hash State.init (some 0) [sample_md5] true true ∧
      octo_newsession sample_calc_hash State.init (some 0) [sample_md5, sample_other]
          true true =
        octo_newsession sample_calc_hash State.init (some 0) [sample_md5] true true) ∧
      ∃ st1, octo_newsession sample_calc_hash State.init (some 0)
        [sample_other, sample_md5] true true = .ok (0, st1, some 1) :=
  ⟨C20_unrecognised_descriptor_skipped sample_calc_hash State.init (some 0) sample_md5
    sample_other true true (by decide) (by decide), ⟨_, by rfl⟩⟩

/-! ## Lemmas on the choice of the slot -/

/-- The three ways lines 167-201 go on to line 203 in a well-formed state:
the array is created with the default capacity and index 1 is chosen; or the
first empty slot from index 1 on is chosen and the globals stay; or every
slot from index 1 on is occupied, the array is doubled (old slots kept, new
slots empty) and the old capacity is the chosen index. -/
theorem octo_slot_cases (st : State) (k : Bool) (hinv : TableInv st) (st1 : State)
    (i : Nat) (h : octo_slot st k = .ok (true, st1, i)) :
    (st.octo_sessions = none ∧ i = 1 ∧
        st1 = State.mk (some (List.replicate CRYPTO_SW_SESSIONS none)) CRYPTO_SW_SESSIONS) ∨
      (∃ arr, st.octo_sessions = some arr ∧ st1 = st ∧ 1 ≤ i ∧ i < st.octo_sesnum ∧
        arr[i]? = some none ∧ ∀ j, 1 ≤ j → j < i → ∃ od, arr[j]? = some (some od)) ∨
      (∃ arr, st.octo_sessions = some arr ∧ i = st.octo_sesnum ∧
        (∀ j, 1 ≤ j → j < st.octo_sesnum → ∃ od, arr[j]? = some (some od)) ∧
        st1 = State.mk (some (arr ++ List.replicate st.octo_sesnum none))
          (st.octo_sesnum * 2)) := by
  obtain ⟨sessions, sesnum⟩ := st
  cases sessions with
  | none =>
    left
    cases k with
    | true =>
      simp only [octo_slot, octo_scan, octo_grow, true_or, if_true,
        Except.ok.injEq, Prod.mk.injEq, true_and] at h
      exact ⟨rfl, h.2.symm, h.1.symm⟩
    | false =>
      simp only [octo_slot, octo_scan, octo_grow, true_or, if_true, Bool.false_eq_true,
        if_false, Except.ok.injEq, Prod.mk.injEq, false_and] at h
  | some arr =>
    right
    simp only [TableInv] at hinv
    obtain ⟨hlen, hcap, hz⟩ := hinv
    simp only [CRYPTO_SW_SESSIONS] at hcap
    simp only [octo_slot, octo_scan] at h
    cases hsc : octo_scan_from arr sesnum (sesnum - 1) 1 with
    | error a => simp [hsc] at h
    | ok j =>
      simp only [hsc] at h
      obtain ⟨hj1, hj2, hj3, hj4, hj5⟩ := octo_scan_from_spec arr sesnum _ _ _ hsc rfl
      have hjle : j ≤ sesnum := hj2 (by omega)
      by_cases hfull : j = sesnum
      · right
        have hlt31 : sesnum < 2 ^ 31 := by
          have := hj4 (by omega)
          omega
        have hmod : sesnum * 2 % 2 ^ 32 = sesnum * 2 := Nat.mod_eq_of_lt (by omega)
        have hhalf : sesnum * 2 / 2 = sesnum := by omega
        subst hfull
        cases k with
        | true =>
          simp only [octo_grow, or_true, if_true, hmod, hhalf,
            reduceCtorEq, if_false, hlen, le_refl, Except.ok.injEq, Prod.mk.injEq,
            true_and] at h
          obtain ⟨hst, hi⟩ := h
          refine ⟨arr, rfl, hi.symm, hj5, ?_⟩
          rw [← hst]
          simp only [State.mk.injEq, Option.some.injEq, and_true]
          rw [List.take_of_length_le (by omega), List.drop_replicate]
          have hsub : j * 2 - j = j := by omega
          rw [hsub]
        | false =>
          simp only [octo_grow, or_true, if_true, Bool.false_eq_true, if_false,
            Except.ok.injEq, Prod.mk.injEq, false_and] at h
      · left
        have hjlt : j < sesnum := by omega
        simp only [octo_grow, reduceCtorEq, hfull, or_self, if_false, Except.ok.injEq,
          Prod.mk.injEq, true_and] at h
        obtain ⟨hst, hi⟩ := h
        subst hi
        exact ⟨arr, rfl, hst.symm, hj1, hjlt, hj3 hjlt, hj5⟩

/-- When there is no array, or every slot from index 1 on is occupied, and
the `kmalloc` of line 181 fails, lines 167-201 take the early return of line
189 with the globals as they were. -/
theorem octo_slot_alloc_fails (st : State) (hinv : TableInv st)
    (hcap : st.octo_sesnum < 2 ^ 31)
    (hfull : ∀ arr, st.octo_sessions = some arr →
      ∀ j, 1 ≤ j → j < st.octo_sesnum → ∃ od, arr[j]? = some (some od)) :
    ∃ i, octo_slot st false = .ok (false, st, i) := by
  obtain ⟨sessions, sesnum⟩ := st
  cases sessions with
  | none =>
    simp only [TableInv] at hinv
    subst hinv
    exact ⟨1, rfl⟩
  | some arr =>
    simp only [TableInv] at hinv
    obtain ⟨hlen, hc, hz⟩ := hinv
    simp only [CRYPTO_SW_SESSIONS] at hc
    simp only at hcap
    obtain ⟨j, hj⟩ := octo_scan_from_returns arr sesnum hlen hcap (sesnum - 1) 1
    obtain ⟨hj1, hj2, hj3, _, _⟩ := octo_scan_from_spec arr sesnum _ _ _ hj rfl
    have hjs : j = sesnum := by
      by_contra hne
      have hlt : j < sesnum := by
        have := hj2 (by omega)
        omega
      obtain ⟨od, hod⟩ := hfull arr rfl j hj1 hlt
      rw [hj3 hlt] at hod
      cases hod
    subst hjs
    have hmod : j * 2 % 2 ^ 32 = j * 2 := Nat.mod_eq_of_lt (by omega)
    have hhalf : j * 2 / 2 = j := by omega
    have hne : ¬ j * 2 = CRYPTO_SW_SESSIONS := by
      simp only [CRYPTO_SW_SESSIONS]
      omega
    refine ⟨j, ?_⟩
    simp only [octo_slot, octo_scan, hj, octo_grow, or_true, if_true, Bool.false_eq_true,
      if_false, reduceCtorEq, hmod, hne, hhalf]

/-- In a well-formed state the handle `j` with `1 <= j < octo_sesnum` looks
up the content of slot `j`. -/
theorem octo_lookup_slot (st : State) (arr : List (Option octo_sess)) (j : Nat)
    (s : Option octo_sess) (hs : st.octo_sessions = some arr) (h1 : 1 ≤ j)
    (hj : j < st.octo_sesnum) (hslot : arr[j]? = some s) : octo_lookup st j = .ok s := by
  unfold octo_lookup
  have hc : ¬ (j ≥ st.octo_sesnum ∨ j = 0) := by omega
  simp only [hc, if_false, hs, hslot]

/-- The off-by-one of line 323: in a well-formed state with an array, the
handle equal to the capacity passes `sid > octo_sesnum` and line 324 reads
`octo_sessions[octo_sesnum]`, one slot past the end of the array. -/
theorem octo_freesession_at_capacity (st : State) (hinv : TableInv st)
    (hs : st.octo_sessions ≠ none) (h32 : st.octo_sesnum < 2 ^ 32) :
    octo_freesession st st.octo_sesnum = .error .fault := by
  obtain ⟨sessions, sesnum⟩ := st
  cases sessions with
  | none => exact absurd rfl hs
  | some arr =>
    simp only [TableInv] at hinv
    simp only at h32
    unfold octo_freesession CRYPTO_SESID2LID
    simp only [Nat.mod_eq_of_lt h32, gt_iff_lt, lt_self_iff_false, if_false]
    rw [List.getElem?_eq_none (by omega)]

theorem sample_full_occupied (arr : List (Option octo_sess))
    (h : sample_full.octo_sessions = some arr) (j : Nat) (h1 : 1 ≤ j)
    (hj : j < sample_full.octo_sesnum) : ∃ od, arr[j]? = some (some od) := by
  simp only [sample_full, Option.some.injEq, CRYPTO_SW_SESSIONS] at h hj
  subst h
  obtain ⟨j1, rfl⟩ : ∃ j1, j = j1 + 1 := ⟨j - 1, by omega⟩
  refine ⟨sample_sess, ?_⟩
  simp only [List.getElem?_cons_succ, List.getElem?_replicate]
  rw [if_pos (by omega)]

/-- C13: in every well-formed table state with capacity below `2^31`, when a
chain passes the validation of lines 121-161, the array has to be created
(never-initialised table) or grown (every slot from 1 on occupied) and the
`kmalloc` of line 181 fails, `octo_newsession` returns ENOBUFS and the
globals are exactly as before the call: `octo_sesnum` is back at its
previous value (0 for the never-initialised table, the old capacity
otherwise) and every slot is unchanged; `*sid` is not written. -/
theorem C13_table_alloc_failure
    (octo_calc_hash : Nat → Option (List Nat) → List Nat × List Nat)
    (st : State) (sid0 : Nat) (cri : List cryptoini) (b : Bool)
    (encini macini : Option cryptoini) (c : cryptoini)
    (hinv : TableInv st) (hcap : st.octo_sesnum < 2 ^ 31) (hcri : cri ≠ [])
    (hcl : octo_classify 2 cri none none = ([], encini, macini))
    (hc : octo_pick_c encini macini = some c)
    (hfull : ∀ arr, st.octo_sessions = some arr →
      ∀ j, 1 ≤ j → j < st.octo_sesnum → ∃ od, arr[j]? = some (some od)) :
    octo_newsession octo_calc_hash st (some sid0) cri false b =
      .ok (ENOBUFS, st, some sid0) := by
  obtain ⟨i, hsl⟩ := octo_slot_alloc_fails st hinv hcap hfull
  unfold octo_newsession
  have hnn : ¬ ((some sid0 : Option Nat) = none ∨ cri = []) := by simp [hcri]
  rw [if_neg hnn, hcl]
  cases encini with
  | none =>
    cases macini with
    | none => simp [octo_pick_c] at hc
    | some m => simp only [hc, hsl]
  | some e => simp only [hc, hsl]

theorem C13_table_alloc_failure_witness :
    octo_newsession sample_calc_hash sample_full (some 0) [sample_md5] false true =
        .ok (ENOBUFS, sample_full, some 0) ∧
      octo_newsession sample_calc_hash State.init (some 0) [sample_md5] false true =
        .ok (ENOBUFS, State.init, some 0) :=
  ⟨C13_table_alloc_failure sample_calc_hash sample_full 0 [sample_md5] true
      none (some sample_md5) sample_md5 (by decide) (by decide) (by decide) (by rfl) rfl
      sample_full_occupied,
    by rfl⟩

/-- A loop of lines 132-151 that ends at the end of the chain leaves in
`encini` / `macini` the cipher / mac descriptor of the chain, and the chain
has at most two descriptors. -/
theorem octo_classify_done (cri : List cryptoini) (encini macini : Option cryptoini)
    (h : octo_classify 2 cri none none = ([], encini, macini)) :
    encini = chain_cipher_desc cri ∧ macini = chain_mac_desc cri ∧ cri.length ≤ 2 := by
  rcases cri with _ | ⟨d1, _ | ⟨d2, _ | ⟨d3, rest⟩⟩⟩
  · simp only [octo_classify, Prod.mk.injEq, true_and] at h
    obtain ⟨h2, h3⟩ := h
    subst h2 h3
    simp [chain_cipher_desc, chain_mac_desc]
  · cases h1 : is_mac_alg d1.cri_alg <;> cases h2 : is_enc_alg d1.cri_alg <;>
      simp only [octo_classify, h1, h2, Option.isSome_none, Option.isSome_some, Bool.and_false,
        Bool.and_true, Bool.false_eq_true, if_false, if_true, Bool.and_self,
        Prod.mk.injEq, true_and] at h <;>
      obtain ⟨h3, h4⟩ := h <;> subst h3 h4 <;>
      simp [chain_cipher_desc, chain_mac_desc, h1, h2]
  · cases h1 : is_mac_alg d1.cri_alg <;> cases h2 : is_enc_alg d1.cri_alg <;>
      cases h3 : is_mac_alg d2.cri_alg <;> cases h4 : is_enc_alg d2.cri_alg <;>
      simp [octo_classify, h1, h2, h3, h4] at h <;>
      obtain ⟨h5, h6⟩ := h <;> subst h5 h6 <;>
      simp [chain_cipher_desc, chain_mac_desc, h1, h2, h3, h4]
  · cases h1 : is_mac_alg d1.cri_alg <;> cases h2 : is_enc_alg d1.cri_alg <;>
      cases h3 : is_mac_alg d2.cri_alg <;> cases h4 : is_enc_alg d2.cri_alg <;>
      simp [octo_classify, h1, h2, h3, h4] at h

/-- A return of 0 from `octo_newsession` in a well-formed state, spelled
out: the chain classified to `(encini, macini)`, lines 167-201 produced
`st1` and the index `i`, lines 213-309 filled the session `od`, which sits
in slot `i` of the final globals and is what handle `i` looks up. -/
theorem octo_newsession_success
    (octo_calc_hash : Nat → Option (List Nat) → List Nat × List Nat)
    (st : State) (sid : Option Nat) (cri : List cryptoini) (a b : Bool)
    (hinv : TableInv st) (st2 : State) (sid2 : Option Nat)
    (h : octo_newsession octo_calc_hash st sid cri a b = .ok (0, st2, sid2)) :
    ∃ st1 i encini macini c od arr1,
      octo_classify 2 cri none none = ([], encini, macini) ∧
      octo_pick_c encini macini = some c ∧
      octo_slot st a = .ok (true, st1, i) ∧ sid2 = some i ∧
      octo_fill octo_calc_hash encini macini c = .ok (od, true) ∧
      st1.octo_sessions = some arr1 ∧
      st2 = { st1 with octo_sessions := some (arr1.set i (some od)) } ∧
      octo_lookup st2 i = .ok (some od) := by
  rcases octo_newsession_cases octo_calc_hash st sid cri a b hinv 0 st2 sid2 h with
    ⟨h0, _⟩ | ⟨h0, _⟩ | ⟨st1, i, encini, macini, c, hcl, hc, hsl, hsid, hcase⟩
  · exact absurd h0 (by decide)
  · exact absurd h0 (by decide)
  · obtain ⟨hinv1, h1, _, _, arr1, hs1, hi1, _⟩ :=
      (octo_slot_spec st a hinv true st1 i hsl).2 rfl
    rcases hcase with ⟨h0, _⟩ | ⟨_, h0, _⟩ | ⟨od, arr, _, _, hfill, hs, hst2⟩
    · exact absurd h0 (by decide)
    · exact absurd h0 (by decide)
    · rw [hs1] at hs
      cases hs
      refine ⟨st1, i, encini, macini, c, od, arr1, hcl, hc, hsl, hsid, hfill, hs1, hst2, ?_⟩
      rw [hst2]
      exact octo_lookup_installed st1 arr1 i od hinv1 hs1 h1 hi1

/-- The truncated digest length of a successfully filled session is the one
lines 225-231 pick. -/
theorem octo_fill_mlen (octo_calc_hash : Nat → Option (List Nat) → List Nat × List Nat)
    (encini macini : Option cryptoini) (c : cryptoini) (od : octo_sess)
    (h : octo_fill octo_calc_hash encini macini c = .ok (od, true)) :
    od.octo_mlen = octo_pick_mlen encini macini := by
  obtain ⟨od1, od2, od4, _, _, h3, h4⟩ := octo_fill_steps octo_calc_hash _ _ _ _ _ h
  have f3 := congrArg octo_sess.octo_mlen (octo_bind_frame _ _ _ _ _ _ h3)
  simp only at f3
  simp only [if_true] at h4
  subst h4
  exact f3

/-- C16: for every session `octo_newsession` creates in a well-formed table
state, the truncated digest length `octo_mlen` is the `cri_mlen` of the
chain's cipher descriptor when there is one and its `cri_mlen` is not 0;
otherwise the `cri_mlen` of the chain's mac descriptor when there is one and
its `cri_mlen` is not 0; otherwise 12. -/
theorem C16_truncated_digest_length
    (octo_calc_hash : Nat → Option (List Nat) → List Nat × List Nat)
    (st : State) (sid : Option Nat) (cri : List cryptoini) (a b : Bool)
    (hinv : TableInv st) (st2 : State) (sid2 : Option Nat)
    (h : octo_newsession octo_calc_hash st sid cri a b = .ok (0, st2, sid2)) :
    ∃ i od, sid2 = some i ∧ octo_lookup st2 i = .ok (some od) ∧
      (∀ e, chain_cipher_desc cri = some e → e.cri_mlen ≠ 0 → od.octo_mlen = e.cri_mlen) ∧
      ((∀ e, chain_cipher_desc cri = some e → e.cri_mlen = 0) →
        ∀ m, chain_mac_desc cri = some m → m.cri_mlen ≠ 0 → od.octo_mlen = m.cri_mlen) ∧
      ((∀ e, chain_cipher_desc cri = some e → e.cri_mlen = 0) →
        (∀ m, chain_mac_desc cri = some m → m.cri_mlen = 0) → od.octo_mlen = 12) := by
  obtain ⟨st1, i, encini, macini, c, od, arr1, hcl, _, _, hsid, hfill, _, _, hlk⟩ :=
    octo_newsession_success octo_calc_hash st sid cri a b hinv st2 sid2 h
  obtain ⟨he, hm, _⟩ := octo_classify_done cri encini macini hcl
  have hmlen := octo_fill_mlen octo_calc_hash encini macini c od hfill
  rw [he, hm] at hmlen
  refine ⟨i, od, hsid, hlk, ?_, ?_, ?_⟩
  · intro e hce hne
    rw [hmlen, hce]
    simp [octo_pick_mlen, hne]
  · intro hz m hcm hne
    rw [hmlen, hcm]
    cases hce : chain_cipher_desc cri with
    | none => simp [octo_pick_mlen, octo_pick_mlen_mac, hne]
    | some e => simp [octo_pick_mlen, octo_pick_mlen_mac, hne, hz e hce]
  · intro hz hzm
    rw [hmlen]
    cases hce : chain_cipher_desc cri with
    | none =>
      cases hcm : chain_mac_desc cri with
      | none => simp [octo_pick_mlen, octo_pick_mlen_mac]
      | some m => simp [octo_pick_mlen, octo_pick_mlen_mac, hzm m hcm]
    | some e =>
      cases hcm : chain_mac_desc cri with
      | none => simp [octo_pick_mlen, octo_pick_mlen_mac, hz e hce]
      | some m => simp [octo_pick_mlen, octo_pick_mlen_mac, hz e hce, hzm m hcm]

theorem C16_truncated_digest_length_witness :
    ∃ i od, some 1 = some i ∧ octo_lookup sample_state i = .ok (some od) ∧
      (∀ e, chain_cipher_desc [sample_des, sample_md5] = some e → e.cri_mlen ≠ 0 →
        od.octo_mlen = e.cri_mlen) ∧
      ((∀ e, chain_cipher_desc [sample_des, sample_md5] = some e → e.cri_mlen = 0) →
        ∀ m, chain_mac_desc [sample_des, sample_md5] = some m → m.cri_mlen ≠ 0 →
          od.octo_mlen = m.cri_mlen) ∧
      ((∀ e, chain_cipher_desc [sample_des, sample_md5] = some e → e.cri_mlen = 0) →
        (∀ m, chain_mac_desc [sample_des, sample_md5] = some m → m.cri_mlen = 0) →
        od.octo_mlen = 12) :=
  C16_truncated_digest_length sample_calc_hash State.init (some 0) [sample_des, sample_md5]
    true true TableInv_init sample_state (some 1) sample_newsession

/-- A successful `octo_newsession` changes what the returned handle looks up
and nothing else: the handle looked up nothing before, every other handle
looks up what it did. -/
theorem octo_newsession_keeps
    (octo_calc_hash : Nat → Option (List Nat) → List Nat × List Nat)
    (st : State) (sid : Option Nat) (cri : List cryptoini) (a b : Bool)
    (hinv : TableInv st) (st2 : State) (i : Nat)
    (h : octo_newsession octo_calc_hash st sid cri a b = .ok (0, st2, some i)) :
    octo_lookup st i = .ok none ∧ 1 ≤ i ∧ i < 2 ^ 31 ∧
      ∀ x, x ≠ i → octo_lookup st2 x = octo_lookup st x := by
  obtain ⟨st1, i1, encini, macini, c, od, arr1, _, _, hsl, hsid, _, hs1, hst2, _⟩ :=
    octo_newsession_success octo_calc_hash st sid cri a b hinv st2 (some i) h
  simp only [Option.some.injEq] at hsid
  subst hsid
  obtain ⟨hinv1, h1, h31, hlk, arr, hs, hi, hslot⟩ :=
    (octo_slot_spec st a hinv true st1 i hsl).2 rfl
  rw [hs1] at hs
  cases hs
  have hlen1 : arr1.length = st1.octo_sesnum := by
    unfold TableInv at hinv1
    rw [hs1] at hinv1
    exact hinv1.1
  refine ⟨?_, h1, h31, ?_⟩
  · rw [← hlk i]
    exact octo_lookup_slot st1 arr1 i none hs1 h1 (by omega) hslot
  · intro x hx
    rw [hst2, ← hlk x]
    obtain ⟨sessions1, sesnum1⟩ := st1
    simp only at hs1
    subst hs1
    exact octo_lookup_set_ne arr1 sesnum1 i x (some od) hx

/-- C17: in every well-formed table state, a successful `octo_newsession`
returns a handle `h >= 1` that looked up nothing before the call and looks up
the new session after it, and `h` is: 1, with the capacity set to the
default, when the table was never initialised; the smallest index from 1 on
whose slot is empty, with the capacity unchanged, when there is such an
index below the capacity; the old capacity, with the capacity doubled, when
every slot from 1 to the capacity minus 1 is occupied. -/
theorem C17_smallest_empty_slot
    (octo_calc_hash : Nat → Option (List Nat) → List Nat × List Nat)
    (st : State) (sid : Option Nat) (cri : List cryptoini) (a b : Bool)
    (hinv : TableInv st) (st2 : State) (sid2 : Option Nat)
    (h : octo_newsession octo_calc_hash st sid cri a b = .ok (0, st2, sid2)) :
    ∃ i, sid2 = some i ∧ 1 ≤ i ∧ octo_lookup st i = .ok none ∧
      (∃ od, octo_lookup st2 i = .ok (some od)) ∧
      ((st.octo_sessions = none ∧ i = 1 ∧ st2.octo_sesnum = CRYPTO_SW_SESSIONS) ∨
        (st.octo_sessions ≠ none ∧ i < st.octo_sesnum ∧
          (∀ j, 1 ≤ j → j < i → ∃ od, octo_lookup st j = .ok (some od)) ∧
          st2.octo_sesnum = st.octo_sesnum) ∨
        (st.octo_sessions ≠ none ∧ i = st.octo_sesnum ∧
          (∀ j, 1 ≤ j → j < st.octo_sesnum → ∃ od, octo_lookup st j = .ok (some od)) ∧
          st2.octo_sesnum = 2 * st.octo_sesnum)) := by
  obtain ⟨st1, i, encini, macini, c, od, arr1, _, _, hsl, hsid, _, hs1, hst2, hlk2⟩ :=
    octo_newsession_success octo_calc_hash st sid cri a b hinv st2 sid2 h
  subst hsid
  obtain ⟨hnone, h1, _, _⟩ := octo_newsession_keeps octo_calc_hash st sid cri a b hinv st2 i h
  have hses : st2.octo_sesnum = st1.octo_sesnum := by rw [hst2]
  refine ⟨i, rfl, h1, hnone, ⟨od, hlk2⟩, ?_⟩
  rcases octo_slot_cases st a hinv st1 i hsl with
    ⟨hs, hi, hst1⟩ | ⟨arr, hs, hst1, _, hi, _, hocc⟩ | ⟨arr, hs, hi, hocc, hst1⟩
  · left
    refine ⟨hs, hi, ?_⟩
    rw [hses, hst1]
  · right; left
    refine ⟨by rw [hs]; simp, hi, ?_, by rw [hses, hst1]⟩
    intro j hj1 hji
    obtain ⟨odj, hodj⟩ := hocc j hj1 hji
    exact ⟨odj, octo_lookup_slot st arr j (some odj) hs hj1 (by omega) hodj⟩
  · right; right
    refine ⟨by rw [hs]; simp, hi, ?_, ?_⟩
    · intro j hj1 hjs
      obtain ⟨odj, hodj⟩ := hocc j hj1 hjs
      exact ⟨odj, octo_lookup_slot st arr j (some odj) hs hj1 hjs hodj⟩
    · rw [hses, hst1]
      simp only
      omega

theorem C17_smallest_empty_slot_witness :
    ∃ i, some 1 = some i ∧ 1 ≤ i ∧ octo_lookup State.init i = .ok none ∧
      (∃ od, octo_lookup sample_state i = .ok (some od)) ∧
      ((State.init.octo_sessions = none ∧ i = 1 ∧
          sample_state.octo_sesnum = CRYPTO_SW_SESSIONS) ∨
        (State.init.octo_sessions ≠ none ∧ i < State.init.octo_sesnum ∧
          (∀ j, 1 ≤ j → j < i → ∃ od, octo_lookup State.init j = .ok (some od)) ∧
          sample_state.octo_sesnum = State.init.octo_sesnum) ∨
        (State.init.octo_sessions ≠ none ∧ i = State.init.octo_sesnum ∧
          (∀ j, 1 ≤ j → j < State.init.octo_sesnum →
            ∃ od, octo_lookup State.init j = .ok (some od)) ∧
          sample_state.octo_sesnum = 2 * State.init.octo_sesnum)) :=
  C17_smallest_empty_slot sample_calc_hash State.init (some 0) [sample_des, sample_md5]
    true true TableInv_init sample_state (some 1) sample_newsession

theorem sample_trace_eq :
    octo_create_all sample_calc_hash State.init sample_chains = some sample_trace := by
  rfl

/-- One more successful creation in a table filled up to `k`: the handle is
`k + 1` and the table is filled up to `k + 1`. -/
theorem FilledTo_step (octo_calc_hash : Nat → Option (List Nat) → List Nat × List Nat)
    (k : Nat) (st : State) (cri : List cryptoini) (st2 : State) (h : Nat)
    (hk : k + 1 < 2 * CRYPTO_SW_SESSIONS) (hf : FilledTo k st)
    (hrun : octo_newsession octo_calc_hash st (some 0) cri true true =
      .ok (0, st2, some h)) :
    h = k + 1 ∧ FilledTo (k + 1) st2 := by
  obtain ⟨hinv, hcap, hslots⟩ := hf
  have hinv2 := octo_newsession_TableInv octo_calc_hash st (some 0) cri true true hinv 0
    st2 (some h) hrun
  obtain ⟨st1, i, encini, macini, c, od, arr1, _, _, hsl, hsid, _, hs1, hst2, _⟩ :=
    octo_newsession_success octo_calc_hash st (some 0) cri true true hinv st2 (some h) hrun
  simp only [Option.some.injEq] at hsid
  subst hsid
  simp only [CRYPTO_SW_SESSIONS] at hk hcap
  unfold FilledTo
  simp only [CRYPTO_SW_SESSIONS]
  rcases octo_slot_cases st true hinv st1 h hsl with
    ⟨hs, hi, hst1⟩ | ⟨arr, hs, hst1, h1, hi, hempty, hocc⟩ | ⟨arr, hs, hi, hocc, hst1⟩
  · have hses0 : st.octo_sesnum = 0 := by
      unfold TableInv at hinv
      rw [hs] at hinv
      exact hinv
    have hk0 : k = 0 := by
      by_contra hne
      rw [hses0, if_neg hne] at hcap
      by_cases h32 : k < 32
      · rw [if_pos h32] at hcap
        omega
      · rw [if_neg h32] at hcap
        omega
    subst hk0 hi hst1
    simp only [Option.some.injEq] at hs1
    subst hs1
    subst hst2
    refine ⟨rfl, hinv2, by simp [CRYPTO_SW_SESSIONS], ?_⟩
    intro arr harr
    simp only [Option.some.injEq] at harr
    subst harr
    constructor
    · intro j hj1 hj2
      have hj : j = 1 := by omega
      subst hj
      exact ⟨od, by simp [List.getElem?_set, CRYPTO_SW_SESSIONS]⟩
    · intro j hj1 hj2
      simp only [CRYPTO_SW_SESSIONS] at hj2 ⊢
      rw [List.getElem?_set]
      have hne : ¬ 1 = j := by omega
      simp only [hne, if_false, List.getElem?_replicate]
      rw [if_pos hj2]
  · rw [hst1] at hs1 hst2
    rw [hs] at hs1
    simp only [Option.some.injEq] at hs1
    subst hs1
    obtain ⟨hocck, hempk⟩ := hslots arr hs
    have hlen : arr.length = st.octo_sesnum := by
      unfold TableInv at hinv
      rw [hs] at hinv
      exact hinv.1
    have hgt : k < h := by
      by_contra hle
      obtain ⟨odh, hodh⟩ := hocck h h1 (by omega)
      rw [hempty] at hodh
      cases hodh
    have hhk : h = k + 1 := by
      by_contra hne
      obtain ⟨odk, hodk⟩ := hocc (k + 1) (by omega) (by omega)
      rw [hempk (k + 1) (by omega) (by omega)] at hodk
      cases hodk
    subst hhk
    subst hst2
    have hk1 : k ≠ 0 := by
      intro hk0
      rw [if_pos hk0] at hcap
      omega
    refine ⟨rfl, hinv2, ?_, ?_⟩
    · simp only
      have hi2 : k + 1 < (if k = 0 then 0 else if k < 32 then 32 else 2 * 32) := by
        rw [← hcap]
        exact hi
      rw [hcap]
      by_cases hk32 : k < 32
      · rw [if_neg hk1, if_pos hk32] at hi2 ⊢
        rw [if_neg (by omega), if_pos (by omega)]
      · rw [if_neg hk1, if_neg hk32] at hi2 ⊢
        rw [if_neg (by omega), if_neg (by omega)]
    · intro arr2 harr
      simp only [Option.some.injEq] at harr
      subst harr
      constructor
      · intro j hj1 hj2
        rw [List.getElem?_set]
        by_cases hjk : k + 1 = j
        · simp only [hjk, if_true]
          subst hjk
          exact ⟨od, by rw [if_pos (by omega)]⟩
        · simp only [hjk, if_false]
          exact hocck j hj1 (by omega)
      · intro j hj1 hj2
        rw [List.getElem?_set]
        have hjk : ¬ k + 1 = j := by omega
        simp only [hjk, if_false]
        exact hempk j (by omega) hj2
  · obtain ⟨hocck, hempk⟩ := hslots arr hs
    have hlen : arr.length = st.octo_sesnum := by
      unfold TableInv at hinv
      rw [hs] at hinv
      exact hinv.1
    have hcap32 : 32 ≤ st.octo_sesnum := by
      unfold TableInv at hinv
      rw [hs] at hinv
      exact hinv.2.1
    have hk1 : k ≠ 0 := by
      intro hk0
      rw [if_pos hk0] at hcap
      omega
    have hklt : k < st.octo_sesnum := by
      rw [hcap]
      split_ifs <;> omega
    have hses : st.octo_sesnum = k + 1 := by
      by_contra hne
      obtain ⟨odk, hodk⟩ := hocc (k + 1) (by omega) (by omega)
      rw [hempk (k + 1) (by omega) (by omega)] at hodk
      cases hodk
    have hk31 : k = 31 := by
      rw [hses] at hcap
      split_ifs at hcap <;> omega
    subst hk31
    have hh : h = 32 := by omega
    subst hh
    subst hst1
    simp only [Option.some.injEq] at hs1
    subst hs1
    subst hst2
    refine ⟨rfl, hinv2, by simp; omega, ?_⟩
    intro arr2 harr
    simp only [Option.some.injEq] at harr
    subst harr
    constructor
    · intro j hj1 hj2
      rw [List.getElem?_set]
      by_cases hjk : 32 = j
      · subst hjk
        exact ⟨od, by rw [if_pos rfl, if_pos (by simp [hlen]; omega)]⟩
      · simp only [hjk, if_false]
        rw [List.getElem?_append_left (by omega)]
        exact hocck j hj1 (by omega)
    · intro j hj1 hj2
      simp only at hj2
      rw [List.getElem?_set]
      have hjk : ¬ 32 = j := by omega
      simp only [hjk, if_false]
      rw [List.getElem?_append_right (by omega), List.getElem?_replicate]
      rw [if_pos (by omega)]

/-- In a table filled up to `k`, the handles 1 to `k` are live. -/
theorem FilledTo_live (k : Nat) (st : State) (hf : FilledTo k st) (x : Nat) (h1 : 1 ≤ x)
    (hx : x ≤ k) : ∃ od, octo_lookup st x = .ok (some od) := by
  obtain ⟨hinv, hcap, hslots⟩ := hf
  cases hs : st.octo_sessions with
  | none =>
    unfold TableInv at hinv
    rw [hs] at hinv
    rw [hinv] at hcap
    simp only [CRYPTO_SW_SESSIONS] at hcap
    have hk0 : ¬ k = 0 := by omega
    rw [if_neg hk0] at hcap
    by_cases h32 : k < 32
    · rw [if_pos h32] at hcap
      omega
    · rw [if_neg h32] at hcap
      omega
  | some arr =>
    obtain ⟨od, hod⟩ := (hslots arr hs).1 x h1 hx
    have hlen : arr.length = st.octo_sesnum := by
      unfold TableInv at hinv
      rw [hs] at hinv
      exact hinv.1
    have hlt : x < arr.length := by
      by_contra hcon
      rw [List.getElem?_eq_none (by omega)] at hod
      cases hod
    exact ⟨od, octo_lookup_slot st arr x (some od) hs h1 (by omega) hod⟩

/-- The never-initialised table is filled up to 0. -/
theorem FilledTo_init : FilledTo 0 State.init := by
  refine ⟨TableInv_init, rfl, ?_⟩
  intro arr harr
  cases harr

/-- The trace of successive creations in a table filled up to `k`: the
`n`-th creation (counting from 0) returns the handle `k + n + 1` and leaves
the table filled up to `k + n + 1`; it keeps what the handles 1 to `k` look
up, and what every handle created earlier in the trace looks up. -/
theorem octo_create_all_trace
    (octo_calc_hash : Nat → Option (List Nat) → List Nat × List Nat) :
    ∀ (chains : List (List cryptoini)) (k : Nat) (st : State) (tr : List (State × Nat)),
      FilledTo k st → k + chains.length < 2 * CRYPTO_SW_SESSIONS →
      octo_create_all octo_calc_hash st chains = some tr →
      tr.length = chains.length ∧
        (∀ (n : Nat) (stn : State) (hn : Nat), tr[n]? = some (stn, hn) →
          hn = k + n + 1 ∧ FilledTo (k + n + 1) stn ∧
            ∀ x, 1 ≤ x → x ≤ k → octo_lookup stn x = octo_lookup st x) ∧
        (∀ (m n : Nat) (stm : State) (hm : Nat) (stn : State) (hn : Nat), m ≤ n →
          tr[m]? = some (stm, hm) → tr[n]? = some (stn, hn) →
          octo_lookup stn hm = octo_lookup stm hm) := by
  intro chains
  induction chains with
  | nil =>
    intro k st tr _ _ hrun
    simp only [octo_create_all, Option.some.injEq] at hrun
    subst hrun
    simp
  | cons cri rest ih =>
    intro k st tr hf hk hrun
    simp only [List.length_cons] at hk
    unfold octo_create_all at hrun
    cases hnew : octo_newsession octo_calc_hash st (some 0) cri true true with
    | error e => simp [hnew] at hrun
    | ok res =>
      obtain ⟨r, st1, sid1⟩ := res
      cases sid1 with
      | none => simp [hnew] at hrun
      | some h =>
        simp only [hnew] at hrun
        by_cases hr : r = 0
        · subst hr
          simp only [if_true, Option.map_eq_some'] at hrun
          obtain ⟨tr1, htr1, htr⟩ := hrun
          subst htr
          obtain ⟨hh, hf1⟩ := FilledTo_step octo_calc_hash k st cri st1 h (by omega) hf hnew
          subst hh
          obtain ⟨_, _, _, hkeep⟩ := octo_newsession_keeps octo_calc_hash st (some 0) cri
            true true hf.1 st1 (k + 1) hnew
          obtain ⟨ih1, ih2, ih3⟩ := ih (k + 1) st1 tr1 hf1 (by omega) htr1
          refine ⟨by simp [ih1], ?_, ?_⟩
          · intro n stn hn hget
            cases n with
            | zero =>
              simp only [List.getElem?_cons_zero, Option.some.injEq, Prod.mk.injEq] at hget
              obtain ⟨e1, e2⟩ := hget
              subst e1 e2
              exact ⟨rfl, hf1, fun x _ hx => hkeep x (by omega)⟩
            | succ n1 =>
              simp only [List.getElem?_cons_succ] at hget
              obtain ⟨g1, g2, g3⟩ := ih2 n1 stn hn hget
              refine ⟨by omega, ?_, ?_⟩
              · have e : k + (n1 + 1) + 1 = k + 1 + n1 + 1 := by omega
                rw [e]
                exact g2
              · intro x hx1 hx2
                rw [g3 x hx1 (by omega)]
                exact hkeep x (by omega)
          · intro m n stm hm stn hn hmn hgm hgn
            cases m with
            | zero =>
              simp only [List.getElem?_cons_zero, Option.some.injEq, Prod.mk.injEq] at hgm
              obtain ⟨e1, e2⟩ := hgm
              subst e1 e2
              cases n with
              | zero =>
                simp only [List.getElem?_cons_zero, Option.some.injEq, Prod.mk.injEq] at hgn
                rw [hgn.1]
              | succ n1 =>
                simp only [List.getElem?_cons_succ] at hgn
                exact (ih2 n1 stn hn hgn).2.2 (k + 1) (by omega) (le_refl _)
            | succ m1 =>
              cases n with
              | zero => omega
              | succ n1 =>
                simp only [List.getElem?_cons_succ] at hgm hgn
                exact ih3 m1 n1 stm hm stn hn (by omega) hgm hgn
        · simp [hr] at hrun

/-- A call of `octo_newsession` that changes the capacity of an existing
table doubles it and keeps what every handle below the old capacity looks
up, whatever the call returns. -/
theorem octo_newsession_growth
    (octo_calc_hash : Nat → Option (List Nat) → List Nat × List Nat)
    (st : State) (sid : Option Nat) (cri : List cryptoini) (a b : Bool)
    (r : Int) (st2 : State) (sid2 : Option Nat)
    (hinv : TableInv st) (hs : st.octo_sessions ≠ none)
    (h : octo_newsession octo_calc_hash st sid cri a b = .ok (r, st2, sid2))
    (hne : st2.octo_sesnum ≠ st.octo_sesnum) :
    st2.octo_sesnum = 2 * st.octo_sesnum ∧
      ∀ x, x < st.octo_sesnum → octo_lookup st2 x = octo_lookup st x := by
  rcases octo_newsession_cases octo_calc_hash st sid cri a b hinv r st2 sid2 h with
    ⟨_, h2, _⟩ | ⟨_, h2, _⟩ | ⟨st1, i, encini, macini, c, _, _, hsl, _, hcase⟩
  · rw [h2] at hne
    exact absurd rfl hne
  · rw [h2] at hne
    exact absurd rfl hne
  · obtain ⟨_, _, _, hlk, _⟩ := (octo_slot_spec st a hinv true st1 i hsl).2 rfl
    have hses : st2.octo_sesnum = st1.octo_sesnum := by
      rcases hcase with ⟨_, _, h2⟩ | ⟨_, _, _, _, h2⟩ | ⟨_, _, _, _, _, _, h2⟩ <;> rw [h2]
    rcases octo_slot_cases st a hinv st1 i hsl with
      ⟨hn, _⟩ | ⟨arr, _, hst1, _⟩ | ⟨arr, _, hi, _, hst1⟩
    · exact absurd hn hs
    · rw [hses, hst1] at hne
      exact absurd rfl hne
    · refine ⟨by rw [hses, hst1]; simp only; omega, ?_⟩
      intro x hx
      rcases hcase with ⟨_, _, h2⟩ | ⟨_, _, _, _, h2⟩ | ⟨od, arr1, _, _, _, hs1, h2⟩
      · rw [h2]
        exact hlk x
      · rw [h2]
        exact hlk x
      · rw [h2, ← hlk x]
        obtain ⟨sessions1, sesnum1⟩ := st1
        simp only at hs1
        subst hs1
        exact octo_lookup_set_ne arr1 sesnum1 i x (some od) (by omega)

/-! ## Lemmas on the invariant of sessions -/

/-- One mac cell of the switch keeps the IV size. -/
theorem octo_bind_mac_ivsize (octo_calc_hash : Nat → Option (List Nat) → List Nat × List Nat)
    (od od1 : octo_sess) (macini : Option cryptoini) (enc dec : Prim) (auth : Nat)
    (flag : Bool) (h : octo_bind_mac octo_calc_hash od macini enc dec auth = .ok (od1, flag)) :
    od1.octo_ivsize = od.octo_ivsize := by
  have hf := congrArg octo_sess.octo_ivsize (octo_bind_mac_frame _ _ _ _ _ _ _ _ h)
  simp only at hf
  exact hf

/-- When the switch of lines 238-306 binds a primitive, `c` is DES-CBC or
3DES-CBC and the IV size is 8, or `c` is AES-CBC and the IV size is 16, or
`c` is MD5-HMAC or SHA1-HMAC and the IV size is untouched. -/
theorem octo_bind_true (octo_calc_hash : Nat → Option (List Nat) → List Nat × List Nat)
    (od od1 : octo_sess) (macini : Option cryptoini) (c : cryptoini)
    (h : octo_bind octo_calc_hash od macini c = .ok (od1, true)) :
    ((c.cri_alg = CRYPTO_DES_CBC ∨ c.cri_alg = CRYPTO_3DES_CBC) ∧ od1.octo_ivsize = 8) ∨
      (c.cri_alg = CRYPTO_AES_CBC ∧ od1.octo_ivsize = 16) ∨
      ((c.cri_alg = CRYPTO_MD5_HMAC ∨ c.cri_alg = CRYPTO_SHA1_HMAC) ∧
        od1.octo_ivsize = od.octo_ivsize) := by
  unfold octo_bind at h
  simp only at h
  by_cases h1 : c.cri_alg = CRYPTO_DES_CBC ∨ c.cri_alg = CRYPTO_3DES_CBC
  · left
    refine ⟨h1, ?_⟩
    rw [if_pos h1] at h
    split_ifs at h
    · exact octo_bind_mac_ivsize _ _ _ _ _ _ _ _ h
    · exact octo_bind_mac_ivsize _ _ _ _ _ _ _ _ h
    · cases h
      rfl
    · cases h
  · rw [if_neg h1] at h
    by_cases h2 : c.cri_alg = CRYPTO_AES_CBC
    · right; left
      refine ⟨h2, ?_⟩
      rw [if_pos h2] at h
      split_ifs at h
      · exact octo_bind_mac_ivsize _ _ _ _ _ _ _ _ h
      · exact octo_bind_mac_ivsize _ _ _ _ _ _ _ _ h
      · cases h
        rfl
      · cases h
    · right; right
      rw [if_neg h2] at h
      by_cases h3 : c.cri_alg = CRYPTO_MD5_HMAC
      · rw [if_pos h3] at h
        exact ⟨Or.inl h3, octo_bind_mac_ivsize _ _ _ _ _ _ _ _ h⟩
      · rw [if_neg h3] at h
        by_cases h4 : c.cri_alg = CRYPTO_SHA1_HMAC
        · rw [if_pos h4] at h
          exact ⟨Or.inr h4, octo_bind_mac_ivsize _ _ _ _ _ _ _ _ h⟩
        · rw [if_neg h4] at h
          cases h

/-- A session that lines 213-309 filled successfully, for a cipher `encini`
and a mac `macini` as the loop of lines 132-151 leaves them, is well
formed. -/
theorem octo_fill_SessInv (octo_calc_hash : Nat → Option (List Nat) → List Nat × List Nat)
    (encini macini : Option cryptoini) (c : cryptoini) (od : octo_sess)
    (hc : octo_pick_c encini macini = some c)
    (he : ∀ e, encini = some e → is_enc_alg e.cri_alg = true)
    (hm : ∀ m, macini = some m → is_mac_alg m.cri_alg = true)
    (h : octo_fill octo_calc_hash encini macini c = .ok (od, true)) : SessInv od := by
  obtain ⟨od1, od2, od4, h1, h2, h3, h4⟩ := octo_fill_steps octo_calc_hash _ _ _ _ _ h
  have f1 := congrArg octo_sess.octo_ivsize (octo_copy_enckey_frame _ _ _ h1)
  have f2 := congrArg octo_sess.octo_ivsize (octo_copy_mackey_frame _ _ _ h2)
  simp only at f1 f2
  have hiv0 : od2.octo_ivsize = 0 := by
    rw [f2, f1]
    rfl
  have hb := octo_bind_true octo_calc_hash _ od4 macini c h3
  simp only [hiv0] at hb
  simp only [if_true] at h4
  subst h4
  unfold SessInv
  simp only
  cases encini with
  | some e =>
    simp only [octo_pick_c, Option.some.injEq] at hc
    subst hc
    have hev := (is_enc_alg_iff _).1 (he e rfl)
    simp only [octo_alg_or_none]
    rcases hb with ⟨hv, hiv⟩ | ⟨hv, hiv⟩ | ⟨hv, hiv⟩
    · rcases hv with hv | hv <;>
        simp [hv, hiv, CRYPTO_DES_CBC, CRYPTO_3DES_CBC, CRYPTO_AES_CBC]
    · simp [hv, hiv, CRYPTO_DES_CBC, CRYPTO_3DES_CBC, CRYPTO_AES_CBC]
    · exfalso
      rcases hv with hv | hv <;> rcases hev with hw | hw | hw | hw <;>
        simp [hv, CRYPTO_DES_CBC, CRYPTO_3DES_CBC, CRYPTO_AES_CBC, CRYPTO_NULL_CBC,
          CRYPTO_MD5_HMAC, CRYPTO_SHA1_HMAC] at hw
  | none =>
    cases macini with
    | none => simp [octo_pick_c] at hc
    | some m =>
      simp only [octo_pick_c, Option.some.injEq] at hc
      subst hc
      have hmv := (is_mac_alg_iff _).1 (hm m rfl)
      simp only [octo_alg_or_none]
      rcases hb with ⟨hv, hiv⟩ | ⟨hv, hiv⟩ | ⟨hv, hiv⟩
      · exfalso
        rcases hv with hv | hv <;> rcases hmv with hw | hw | hw <;>
          simp [hv, CRYPTO_DES_CBC, CRYPTO_3DES_CBC, CRYPTO_AES_CBC, CRYPTO_NULL_HMAC,
            CRYPTO_MD5_HMAC, CRYPTO_SHA1_HMAC] at hw
      · exfalso
        rcases hmv with hw | hw | hw <;>
          simp [hv, CRYPTO_DES_CBC, CRYPTO_3DES_CBC, CRYPTO_AES_CBC, CRYPTO_NULL_HMAC,
            CRYPTO_MD5_HMAC, CRYPTO_SHA1_HMAC] at hw
      · rcases hv with hv | hv <;>
          simp [hv, hiv, CRYPTO_DES_CBC, CRYPTO_3DES_CBC, CRYPTO_AES_CBC, CRYPTO_MD5_HMAC,
            CRYPTO_SHA1_HMAC]

/-- A return of `octo_freesession` keeps every stored session well formed. -/
theorem octo_freesession_SessionsInv (st st1 : State) (tid : Nat) (r : Int)
    (hsi : SessionsInv st) (h : octo_freesession st tid = .ok (r, st1)) :
    SessionsInv st1 := by
  obtain ⟨sessions, sesnum⟩ := st
  unfold octo_freesession at h
  simp only at h
  split at h
  · simp only [Except.ok.injEq, Prod.mk.injEq] at h
    rw [← h.2]
    exact hsi
  · cases sessions with
    | none =>
      simp only [Except.ok.injEq, Prod.mk.injEq] at h
      rw [← h.2]
      exact hsi
    | some arr =>
      simp only at h
      split at h
      · cases h
      · simp only [Except.ok.injEq, Prod.mk.injEq] at h
        rw [← h.2]
        exact hsi
      · split at h
        · simp only [Except.ok.injEq, Prod.mk.injEq] at h
          rw [← h.2]
          exact hsi
        · simp only [Except.ok.injEq, Prod.mk.injEq] at h
          rw [← h.2]
          intro arr2 harr od hod
          simp only [Option.some.injEq] at harr
          subst harr
          rcases List.mem_or_eq_of_mem_set hod with hmem | heq
          · exact hsi arr rfl od hmem
          · cases heq

/-- Lines 167-201 keep every stored session well formed. -/
theorem octo_slot_SessionsInv (st : State) (k : Bool) (hinv : TableInv st)
    (hsi : SessionsInv st) (st1 : State) (i : Nat)
    (h : octo_slot st k = .ok (true, st1, i)) : SessionsInv st1 := by
  rcases octo_slot_cases st k hinv st1 i h with
    ⟨_, _, hst1⟩ | ⟨arr, _, hst1, _⟩ | ⟨arr, hs, _, _, hst1⟩
  · rw [hst1]
    intro arr2 harr od hod
    simp only [Option.some.injEq] at harr
    subst harr
    rw [List.mem_replicate] at hod
    cases hod.2
  · rw [hst1]
    exact hsi
  · rw [hst1]
    intro arr2 harr od hod
    simp only [Option.some.injEq] at harr
    subst harr
    rcases List.mem_append.1 hod with hmem | hmem
    · exact hsi arr hs od hmem
    · rw [List.mem_replicate] at hmem
      cases hmem.2

/-- A return of `octo_newsession` keeps every stored session well formed. -/
theorem octo_newsession_SessionsInv
    (octo_calc_hash : Nat → Option (List Nat) → List Nat × List Nat)
    (st : State) (sid : Option Nat) (cri : List cryptoini) (a b : Bool)
    (hinv : TableInv st) (hsi : SessionsInv st) (r : Int) (st2 : State)
    (sid2 : Option Nat)
    (h : octo_newsession octo_calc_hash st sid cri a b = .ok (r, st2, sid2)) :
    SessionsInv st2 := by
  rcases octo_newsession_cases octo_calc_hash st sid cri a b hinv r st2 sid2 h with
    ⟨_, h2, _⟩ | ⟨_, h2, _⟩ | ⟨st1, i, encini, macini, c, hcl, hc, hsl, _, hcase⟩
  · rw [h2]; exact hsi
  · rw [h2]; exact hsi
  · have hsi1 := octo_slot_SessionsInv st a hinv hsi st1 i hsl
    obtain ⟨hke, hkm⟩ := octo_classify_kinds cri [] encini macini hcl
    rcases hcase with ⟨_, _, h2⟩ | ⟨_, _, _, _, h2⟩ | ⟨od, arr, _, _, hfill, hs, h2⟩
    · rw [h2]; exact hsi1
    · rw [h2]; exact hsi1
    · rw [h2]
      intro arr2 harr od2 hod
      simp only [Option.some.injEq] at harr
      subst harr
      rcases List.mem_or_eq_of_mem_set hod with hmem | heq
      · exact hsi1 arr hs od2 hmem
      · simp only [Option.some.injEq] at heq
        subst heq
        exact octo_fill_SessInv octo_calc_hash encini macini c od2 hc
          (fun e he => (hke e he).1) (fun m hm => (hkm m hm).1) hfill

/-- Every session stored in a state the driver reaches through calls that
stay inside their objects (`Reachable`) is well formed. -/
theorem reachable_SessionsInv
    (octo_calc_hash : Nat → Option (List Nat) → List Nat × List Nat)
    (crypto_copydata : Nat → List Nat → Int → Int → List Nat) (st : State)
    (h : Reachable octo_calc_hash crypto_copydata st) : SessionsInv st := by
  induction h with
  | init =>
    intro arr harr
    cases harr
  | newsession st st1 sid sid1 cri a b r hreach hrun ih =>
    exact octo_newsession_SessionsInv octo_calc_hash st sid cri a b
      (reachable_TableInv octo_calc_hash crypto_copydata st hreach) ih r st1 sid1 hrun
  | freesession st st1 tid r _ hrun ih =>
    exact octo_freesession_SessionsInv st st1 tid r ih hrun
  | process st st1 crp crp1 r n _ hrun ih =>
    rw [octo_process_state octo_calc_hash crypto_copydata st st1 crp crp1 r n hrun]
    exact ih

/-- A live handle names a session stored in the array. -/
theorem octo_lookup_mem (st : State) (x : Nat) (od : octo_sess)
    (h : octo_lookup st x = .ok (some od)) :
    ∃ arr, st.octo_sessions = some arr ∧ some od ∈ arr := by
  unfold octo_lookup at h
  split at h
  · cases h
  · cases hs : st.octo_sessions with
    | none => simp [hs] at h
    | some arr =>
      simp only [hs] at h
      cases hg : arr[x]? with
      | none => simp [hg] at h
      | some s =>
        simp only [hg, Except.ok.injEq] at h
        subst h
        exact ⟨arr, rfl, List.getElem?_mem hg⟩

/-- The first `n` bytes of a buffer into which `n` bytes of `k` were copied
are the first `n` bytes of `k`. -/
theorem take_copied (k dst : List Nat) (n : Nat) (hk : n ≤ k.length) :
    (k.take n ++ dst.drop n).take n = k.take n := by
  rw [List.take_append_of_le_length (by simp [hk])]
  rw [List.take_take]
  simp

/-- Lines 213-309 are the key copies of lines 215-223 followed by lines
225-309 on the session the copies left. -/
theorem octo_fill_finish (octo_calc_hash : Nat → Option (List Nat) → List Nat × List Nat)
    (encini macini : Option cryptoini) (c : cryptoini) (od1 od2 : octo_sess)
    (h1 : octo_copy_enckey octo_sess.zero encini = .ok od1)
    (h2 : octo_copy_mackey od1 macini = .ok od2) :
    octo_fill octo_calc_hash encini macini c =
      octo_finish octo_calc_hash od2 encini macini c := by
  unfold octo_fill octo_finish
  simp only [h1, h2]

/-- Lines 500-511 for a mac descriptor with an explicit key that fits: the
key and its length are stored, the digest state is computed from the
descriptor's key and `octo_mackey_set` becomes 1. -/
theorem octo_rekey_mac_explicit
    (octo_calc_hash : Nat → Option (List Nat) → List Nat × List Nat)
    (od : octo_sess) (m : cryptodesc) (K : List Nat)
    (hflag : m.crd_flags &&& CRD_F_KEY_EXPLICIT ≠ 0) (hkey : m.crd_key = some K)
    (h0 : 0 ≤ (m.crd_klen + 7).tdiv 8)
    (h1 : ((m.crd_klen + 7).tdiv 8).toNat ≤ od.octo_mackey.length)
    (h2 : ((m.crd_klen + 7).tdiv 8).toNat ≤ K.length) :
    octo_rekey_mac octo_calc_hash od (some m) =
      .ok { od with
        octo_macklen := (m.crd_klen + 7).tdiv 8,
        octo_mackey := K.take ((m.crd_klen + 7).tdiv 8).toNat ++
          od.octo_mackey.drop ((m.crd_klen + 7).tdiv 8).toNat,
        octo_mackey_set := 1,
        octo_hminner :=
          (octo_calc_hash (if m.crd_alg = CRYPTO_MD5_HMAC then 0 else 1) (some K)).1,
        octo_hmouter :=
          (octo_calc_hash (if m.crd_alg = CRYPTO_MD5_HMAC then 0 else 1) (some K)).2 } := by
  unfold octo_rekey_mac
  simp only [hflag, ne_eq, not_false_eq_true, if_true, hkey]
  have hm : memcpy od.octo_mackey K ((m.crd_klen + 7).tdiv 8) =
      .ok (K.take ((m.crd_klen + 7).tdiv 8).toNat ++
        od.octo_mackey.drop ((m.crd_klen + 7).tdiv 8).toNat) := by
    unfold memcpy
    rw [if_pos ⟨h0, h1, h2⟩]
  simp only [hm, octo_rehash, if_true, hkey]

/-- Lines 500-511 for a mac descriptor without explicit key on a session
whose `octo_mackey_set` is not 0: nothing changes. -/
theorem octo_rekey_mac_valid
    (octo_calc_hash : Nat → Option (List Nat) → List Nat × List Nat)
    (od : octo_sess) (m : cryptodesc)
    (hflag : m.crd_flags &&& CRD_F_KEY_EXPLICIT = 0) (hset : od.octo_mackey_set ≠ 0) :
    octo_rekey_mac octo_calc_hash od (some m) = .ok od := by
  unfold octo_rekey_mac
  simp only [hflag, ne_eq, not_true_eq_false, if_false, octo_rehash, hset]

/-- Lines 500-511 for a mac descriptor without explicit key on a session
whose `octo_mackey_set` is 0: `octo_calc_hash` is called with the key
pointer of the descriptor, `maccrd->crd_key` (line 508), not with the
session's `octo_mackey`. -/
theorem octo_rekey_mac_invalid
    (octo_calc_hash : Nat → Option (List Nat) → List Nat × List Nat)
    (od : octo_sess) (m : cryptodesc)
    (hflag : m.crd_flags &&& CRD_F_KEY_EXPLICIT = 0) (hset : od.octo_mackey_set = 0) :
    octo_rekey_mac octo_calc_hash od (some m) =
      .ok { od with
        octo_hminner :=
          (octo_calc_hash (if m.crd_alg = CRYPTO_MD5_HMAC then 0 else 1) m.crd_key).1,
        octo_hmouter :=
          (octo_calc_hash (if m.crd_alg = CRYPTO_MD5_HMAC then 0 else 1) m.crd_key).2,
        octo_mackey_set := 1 } := by
  unfold octo_rekey_mac
  simp only [hflag, ne_eq, not_true_eq_false, if_false, octo_rehash, hset, if_true]

/-- C11 (the claim as stated fails): a request on the live session of handle
1 (DES-CBC with MD5-HMAC) whose mac descriptor carries an explicit key is
not handled: `octo_process` reaches the `panic` of line 400, so no mac key,
digest state or flag is updated by the call. -/
theorem C11_rekey_request_panics :
    octo_newsession sample_calc_hash State.init (some 0) [sample_des, sample_md5]
        true true = .ok (0, sample_state, some 1) ∧
      octo_process sample_calc_hash sample_copydata sample_state
        (some (sample_crp 1 [sample_enccrd, sample_maccrd_key])) =
      .error (.panic "octo_process: check cryptop type.") :=
  ⟨by rfl, by rfl⟩

/-- C11 (amended): for every live session, `octo_process` does not handle a
request with chain and buffer: it stops at the `panic` of line 400 before any
key or digest state is touched. The code for the mac key behind the `panic`
calls (lines 500-511), run on a session `s` and a mac descriptor `m` of the
session's mac algorithm, does this: when `m` carries an explicit key `K`
that fits the key buffer, the session's mac key becomes `K` (with its
length), the inner/outer digest state becomes
`octo_calc_hash(mac algorithm, K)` (0 for MD5-HMAC, 1 otherwise) and
`octo_mackey_set` becomes 1; when `m` carries no explicit key and
`octo_mackey_set` is set, as after such an override, the session (mac key,
digest state and flag included) is left unchanged. -/
theorem C11_mac_key_override
    (octo_calc_hash : Nat → Option (List Nat) → List Nat × List Nat)
    (crypto_copydata : Nat → List Nat → Int → Int → List Nat)
    (st : State) (crp : cryptop) (d : cryptodesc) (ds : List cryptodesc) (buf : List Nat)
    (od : octo_sess)
    (hdesc : crp.crp_desc = d :: ds) (hbuf : crp.crp_buf = some buf)
    (hlive : octo_lookup st (crp.crp_sid % 2 ^ 32) = .ok (some od)) :
    octo_process octo_calc_hash crypto_copydata st (some crp) =
        .error (.panic "octo_process: check cryptop type.") ∧
      (∀ (s : octo_sess) (m : cryptodesc) (K : List Nat),
        m.crd_alg = s.octo_macalg →
        m.crd_flags &&& CRD_F_KEY_EXPLICIT ≠ 0 → m.crd_key = some K →
        0 ≤ (m.crd_klen + 7).tdiv 8 →
        ((m.crd_klen + 7).tdiv 8).toNat ≤ s.octo_mackey.length →
        ((m.crd_klen + 7).tdiv 8).toNat ≤ K.length →
        ∃ s1, octo_rekey_mac octo_calc_hash s (some m) = .ok s1 ∧
          s1.octo_macklen = (m.crd_klen + 7).tdiv 8 ∧
          s1.octo_mackey.take ((m.crd_klen + 7).tdiv 8).toNat =
            K.take ((m.crd_klen + 7).tdiv 8).toNat ∧
          s1.octo_hminner =
            (octo_calc_hash (if s.octo_macalg = CRYPTO_MD5_HMAC then 0 else 1) (some K)).1 ∧
          s1.octo_hmouter =
            (octo_calc_hash (if s.octo_macalg = CRYPTO_MD5_HMAC then 0 else 1) (some K)).2 ∧
          s1.octo_mackey_set = 1 ∧ s1.octo_macalg = s.octo_macalg ∧
          ∀ m2 : cryptodesc, m2.crd_flags &&& CRD_F_KEY_EXPLICIT = 0 →
            octo_rekey_mac octo_calc_hash s1 (some m2) = .ok s1) ∧
      (∀ (s : octo_sess) (m : cryptodesc),
        m.crd_flags &&& CRD_F_KEY_EXPLICIT = 0 → s.octo_mackey_set ≠ 0 →
        octo_rekey_mac octo_calc_hash s (some m) = .ok s) := by
  refine ⟨?_, ?_, ?_⟩
  · rw [octo_process_eq octo_calc_hash crypto_copydata st crp d ds buf hdesc hbuf, hlive]
  · intro s m K hmatch hflag hkey h0 h1 h2
    refine ⟨_, octo_rekey_mac_explicit octo_calc_hash s m K hflag hkey h0 h1 h2, rfl,
      take_copied K _ _ h2, by rw [hmatch], by rw [hmatch], rfl, rfl, ?_⟩
    intro m2 hflag2
    exact octo_rekey_mac_valid octo_calc_hash _ m2 hflag2 (by simp)
  · intro s m hflag hset
    exact octo_rekey_mac_valid octo_calc_hash s m hflag hset

theorem C11_mac_key_override_witness :
    octo_process sample_calc_hash sample_copydata sample_state
        (some (sample_crp 1 [sample_enccrd, sample_maccrd_key])) =
        .error (.panic "octo_process: check cryptop type.") ∧
      ∃ s1, octo_rekey_mac sample_calc_hash sample_sess (some sample_maccrd_key) = .ok s1 ∧
        s1.octo_macklen = 16 ∧ s1.octo_mackey.take 16 = List.replicate 16 3 ∧
        s1.octo_hminner = [1, 0, 0] ∧ s1.octo_hmouter = [3, 3, 3] ∧
        s1.octo_mackey_set = 1 ∧
        octo_rekey_mac sample_calc_hash s1 (some sample_maccrd) = .ok s1 :=
  let t := C11_mac_key_override sample_calc_hash sample_copydata sample_state
    (sample_crp 1 [sample_enccrd, sample_maccrd_key]) sample_enccrd [sample_maccrd_key]
    (List.replicate 36 0) sample_sess rfl rfl (by rfl)
  ⟨t.1,
    match t.2.1 sample_sess sample_maccrd_key (List.replicate 16 3) rfl (by decide) rfl
        (by decide) (by decide) (by decide) with
    | ⟨s1, e1, e2, e3, e4, e5, e6, _, e8⟩ =>
      ⟨s1, e1, e2, e3, e4, e5, e6, e8 sample_maccrd (by decide)⟩⟩

/-! ## Successive creations return -/

/-- On a good chain, in a well-formed state with capacity below `2^31` and
with both allocations succeeding, `octo_newsession` returns 0 and a handle. -/
theorem octo_newsession_good
    (octo_calc_hash : Nat → Option (List Nat) → List Nat × List Nat)
    (st : State) (sid0 : Nat) (cri : List cryptoini)
    (hinv : TableInv st) (hcap : st.octo_sesnum < 2 ^ 31) (hgood : GoodChain cri) :
    ∃ st2 i, octo_newsession octo_calc_hash st (some sid0) cri true true =
      .ok (0, st2, some i) := by
  obtain ⟨hlen, hclosed, hc1, hm1, hkeys, hcell⟩ := hgood
  have hcl := octo_classify_chain cri hlen hc1 hm1
  have hne : cri ≠ [] := by
    intro h0
    rw [h0] at hlen
    simp at hlen
  have hwf_e : ∀ e, cri.find? (fun d => is_enc_alg d.cri_alg) = some e →
      is_enc_alg e.cri_alg = true ∧ key_fits e := by
    intro e h
    have h2 := List.find?_some h
    exact ⟨h2, hkeys e (List.mem_of_find?_eq_some h)⟩
  have hwf_m : ∀ m, cri.find? (fun d => is_mac_alg d.cri_alg) = some m →
      is_mac_alg m.cri_alg = true ∧ key_fits m := by
    intro m h
    have h2 := List.find?_some h
    exact ⟨h2, hkeys m (List.mem_of_find?_eq_some h)⟩
  have hcex : ∃ c, octo_pick_c (cri.find? fun d => is_enc_alg d.cri_alg)
      (cri.find? fun d => is_mac_alg d.cri_alg) = some c := by
    cases he : cri.find? (fun d => is_enc_alg d.cri_alg) with
    | some e => exact ⟨e, rfl⟩
    | none =>
      cases hm : cri.find? (fun d => is_mac_alg d.cri_alg) with
      | some m => exact ⟨m, rfl⟩
      | none =>
        exfalso
        obtain ⟨d, rest, hd⟩ := List.exists_cons_of_ne_nil hne
        have hmem : d ∈ cri := by rw [hd]; exact List.mem_cons_self _ _
        rcases hclosed d hmem with h | h
        · exact (List.find?_eq_none.1 he) d hmem h
        · exact (List.find?_eq_none.1 hm) d hmem h
  obtain ⟨c, hc⟩ := hcex
  obtain ⟨st1, i, arr1, _, _, _, _, _, _, _, hrun⟩ :=
    octo_newsession_run octo_calc_hash st sid0 cri _ _ c hinv hcap hne hcl hc
  obtain ⟨od, flag, hfill, hiff, _⟩ := octo_fill_spec octo_calc_hash _ _ c hc hwf_e hwf_m
  have hflag : flag = true := hiff.2 hcell
  subst hflag
  rw [hfill] at hrun
  exact ⟨_, i, hrun⟩

/-- Successive creations on good chains return, as long as the table stays
below twice the default capacity. -/
theorem octo_create_all_returns
    (octo_calc_hash : Nat → Option (List Nat) → List Nat × List Nat) :
    ∀ (chains : List (List cryptoini)) (k : Nat) (st : State),
      FilledTo k st → k + chains.length < 2 * CRYPTO_SW_SESSIONS →
      (∀ cri ∈ chains, GoodChain cri) →
      ∃ tr, octo_create_all octo_calc_hash st chains = some tr := by
  intro chains
  induction chains with
  | nil =>
    intro k st _ _ _
    exact ⟨[], rfl⟩
  | cons cri rest ih =>
    intro k st hf hk hgood
    simp only [List.length_cons] at hk
    have hcap : st.octo_sesnum < 2 ^ 31 := by
      rw [hf.2.1]
      simp only [CRYPTO_SW_SESSIONS]
      split_ifs <;> omega
    obtain ⟨st2, i, hnew⟩ := octo_newsession_good octo_calc_hash st 0 cri hf.1 hcap
      (hgood cri (List.mem_cons_self _ _))
    obtain ⟨_, hf1⟩ := FilledTo_step octo_calc_hash k st cri st2 i (by omega) hf hnew
    obtain ⟨tr1, htr1⟩ := ih (k + 1) st2 hf1 (by omega)
      (fun c hc => hgood c (List.mem_cons_of_mem _ hc))
    refine ⟨(st2, i) :: tr1, ?_⟩
    unfold octo_create_all
    simp only [hnew, if_true, htr1, Option.map_some']

/-- C12: starting from the never-initialised table, with `C` the default
capacity `CRYPTO_SW_SESSIONS`, `C + 1` successive calls of `octo_newsession`
(every allocation succeeding, no free in between) on chains that create a
session all return 0; whenever `C + 1` successive calls all return 0, they
return the handles 1, 2, ..., `C + 1`, the capacity is `C` after each of the
first `C - 1` calls and `2 * C` after the last two, so it doubles exactly
once and ends at `2 * C`, and every handle created looks up, after each
later call, the same session as right after its creation. More generally, in
every well-formed state a call of `octo_newsession` that changes the
capacity of an existing table doubles it and keeps what every handle below
the old capacity looks up. -/
theorem C12_one_doubling_keeps_bindings
    (octo_calc_hash : Nat → Option (List Nat) → List Nat × List Nat)
    (chains : List (List cryptoini))
    (hlen : chains.length = CRYPTO_SW_SESSIONS + 1) :
    ((∀ cri ∈ chains, GoodChain cri) →
        ∃ tr, octo_create_all octo_calc_hash State.init chains = some tr) ∧
      (∀ tr : List (State × Nat),
        octo_create_all octo_calc_hash State.init chains = some tr →
        tr.length = CRYPTO_SW_SESSIONS + 1 ∧
          (∀ (n : Nat) (stn : State) (hn : Nat), tr[n]? = some (stn, hn) →
            hn = n + 1 ∧
              stn.octo_sesnum =
                (if n + 1 < CRYPTO_SW_SESSIONS then CRYPTO_SW_SESSIONS
                  else 2 * CRYPTO_SW_SESSIONS)) ∧
          (∀ (m n : Nat) (stm : State) (hm : Nat) (stn : State) (hn : Nat), m ≤ n →
            tr[m]? = some (stm, hm) → tr[n]? = some (stn, hn) →
            ∃ od, octo_lookup stm hm = .ok (some od) ∧
              octo_lookup stn hm = .ok (some od))) ∧
      (∀ (st : State) (sid : Option Nat) (cri : List cryptoini) (a b : Bool) (r : Int)
          (st2 : State) (sid2 : Option Nat),
        TableInv st → st.octo_sessions ≠ none →
        octo_newsession octo_calc_hash st sid cri a b = .ok (r, st2, sid2) →
        st2.octo_sesnum ≠ st.octo_sesnum →
        st2.octo_sesnum = 2 * st.octo_sesnum ∧
          ∀ x, x < st.octo_sesnum → octo_lookup st2 x = octo_lookup st x) := by
  have hbound : 0 + chains.length < 2 * CRYPTO_SW_SESSIONS := by
    rw [hlen]
    simp [CRYPTO_SW_SESSIONS]
  refine ⟨?_, ?_, ?_⟩
  · intro hgood
    exact octo_create_all_returns octo_calc_hash chains 0 State.init FilledTo_init hbound
      hgood
  · intro tr hrun
    obtain ⟨t1, t2, t3⟩ := octo_create_all_trace octo_calc_hash chains 0 State.init tr
      FilledTo_init hbound hrun
    refine ⟨by rw [t1, hlen], ?_, ?_⟩
    · intro n stn hn hget
      obtain ⟨g1, g2, _⟩ := t2 n stn hn hget
      refine ⟨by omega, ?_⟩
      have hcap := g2.2.1
      rw [hcap]
      simp only [Nat.zero_add, Nat.add_one_ne_zero, if_false]
    · intro m n stm hm stn hn hmn hgm hgn
      obtain ⟨g1, g2, _⟩ := t2 m stm hm hgm
      obtain ⟨od, hod⟩ := FilledTo_live (0 + m + 1) stm g2 hm (by omega) (by omega)
      exact ⟨od, hod, by rw [t3 m n stm hm stn hn hmn hgm hgn]; exact hod⟩
  · intro st sid cri a b r st2 sid2 hinv hs h hne
    exact octo_newsession_growth octo_calc_hash st sid cri a b r st2 sid2 hinv hs h hne

theorem C12_one_doubling_keeps_bindings_witness :
    (∃ tr, octo_create_all sample_calc_hash State.init sample_chains = some tr) ∧
      sample_trace.length = CRYPTO_SW_SESSIONS + 1 ∧
      (∀ (n : Nat) (stn : State) (hn : Nat), sample_trace[n]? = some (stn, hn) →
        hn = n + 1 ∧
          stn.octo_sesnum =
            (if n + 1 < CRYPTO_SW_SESSIONS then CRYPTO_SW_SESSIONS
              else 2 * CRYPTO_SW_SESSIONS)) ∧
      (∀ (m n : Nat) (stm : State) (hm : Nat) (stn : State) (hn : Nat), m ≤ n →
        sample_trace[m]? = some (stm, hm) → sample_trace[n]? = some (stn, hn) →
        ∃ od, octo_lookup stm hm = .ok (some od) ∧ octo_lookup stn hm = .ok (some od)) :=
  ⟨(C12_one_doubling_keeps_bindings sample_calc_hash sample_chains (by decide)).1
      (fun cri h => by
        rw [(List.mem_replicate.1 h).2]
        exact ⟨by decide, by decide, by decide, by decide, by decide, by decide⟩),
    (C12_one_doubling_keeps_bindings sample_calc_hash sample_chains (by decide)).2.1
      sample_trace sample_trace_eq⟩

end Cryptocteon
